import Mathlib

/-!
Curve card battle game: the turn engine.

A shallow embedding of `src/gameLogic/helpers.js` and `src/gameLogic/gameReducer.js`.

Modelling conventions.

* JavaScript numbers that the rules only ever add, subtract and compare (health, mana,
  cost, attack, turn, coordinates) are `Int`.
* A player index is `Fin 2`: `players` is a two-element array and `currentPlayer` only
  takes the values `0` and `1`.
* The board is an array of `ROWS = 5` row arrays.  No code path changes the number of
  rows, so the board is a function from `Fin ROWS` to rows.  A row is a list of optional
  units: reading past its end gives `undefined` (here `none`) and writing past its end
  grows the array, the new gap reading as empty.
* Every transition builds new objects (`{...state}`, `map(row => [...row])`); the
  embedding is value-passing, so the copies are the identity.
* The identity test `newState.board[row][col] !== unit` is structural inequality here.
-/

namespace CurveGame

/-! ## Constants (helpers.js, lines 5-11) -/

abbrev ROWS : Nat := 5
abbrev COLS : Nat := 7
def STARTING_HEALTH : Int := 30
def STARTING_HAND_SIZE : Nat := 3
def MAX_MANA : Int := 10
def HAND_SIZE_LIMIT : Nat := 7
def FATIGUE_DAMAGE : Int := 1

/-! ## Data model -/

/-- The card record returned by `generateCard` (helpers.js, lines 76-87). -/
structure Card where
  id : String
  name : String
  cost : Int
  attack : Int
  health : Int
  maxHealth : Int
  type : String
  movement : Int
  hasTaunt : Bool
  description : String
deriving DecidableEq

/-- A unit on the board: `{...selectedCard, playerIndex: currentPlayer}`. -/
structure PlacedUnit extends Card where
  playerIndex : Fin 2
deriving DecidableEq

/-- A player record (helpers.js, lines 158-177). -/
structure Player where
  id : Nat
  health : Int
  mana : Int
  manaCapacity : Int
  deck : List Card
  hand : List Card
  archetype : String
  fatigueDamage : Int
deriving DecidableEq

/-- One row array of the board. -/
abbrev Row := List (Option PlacedUnit)

/-- The board: `ROWS` row arrays. -/
abbrev Board := Fin ROWS → Row

/-- The game state (helpers.js, lines 189-203). -/
structure GameState where
  board : Board
  players : Fin 2 → Player
  currentPlayer : Fin 2
  turn : Int
  gameOver : Bool
  winner : Option (Fin 2)
  message : String
  selectedCard : Option Card
  isFirstTurn : Bool
  isProcessingAI : Bool
  log : List String
  gameMode : Option String
  error : Option String

/-! ## Board access -/

/-- The row index denoted by a JavaScript number, when it is one of `0 .. ROWS-1`. -/
def rowIdx? (r : Int) : Option (Fin ROWS) :=
  if h : 0 ≤ r ∧ r < ROWS then some ⟨r.toNat, by omega⟩ else none

/-- Reading `row[c]`: `undefined` and `null` are both `none`. -/
def rowGet (row : Row) (c : Int) : Option PlacedUnit :=
  if 0 ≤ c then (row.getD c.toNat none) else none

/-- Writing `row[c] = v` for an index `c ≥ 0`: inside the array it replaces the element,
past the end it grows the array (the gap reads as empty). -/
def rowSet (row : Row) (c : Nat) (v : Option PlacedUnit) : Row :=
  if c < row.length then row.set c v
  else row ++ List.replicate (c - row.length) none ++ [v]

/-- Reading `board[r][c]`.  Every call site has `r` among `0 .. ROWS-1`. -/
def getCell (board : Board) (r c : Int) : Option PlacedUnit :=
  match rowIdx? r with
  | some i => rowGet (board i) c
  | none => none

/-- Writing `board[r][c] = v`.  A negative `c` sets a non-element property of the row
array, which leaves its elements as they are. -/
def setCell (board : Board) (r c : Int) (v : Option PlacedUnit) : Board :=
  match rowIdx? r with
  | some i => if 0 ≤ c then Function.update board i (rowSet (board i) c.toNat v) else board
  | none => board

/-! ## Draw phase (helpers.js, lines 207-235) -/

/-- The display number of a player, `playerIndex + 1`. -/
def playerNo (playerIndex : Fin 2) : Int := (playerIndex.val : Int) + 1

/-- Replace the record of one player: `players.map((p, idx) => idx === i ? player : p)`. -/
def setPlayer (players : Fin 2 → Player) (playerIndex : Fin 2) (player : Player) :
    Fin 2 → Player :=
  fun idx => if idx = playerIndex then player else players idx

def drawCardOrFatigue (state : GameState) (playerIndex : Fin 2) : GameState :=
  let player := state.players playerIndex
  if player.hand.length < HAND_SIZE_LIMIT then
    match player.deck.getLast? with
    | some drawnCard =>
      let newHand := player.hand ++ [drawnCard]
      let newDeck := player.deck.dropLast
      { state with
        log := state.log ++ ["Turn " ++ toString state.turn ++ ": Player " ++
          toString (playerNo playerIndex) ++ " draws " ++ drawnCard.name]
        players := setPlayer state.players playerIndex
          { player with hand := newHand, deck := newDeck } }
    | none =>
      let player1 := { player with
        fatigueDamage := player.fatigueDamage + FATIGUE_DAMAGE
        health := player.health - (player.fatigueDamage + FATIGUE_DAMAGE) }
      { state with
        log := state.log ++ ["Turn " ++ toString state.turn ++ ": Player " ++
          toString (playerNo playerIndex) ++ " takes " ++
          toString (player1.fatigueDamage + FATIGUE_DAMAGE) ++ " fatigue damage!"]
        players := setPlayer state.players playerIndex player1 }
  else
    match player.deck.getLast? with
    | some burnedCard =>
      let newDeck := player.deck.dropLast
      { state with
        log := state.log ++ ["Turn " ++ toString state.turn ++ ": Player " ++
          toString (playerNo playerIndex) ++ " burns " ++ burnedCard.name ++ " (hand full)!"]
        players := setPlayer state.players playerIndex { player with deck := newDeck } }
    | none => { state with players := setPlayer state.players playerIndex player }

/-! ## Unit collection and processing order (helpers.js, lines 244-256 and 313-325) -/

/-- An entry `{ unit, row, col }` of the `units` array. -/
structure UnitPos where
  unit : PlacedUnit
  row : Nat
  col : Nat
deriving DecidableEq

/-- The nested `forEach` over rows and columns, in row-major order. -/
def collectUnits (board : Board) (currentPlayer : Fin 2) : List UnitPos :=
  (List.finRange ROWS).flatMap fun rowIndex =>
    (board rowIndex).enum.filterMap fun cell =>
      match cell.2 with
      | some unit =>
        if unit.playerIndex = currentPlayer then some ⟨unit, rowIndex.val, cell.1⟩ else none
      | none => none

/-- The comparator of `units.sort`: `a` may stay before `b` when the comparator's value
`currentPlayer === 0 ? b.row - a.row : a.row - b.row` is at most `0`. -/
def unitOrder (currentPlayer : Fin 2) (a b : UnitPos) : Prop :=
  if currentPlayer = 0 then b.row ≤ a.row else a.row ≤ b.row

instance unitOrderDecidable (currentPlayer : Fin 2) : DecidableRel (unitOrder currentPlayer) :=
  fun a b => inferInstanceAs (Decidable (if currentPlayer = 0 then b.row ≤ a.row else a.row ≤ b.row))

/-- The stable sort `Array.prototype.sort` (insertion sort is stable). -/
def sortUnits (currentPlayer : Fin 2) (units : List UnitPos) : List UnitPos :=
  units.insertionSort (unitOrder currentPlayer)

def direction (currentPlayer : Fin 2) : Int := if currentPlayer = 0 then 1 else -1

def opponentSpawnRow (currentPlayer : Fin 2) : Int :=
  if currentPlayer = 0 then (ROWS : Int) - 1 else 0

def opponentIndex (currentPlayer : Fin 2) : Fin 2 := 1 - currentPlayer

/-! ## Battle phase (helpers.js, lines 306-376) -/

/-- A valid target `{ r, c, unit }`. -/
structure Target where
  r : Int
  c : Int
  unit : PlacedUnit
deriving DecidableEq

/-- The bounds test `r >= 0 && r < ROWS && c >= 0 && c < COLS`. -/
def inBounds (r c : Int) : Bool :=
  decide (0 ≤ r) && decide (r < ROWS) && decide (0 ≤ c) && decide (c < COLS)

/-- The candidate cells of a unit at `(row, col)`: straight, left, right, bounds-checked. -/
def frontCells (currentPlayer : Fin 2) (row col : Nat) : List (Int × Int) :=
  [((row : Int) + direction currentPlayer, (col : Int)),
   ((row : Int) + direction currentPlayer, (col : Int) - 1),
   ((row : Int) + direction currentPlayer, (col : Int) + 1)].filter
    fun cell => inBounds cell.1 cell.2

/-- The candidate cells that hold an enemy unit, in candidate order. -/
def validTargets (board : Board) (currentPlayer : Fin 2) (row col : Nat) : List Target :=
  (frontCells currentPlayer row col).filterMap fun cell =>
    match getCell board cell.1 cell.2 with
    | some unit => if unit.playerIndex ≠ currentPlayer then some ⟨cell.1, cell.2, unit⟩ else none
    | none => none

/-- The target choice: `tauntTargets.length > 0 ? tauntTargets[0] : validTargets[0]`,
and no target when `validTargets` is empty. -/
def selectTarget (board : Board) (currentPlayer : Fin 2) (row col : Nat) : Option Target :=
  match validTargets board currentPlayer row col with
  | [] => none
  | first :: rest =>
    match (first :: rest).filter (fun t => t.unit.hasTaunt) with
    | t :: _ => some t
    | [] => some first

/-- The spawn-row overflow of one attack (helpers.js, lines 354-362), applied to the
players and the log. -/
def applyOverflow (state newState : GameState) (unit : PlacedUnit) (target : Target) :
    GameState :=
  let originalHealth := target.unit.health
  let damageDealt := unit.attack
  let isOnSpawnRow := decide (target.r = opponentSpawnRow state.currentPlayer)
  let newTargetHealth := target.unit.health - damageDealt
  if isOnSpawnRow && decide (newTargetHealth ≤ 0) then
    let excessDamage := damageDealt - originalHealth
    if excessDamage > 0 then
      let opponent := newState.players (opponentIndex state.currentPlayer)
      let newOpponent := { opponent with health := opponent.health - excessDamage }
      { newState with
        players := setPlayer newState.players (opponentIndex state.currentPlayer) newOpponent
        log := newState.log ++ ["Turn " ++ toString state.turn ++ ": Excess damage of " ++
          toString excessDamage ++ " dealt to Player " ++
          toString (playerNo (opponentIndex state.currentPlayer)) ++ "'s health!"] }
    else newState
  else newState

/-- The body of `units.forEach` in `battleUnits`: one unit's attack on the live state. -/
def attackStep (state newState : GameState) (u : UnitPos) : GameState :=
  if getCell newState.board u.row u.col ≠ some u.unit then newState
  else
    match selectTarget newState.board state.currentPlayer u.row u.col with
    | none => newState
    | some target =>
      let damageDealt := u.unit.attack
      let newTarget : PlacedUnit :=
        { target.unit with health := target.unit.health - damageDealt }
      let s1 := applyOverflow state newState u.unit target
      let s2 := { s1 with
        log := s1.log ++ ["Turn " ++ toString state.turn ++ ": " ++ u.unit.name ++
          " attacks " ++ target.unit.name ++ " at " ++ toString target.r ++ "," ++
          toString target.c ++ " for " ++ toString damageDealt ++ " damage!"] }
      if newTarget.health ≤ 0 then
        { s2 with
          board := setCell s2.board target.r target.c none
          log := s2.log ++ ["Turn " ++ toString state.turn ++ ": " ++ target.unit.name ++
            " is defeated!"] }
      else
        { s2 with board := setCell s2.board target.r target.c (some newTarget) }

def battleUnits (state : GameState) : GameState :=
  (sortUnits state.currentPlayer (collectUnits state.board state.currentPlayer)).foldl
    (attackStep state) state

/-! ## Advance phase (helpers.js, lines 238-303) -/

/-- The four orthogonal neighbours of the destination: up, down, left, right. -/
def adjacentTiles (newRow col : Int) : List (Int × Int) :=
  [(newRow - 1, col), (newRow + 1, col), (newRow, col - 1), (newRow, col + 1)]

/-- The first in-bounds neighbour holding an enemy unit with taunt (the `for` loop that
ends at its first hit), with its coordinates. -/
def findTauntBlocker (board : Board) (currentPlayer : Fin 2) (newRow col : Int) :
    Option (PlacedUnit × Int × Int) :=
  (adjacentTiles newRow col).findSome? fun tile =>
    if inBounds tile.1 tile.2 then
      match getCell board tile.1 tile.2 with
      | some adjUnit =>
        if adjUnit.playerIndex ≠ currentPlayer ∧ adjUnit.hasTaunt = true then
          some (adjUnit, tile.1, tile.2)
        else none
      | none => none
    else none

/-- The win message of player `currentPlayer`. -/
def winMessage (currentPlayer : Fin 2) (gameMode : Option String) : String :=
  if currentPlayer = 0 then "Player 1 Wins!"
  else if gameMode = some "ai" then "AI Wins!" else "Player 2 Wins!"

/-- The body of `units.forEach` in `advanceUnits`: one unit's move on the live state. -/
def advanceStep (state newState : GameState) (u : UnitPos) : GameState :=
  if getCell newState.board u.row u.col ≠ some u.unit then newState
  else
    let newRow : Int := (u.row : Int) + direction state.currentPlayer
    if (state.currentPlayer = 0 ∧ newRow ≥ ROWS) ∨ (state.currentPlayer = 1 ∧ newRow < 0) then
      let message := winMessage state.currentPlayer state.gameMode
      { newState with
        gameOver := true
        winner := some state.currentPlayer
        message := message
        log := newState.log ++ ["Turn " ++ toString state.turn ++ ": " ++ u.unit.name ++
          " reached enemy spawn! " ++ message] }
    else if newRow ≥ 0 ∧ newRow < ROWS ∧ (getCell newState.board newRow u.col).isNone then
      match findTauntBlocker newState.board state.currentPlayer newRow u.col with
      | some (adjUnit, r, c) =>
        { newState with
          log := newState.log ++ ["Turn " ++ toString state.turn ++ ": " ++ u.unit.name ++
            " cannot move due to enemy Taunt unit " ++ adjUnit.name ++ " at " ++
            toString r ++ "," ++ toString c] }
      | none =>
        { newState with
          board := setCell (setCell newState.board newRow u.col (some u.unit)) u.row u.col none
          log := newState.log ++ ["Turn " ++ toString state.turn ++ ": " ++ u.unit.name ++
            " moved to " ++ toString newRow ++ "," ++ toString u.col] }
    else newState

def advanceUnits (state : GameState) : GameState :=
  (sortUnits state.currentPlayer (collectUnits state.board state.currentPlayer)).foldl
    (advanceStep state) state

/-! ## Win check (helpers.js, lines 379-387) -/

/-- The object `{ gameOver: true, winner, message }` returned by `checkWinCondition`. -/
structure WinResult where
  gameOver : Bool
  winner : Fin 2
  message : String
deriving DecidableEq

def checkWinCondition (state : GameState) : Option WinResult :=
  if (state.players 0).health ≤ 0 then
    some ⟨true, 1, if state.gameMode = some "ai" then "AI Wins!" else "Player 2 Wins!"⟩
  else if (state.players 1).health ≤ 0 then
    some ⟨true, 0, "Player 1 Wins!"⟩
  else none

/-! ## Game initialisation (helpers.js, lines 153-204) -/

/-- The inner loop `for j < STARTING_HAND_SIZE`: pop the deck's last card into the hand
while the deck is non-empty. -/
def dealCards : Nat → Player → Player
  | 0, player => player
  | j + 1, player =>
    match player.deck.getLast? with
    | some card => dealCards j { player with hand := player.hand ++ [card], deck := player.deck.dropLast }
    | none => dealCards j player

/-- The body of `initializeGame` once the two decks have been generated: `generateDeck`
draws on `Math.random`, so its two results are taken as arguments here. -/
def initializeGameWith (player1Deck player2Deck : List Card)
    (player1Archetype player2Archetype : String) : GameState :=
  let board : Board := fun _ => List.replicate COLS none
  let player0 : Player :=
    { id := 0, health := STARTING_HEALTH, mana := 1, manaCapacity := 1, deck := player1Deck,
      hand := [], archetype := player1Archetype, fatigueDamage := 0 }
  let player1 : Player :=
    { id := 1, health := STARTING_HEALTH, mana := 1, manaCapacity := 1, deck := player2Deck,
      hand := [], archetype := player2Archetype, fatigueDamage := 0 }
  { board := board
    players := fun i =>
      if i = 0 then dealCards STARTING_HAND_SIZE player0 else dealCards STARTING_HAND_SIZE player1
    currentPlayer := 0
    turn := 1
    gameOver := false
    winner := none
    message := "Player 1 Turn: Draw phase - Starting your turn!"
    selectedCard := none
    isFirstTurn := true
    isProcessingAI := false
    log := ["Game started! Player 1 begins."]
    gameMode := none
    error := none }

/-! ## The reducer (gameReducer.js) -/

inductive Action where
  | START_GAME (payload : GameState)
  | SELECT_CARD (card : Card)
  | PLACE_CARD (row col : Int)
  | BATTLE_PHASE
  | END_TURN
  | ADD_LOG (payload : String)
  | SET_AI_PROCESSING (payload : Bool)
  | SET_ERROR (payload : Option String)
  | CLEAR_ERROR
  | UNKNOWN

/-- Merging a win result into the state: `{ ...newState, ...winResult }` followed by the
log line. -/
def applyWin (newState : GameState) (winResult : WinResult) : GameState :=
  { newState with
    gameOver := winResult.gameOver
    winner := some winResult.winner
    message := winResult.message
    log := newState.log ++ [winResult.message] }

/-- Lines 27-42. -/
def selectCard (state : GameState) (card : Card) : GameState :=
  let currentPlayer := state.players state.currentPlayer
  if card.cost > currentPlayer.mana then
    { state with message := "Not enough mana!", selectedCard := none }
  else
    { state with selectedCard := some card, message := "Select a spawn position" }

/-- Lines 43-77. -/
def placeCard (state : GameState) (row col : Int) : GameState :=
  let currentPlayer := state.currentPlayer
  let validRow : Int := if currentPlayer = 0 then 0 else (ROWS : Int) - 1
  match state.selectedCard with
  | none => state
  | some selectedCard =>
    if state.gameOver then state
    else if row ≠ validRow then { state with message := "Must place on spawn row!" }
    else if (getCell state.board row col).isSome then { state with message := "Cell occupied!" }
    else
      let player := state.players currentPlayer
      let newBoard := setCell state.board row col
        (some { toCard := selectedCard, playerIndex := currentPlayer })
      let newPlayer := { player with
        hand := player.hand.filter (fun c => c.id ≠ selectedCard.id)
        mana := player.mana - selectedCard.cost }
      { state with
        board := newBoard
        players := setPlayer state.players currentPlayer newPlayer
        selectedCard := none
        message := "Unit placed!"
        log := state.log ++ ["Turn " ++ toString state.turn ++ ": Player " ++
          toString (playerNo currentPlayer) ++ " placed " ++ selectedCard.name ++ " at " ++
          toString row ++ "," ++ toString col] }

/-- Lines 78-92. -/
def battlePhase (state : GameState) : GameState :=
  let newState := battleUnits state
  if !newState.gameOver then
    match checkWinCondition newState with
    | some winResult => applyWin newState winResult
    | none => newState
  else newState

/-- Lines 108-137 of `END_TURN`: player switch, draw, advance, mana refill, message.
`state` is the reducer's input and `newState` the state after the battle phase. -/
def endTurnSwitch (state newState : GameState) : GameState :=
  let nextPlayer : Fin 2 := if state.currentPlayer = 0 then 1 else 0
  let s1 := { newState with
    currentPlayer := nextPlayer
    turn := if nextPlayer = 0 then state.turn + 1 else state.turn
    isFirstTurn := if nextPlayer = 1 then false else state.isFirstTurn }
  let s2 := drawCardOrFatigue s1 nextPlayer
  let s3 := { s2 with
    log := s2.log ++ ["Turn " ++ toString s2.turn ++ ": Draw phase for Player " ++
      toString (playerNo nextPlayer)] }
  let s4 := advanceUnits s3
  let s5 := { s4 with
    log := s4.log ++ ["Turn " ++ toString s4.turn ++ ": Advance phase for Player " ++
      toString (playerNo nextPlayer)] }
  let player := s5.players nextPlayer
  let manaCapacity :=
    if player.manaCapacity < MAX_MANA then player.manaCapacity + 1 else player.manaCapacity
  { s5 with
    players := fun idx =>
      if idx = nextPlayer then
        { s5.players idx with manaCapacity := manaCapacity, mana := manaCapacity }
      else s5.players idx
    message :=
      if nextPlayer = 1 ∧ state.gameMode = some "ai" then
        "AI Turn: Play phase - Place your units!"
      else "Player " ++ toString (playerNo nextPlayer) ++ " Turn: Play phase - Place your units!" }

/-- Lines 93-138. -/
def endTurn (state : GameState) : GameState :=
  let battled := battleUnits state
  let newState := { battled with
    log := battled.log ++ ["Turn " ++ toString state.turn ++ ": Battle phase for Player " ++
      toString (playerNo state.currentPlayer)] }
  if !newState.gameOver then
    match checkWinCondition newState with
    | some winResult => applyWin newState winResult
    | none => endTurnSwitch state newState
  else endTurnSwitch state newState

def gameReducer (state : GameState) (action : Action) : GameState :=
  match action with
  | .START_GAME payload => { payload with log := ["New game started!"] }
  | .SELECT_CARD card => selectCard state card
  | .PLACE_CARD row col => placeCard state row col
  | .BATTLE_PHASE => battlePhase state
  | .END_TURN => endTurn state
  | .ADD_LOG payload => { state with log := state.log ++ [payload] }
  | .SET_AI_PROCESSING payload => { state with isProcessingAI := payload }
  | .SET_ERROR payload => { state with error := payload }
  | .CLEAR_ERROR => { state with error := none }
  | .UNKNOWN => state

/-! ## Specification vocabulary and sample states -/

instance unitOrderTotal (currentPlayer : Fin 2) : IsTotal UnitPos (unitOrder currentPlayer) :=
  ⟨fun a b => by
    unfold unitOrder
    split
    · exact (Nat.le_total b.row a.row)
    · exact (Nat.le_total a.row b.row)⟩

instance unitOrderTrans (currentPlayer : Fin 2) : IsTrans UnitPos (unitOrder currentPlayer) :=
  ⟨fun a b c => by
    unfold unitOrder
    split
    · exact fun h1 h2 => Nat.le_trans h2 h1
    · exact fun h1 h2 => Nat.le_trans h1 h2⟩

/-- The fields no phase of a turn writes. -/
def GameState.turnInfo (s : GameState) :
    Fin 2 × Int × Option Card × Bool × Bool × Option String × Option String :=
  (s.currentPlayer, s.turn, s.selectedCard, s.isFirstTurn, s.isProcessingAI, s.gameMode, s.error)

/-- The fields of a player that combat never writes: everything but `health`. -/
def Player.economy (p : Player) : Nat × Int × Int × List Card × List Card × String × Int :=
  (p.id, p.mana, p.manaCapacity, p.deck, p.hand, p.archetype, p.fatigueDamage)

/-- The post-battle win check of `END_TURN` (gameReducer.js, lines 99-101): it runs only
when the state after the battle phase is not over, and triggers when `checkWinCondition`
returns a result. -/
def winCheckTriggers (state : GameState) : Bool :=
  !(battleUnits state).gameOver && (checkWinCondition (battleUnits state)).isSome

def sampleCard (name : String) (cost attack health : Int) (hasTaunt : Bool) : Card :=
  { id := name, name := name, cost := cost, attack := attack, health := health,
    maxHealth := health, type := "orc", movement := 1, hasTaunt := hasTaunt,
    description := "" }

def sampleUnit (name : String) (attack health : Int) (hasTaunt : Bool) (playerIndex : Fin 2) :
    PlacedUnit :=
  { toCard := sampleCard name 1 attack health hasTaunt, playerIndex := playerIndex }

def sampleDeck : List Card :=
  (List.range 15).map fun i => sampleCard ("p" ++ toString i) 1 1 1 false

/-- A fresh game. -/
def sampleGame : GameState := initializeGameWith sampleDeck sampleDeck "orc" "undead"

/-- Player 0 has a 40-attack unit at (3,2) facing a 1-health enemy on player 1's spawn
row at (4,2). -/
def overrunGame : GameState :=
  { sampleGame with
    board := fun r =>
      if r = 3 then [none, none, some (sampleUnit "ram" 40 5 false 0), none, none, none, none]
      else if r = 4 then
        [none, none, some (sampleUnit "guard" 1 1 true 1), none, none, none, none]
      else List.replicate COLS none }

/-- A game in which player 1 holds a mana capacity of 11, above `MAX_MANA`: a value no
state of play has. -/
def overfullManaGame : GameState :=
  { sampleGame with
    players := fun i =>
      if i = 1 then { sampleGame.players 1 with manaCapacity := 11 } else sampleGame.players i }

/-- A player without cards in deck or hand. -/
def exhaustedGame : GameState :=
  { sampleGame with
    players := fun i => { sampleGame.players i with deck := [], hand := [] } }

/-- A cell holds an enemy of `currentPlayer`. -/
def enemyAt (board : Board) (currentPlayer : Fin 2) (cell : Int × Int) : Bool :=
  match getCell board cell.1 cell.2 with
  | some unit => decide (unit.playerIndex ≠ currentPlayer)
  | none => false

/-- A cell holds an enemy of `currentPlayer` that has taunt. -/
def tauntEnemyAt (board : Board) (currentPlayer : Fin 2) (cell : Int × Int) : Bool :=
  match getCell board cell.1 cell.2 with
  | some unit => decide (unit.playerIndex ≠ currentPlayer) && unit.hasTaunt
  | none => false

/-- The target record of a cell, when the cell holds an enemy unit. -/
def targetAt (board : Board) (currentPlayer : Fin 2) (cell : Int × Int) : Option Target :=
  match getCell board cell.1 cell.2 with
  | some unit => if unit.playerIndex ≠ currentPlayer then some ⟨cell.1, cell.2, unit⟩ else none
  | none => none

/-- Player 0 has a 3-attack unit at (0,1); player 1 has a plain unit straight ahead at
(1,1) and a taunt unit diagonally right at (1,2). -/
def skirmishGame : GameState :=
  { sampleGame with
    board := fun r =>
      if r = 0 then
        [none, some (sampleUnit "scout" 3 2 false 0), none, none, none, none, none]
      else if r = 1 then
        [none, some (sampleUnit "grunt" 1 2 false 1), some (sampleUnit "wall" 1 5 true 1),
          none, none, none, none]
      else List.replicate COLS none }

/-- Every unit of the board satisfies `p`, as a computable test. -/
def boardAll (p : PlacedUnit → Bool) (board : Board) : Bool :=
  (List.finRange ROWS).all fun i => (board i).all fun cell =>
    match cell with
    | some unit => p unit
    | none => true

/-- The destination `(newRow, col)` can be entered on `board`: it is empty and none of
its four orthogonal neighbours inside the 5x7 board holds an enemy unit with taunt. -/
def destinationFree (board : Board) (currentPlayer : Fin 2) (newRow col : Int) : Prop :=
  getCell board newRow col = none ∧
  ∀ tile ∈ [(newRow - 1, col), (newRow + 1, col), (newRow, col - 1), (newRow, col + 1)],
    0 ≤ tile.1 → tile.1 < 5 → 0 ≤ tile.2 → tile.2 < 7 →
    ∀ adj ∈ getCell board tile.1 tile.2,
      ¬ (adj.playerIndex ≠ currentPlayer ∧ adj.hasTaunt = true)

instance destinationFreeDecidable (board : Board) (currentPlayer : Fin 2) (newRow col : Int) :
    Decidable (destinationFree board currentPlayer newRow col) :=
  inferInstanceAs (Decidable (getCell board newRow col = none ∧
    ∀ tile ∈ [(newRow - 1, col), (newRow + 1, col), (newRow, col - 1), (newRow, col + 1)],
      0 ≤ tile.1 → tile.1 < 5 → 0 ≤ tile.2 → tile.2 < 7 →
      ∀ adj ∈ getCell board tile.1 tile.2,
        ¬ (adj.playerIndex ≠ currentPlayer ∧ adj.hasTaunt = true)))

/-- Player 1 to move: a unit at (2,3) with a free destination (1,3), and a unit at (2,0)
whose destination (1,0) has player 0's taunt unit next to it at (1,1). -/
def marchGame : GameState :=
  { sampleGame with
    currentPlayer := 1
    board := fun r =>
      if r = 1 then [none, some (sampleUnit "wall" 1 5 true 0), none, none, none, none, none]
      else if r = 2 then
        [some (sampleUnit "left" 2 2 false 1), none, none, some (sampleUnit "mid" 2 2 false 1),
          none, none, none]
      else List.replicate COLS none }

/-- Player 0 to move with a unit on row 4, player 1's spawn row. -/
def breakthroughGame : GameState :=
  { sampleGame with
    board := fun r =>
      if r = 4 then [none, none, none, some (sampleUnit "runner" 1 1 false 0), none, none, none]
      else if r = 2 then
        [none, some (sampleUnit "walker" 1 1 false 0), none, none, none, none, none]
      else List.replicate COLS none }

/-- Both players have run out of health. -/
def bothDownGame : GameState :=
  { sampleGame with
    players := fun i => { sampleGame.players i with health := -2 } }

/-- A fresh game in which player 0 has selected the first card of the hand. -/
def selectedGame : GameState :=
  match (sampleGame.players 0).hand with
  | card :: _ => gameReducer sampleGame (Action.SELECT_CARD card)
  | [] => sampleGame

/-- The game of `selectedGame` with player 0's unit already standing at (0,3). -/
def crowdedGame : GameState :=
  { selectedGame with
    board := fun r =>
      if r = 0 then [none, none, none, some (sampleUnit "first" 1 1 false 0), none, none, none]
      else List.replicate COLS none }

/-- Player 0 to move while a unit of player 1 stands on row 0, player 0's spawn row. -/
def edgeGame : GameState :=
  { sampleGame with
    board := fun r =>
      if r = 0 then [none, none, none, none, none, some (sampleUnit "raider" 1 1 false 1), none]
      else List.replicate COLS none }

/-- Player 1 to move at health 0 while player 0 is at health 1; player 1 has a 40-attack
unit at (1,2) facing a 1-health unit on player 0's spawn row at (0,2). -/
def doubleKoGame : GameState :=
  { sampleGame with
    currentPlayer := 1
    players := fun i =>
      if i = 0 then { sampleGame.players 0 with health := 1 }
      else { sampleGame.players 1 with health := 0 }
    board := fun r =>
      if r = 0 then [none, none, some (sampleUnit "guard" 1 1 false 0), none, none, none, none]
      else if r = 1 then
        [none, none, some (sampleUnit "ram" 40 5 false 1), none, none, none, none]
      else List.replicate COLS none }

/-- The states a game passes through: those satisfying `init`, and those the reducer
returns from such a state on an action that `allowed` admits there. -/
inductive ReachableFrom (init : GameState → Prop) (allowed : GameState → Action → Prop) :
    GameState → Prop where
  | start {s : GameState} : init s → ReachableFrom init allowed s
  | step {s : GameState} (a : Action) :
      ReachableFrom init allowed s → allowed s a → ReachableFrom init allowed (gameReducer s a)

/-- A state as `initializeGame` returns it, with the game mode its caller sets on it and
the log `START_GAME` gives it (App.js, lines 226-232). -/
def initialGame (s : GameState) : Prop :=
  ∃ (d1 d2 : List Card) (a1 a2 : String) (mode : Option String) (log : List String),
    s = { initializeGameWith d1 d2 a1 a2 with gameMode := mode, log := log }

/-- The cost range of the cards `generateCard` makes:
`Math.floor(Math.random() * 10) + 1` is one of `1 .. 10`. -/
def costsGenerated (deck : List Card) : Prop := ∀ c ∈ deck, 1 ≤ c.cost ∧ c.cost ≤ 10

/-- An `initialGame` whose two decks hold cards with generated costs. -/
def generatedGame (s : GameState) : Prop :=
  ∃ (d1 d2 : List Card) (a1 a2 : String) (mode : Option String) (log : List String),
    costsGenerated d1 ∧ costsGenerated d2 ∧
      s = { initializeGameWith d1 d2 a1 a2 with gameMode := mode, log := log }

/-- The actions of play: selecting a card of the current player's hand, placing with any
payload, ending the turn. -/
def playAction (s : GameState) (a : Action) : Prop :=
  (∃ card, card ∈ (s.players s.currentPlayer).hand ∧ a = Action.SELECT_CARD card) ∨
    (∃ row col, a = Action.PLACE_CARD row col) ∨ a = Action.END_TURN

/-- Every action but `START_GAME`. -/
def notStartGame (_s : GameState) (a : Action) : Prop :=
  ∀ payload, a ≠ Action.START_GAME payload

/-- A game two actions and one turn in: player 0 selects a card, places it at (0,2) and
ends the turn. -/
def sampleReached : GameState :=
  gameReducer (gameReducer selectedGame (Action.PLACE_CARD 0 2)) Action.END_TURN

/-! ## Card and deck factory (helpers.js, lines 14-150)

`Math.random()` is a random source `rnd : Nat → ℚ` read at a position that each call
advances by one.  Its values and the arithmetic on them are exact rationals; what is
proved of the factory are counts, bounds and orders, none of which depends on rounding.
The `while` loop of `generateDeck` runs on fuel: `none` when the fuel does not suffice. -/

/-- The keys of `ARCHETYPES`. -/
inductive Archetype where
  | orc
  | undead
  | human
  | minotaur
deriving DecidableEq

/-- The key string of an archetype, `archetypeKey`. -/
def Archetype.key : Archetype → String
  | .orc => "orc"
  | .undead => "undead"
  | .human => "human"
  | .minotaur => "minotaur"

/-- The display name `ARCHETYPES[archetypeKey].name`. -/
def Archetype.name : Archetype → String
  | .orc => "Orc"
  | .undead => "Undead"
  | .human => "Human"
  | .minotaur => "Minotaur"

/-- The pair of attack and health coefficients of `generateCard`. -/
def statCoefficients (archetype : Archetype) (hasTaunt : Bool) : ℚ × ℚ :=
  if hasTaunt then (0.6, 1.4)
  else
    match archetype with
    | .orc => (1.2, 0.8)
    | .minotaur => (0.8, 1.3)
    | .human => (0.9, 1.1)
    | .undead => (1.0, 1.0)

/-- The card of `generateCard(id, archetypeKey, hasTaunt)` and the position of the random
source after its three draws: cost, attack jitter, health jitter. -/
def generateCard (rnd : Nat → ℚ) (pos : Nat) (id : String) (archetype : Archetype)
    (hasTaunt : Bool) : Card × Nat :=
  let cost : Int := ⌊rnd pos * 10⌋ + 1
  let attack : Int :=
    max 1 ⌊(cost : ℚ) * (statCoefficients archetype hasTaunt).1 + rnd (pos + 1) * 2⌋
  let health : Int :=
    max 1 ⌊(cost : ℚ) * (statCoefficients archetype hasTaunt).2 + rnd (pos + 2) * 2⌋
  ({ id := id
     name := if hasTaunt then archetype.name ++ " Guardian" else archetype.name ++ " Warrior"
     cost := cost
     attack := attack
     health := health
     maxHealth := health
     type := archetype.key
     movement := 1
     hasTaunt := hasTaunt
     description :=
       if hasTaunt then "Has Taunt: Enemies must attack this unit first."
       else "Basic unit with no special abilities" },
   pos + 3)

/-- The number of taunt cards, `Math.floor(15 * 0.2)`. -/
def numTaunt : Nat := ⌊(15 : ℚ) * 0.2⌋.toNat

/-- The loop `while (tauntIndices.size < numTaunt) tauntIndices.add(...)`; the set is the
list of its elements in insertion order. -/
def sampleTauntIndices : Nat → (Nat → ℚ) → Nat → List Int → Option (List Int × Nat)
  | 0, _, pos, tauntIndices =>
    if tauntIndices.length < numTaunt then none else some (tauntIndices, pos)
  | fuel + 1, rnd, pos, tauntIndices =>
    if tauntIndices.length < numTaunt then
      let index : Int := ⌊rnd pos * 15⌋
      sampleTauntIndices fuel rnd (pos + 1)
        (if index ∈ tauntIndices then tauntIndices else tauntIndices ++ [index])
    else some (tauntIndices, pos)

/-- The id of the `i`-th card of a deck. -/
def cardId (i : Nat) : String := "p" ++ toString i ++ "_common_" ++ toString i

/-- The loop `for (let i = 0; i < 15; i++) deck.push(generateCard(...))`. -/
def buildDeck (rnd : Nat → ℚ) (pos : Nat) (archetype : Archetype) (tauntIndices : List Int) :
    List Card × Nat :=
  (List.range 15).foldl
    (fun (acc : List Card × Nat) (i : Nat) =>
      let card := generateCard rnd acc.2 (cardId i) archetype (decide ((i : Int) ∈ tauntIndices))
      (acc.1 ++ [card.1], card.2))
    ([], pos)

/-- The swap `[deck[i], deck[j]] = [deck[j], deck[i]]`, for indices inside the deck. -/
def swapCards (deck : List Card) (i : Nat) (j : Int) : List Card :=
  match deck[i]?, (if 0 ≤ j then deck[j.toNat]? else none) with
  | some a, some b => (deck.set i b).set j.toNat a
  | _, _ => deck

/-- The shuffle loop `for (let i = deck.length - 1; i > 0; i--)`. -/
def shuffleDeck (rnd : Nat → ℚ) (pos : Nat) (deck : List Card) : List Card × Nat :=
  (List.range' 1 (deck.length - 1)).reverse.foldl
    (fun (acc : List Card × Nat) (i : Nat) =>
      let j : Int := ⌊rnd acc.2 * ((i : ℚ) + 1)⌋
      (swapCards acc.1 i j, acc.2 + 1))
    (deck, pos)

/-- The deck of `generateDeck(archetypeKey)` and the position of the random source after
it: the taunt indices are drawn, the fifteen cards are made, the deck is shuffled. -/
def generateDeck (fuel : Nat) (rnd : Nat → ℚ) (pos : Nat) (archetype : Archetype) :
    Option (List Card × Nat) :=
  match sampleTauntIndices fuel rnd pos [] with
  | none => none
  | some (tauntIndices, pos1) =>
    let built := buildDeck rnd pos1 archetype tauntIndices
    some (shuffleDeck rnd built.2 built.1)

/-- The whole of `initializeGame`: both decks are generated, player 1's first. -/
def initializeGame (fuel : Nat) (rnd : Nat → ℚ) (player1Archetype player2Archetype : Archetype) :
    Option GameState :=
  match generateDeck fuel rnd 0 player1Archetype with
  | none => none
  | some (player1Deck, pos1) =>
    match generateDeck fuel rnd pos1 player2Archetype with
    | none => none
    | some (player2Deck, _) =>
      some (initializeGameWith player1Deck player2Deck player1Archetype.key player2Archetype.key)

/-! ## The AI planner (App.js, lines 92-136) -/

/-- An entry `{ row, col, score }` of `scoredPositions`. -/
structure ScoredPosition where
  row : Nat
  col : Nat
  score : ℚ

/-- The score of a spawn column before the random term: the loop over the rows of the
column and the three adjustments after it. -/
def columnScore (card : Card) (currentBoard : Board) (col : Nat) : ℚ :=
  let spawnRow : Int := (ROWS : Int) - 1
  let scan := (List.range ROWS).foldl
    (fun (acc : ℚ × ℚ × ℚ) row =>
      match getCell currentBoard row col with
      | some unit =>
        if unit.playerIndex ≠ 1 then
          (acc.1 + (10 - |((row : Int) - spawnRow : Int)|), acc.2.1 + 1, acc.2.2)
        else (acc.1, acc.2.1, acc.2.2 + 1)
      | none => acc)
    (0, 0, 0)
  let score := scan.1 + scan.2.1 * 5 + scan.2.2 * 2
  if card.attack > 5 then score - scan.2.2 * 3 else score

/-- The comparator `(a, b) => b.score - a.score`: `a` may stay before `b` when its value
is at most `0`. -/
def scoreOrder (a b : ScoredPosition) : Prop := b.score ≤ a.score

instance scoreOrderDecidable : DecidableRel scoreOrder :=
  fun a b => inferInstanceAs (Decidable (b.score ≤ a.score))

/-- The planner `findBestPosition(card, currentBoard)`: the empty cells of the spawn row
are scored, each with one draw of the random source, and the first entry after the stable
descending sort is returned; `none` is the `null` of a full spawn row. -/
def findBestPosition (rnd : Nat → ℚ) (pos : Nat) (card : Card) (currentBoard : Board) :
    Option ScoredPosition :=
  let spawnRow : Nat := ROWS - 1
  let availablePositions := (List.range COLS).filter
    (fun (col : Nat) => (getCell currentBoard (spawnRow : Int) (col : Int)).isNone)
  if availablePositions.length = 0 then none
  else
    let scoredPositions := availablePositions.enum.map
      (fun (entry : Nat × Nat) =>
        ({ row := spawnRow, col := entry.2,
           score := columnScore card currentBoard entry.2 + rnd (pos + entry.1) * 3 } :
          ScoredPosition))
    (scoredPositions.insertionSort scoreOrder).head?

/-- What every card of `generateCard` satisfies when the random values lie in `[0, 1)`. -/
def cardWellFormed (c : Card) : Prop :=
  1 ≤ c.cost ∧ c.cost ≤ 10 ∧ 1 ≤ c.attack ∧ 1 ≤ c.health ∧ c.maxHealth = c.health

instance cardWellFormedDecidable (c : Card) : Decidable (cardWellFormed c) := by
  unfold cardWellFormed
  infer_instance

/-- A random source with values `k / 16`; its first draws are `3/16`, `10/16`, `1/16`. -/
def sampleSource (n : Nat) : ℚ := (((7 * n + 3) % 16 : Nat) : ℚ) / 16

/-- A random source that always draws `1/2`. -/
def constantSource (_n : Nat) : ℚ := 1 / 2

/-- The spawn row of player 1, row 4, is full of player 1's units. -/
def fullSpawnRowGame : GameState :=
  { sampleGame with
    board := fun r =>
      if r = 4 then List.replicate COLS (some (sampleUnit "guard" 1 1 false 1))
      else List.replicate COLS none }

/-- Both players hold seven cards and have no deck left. -/
def fullHandGame : GameState :=
  { sampleGame with
    players := fun i => { sampleGame.players i with deck := [], hand := sampleDeck.take 7 } }

/-- The units of `currentPlayer` on one row of the board, by ascending column. -/
def rowUnits (board : Board) (currentPlayer : Fin 2) (rowIndex : Fin ROWS) : List UnitPos :=
  (board rowIndex).enum.filterMap fun cell =>
    match cell.2 with
    | some unit =>
      if unit.playerIndex = currentPlayer then some ⟨unit, rowIndex.val, cell.1⟩ else none
    | none => none

/-- The rows in the order the specification gives: descending for player 0, ascending for
player 1. -/
def specRowOrder (currentPlayer : Fin 2) : List (Fin ROWS) :=
  if currentPlayer = 0 then [4, 3, 2, 1, 0] else [0, 1, 2, 3, 4]

/-- The acting units in the order the specification gives: row by row in `specRowOrder`,
by ascending column within a row. -/
def specUnitOrder (board : Board) (currentPlayer : Fin 2) : List UnitPos :=
  (specRowOrder currentPlayer).flatMap (rowUnits board currentPlayer)

/-- The unit `a` acts strictly before `b` in the specification's order. -/
def actsBefore (currentPlayer : Fin 2) (a b : UnitPos) : Prop :=
  (if currentPlayer = 0 then b.row < a.row else a.row < b.row) ∨
    (a.row = b.row ∧ a.col < b.col)

instance actsBeforeDecidable (currentPlayer : Fin 2) : DecidableRel (actsBefore currentPlayer) :=
  fun a b => inferInstanceAs (Decidable
    ((if currentPlayer = 0 then b.row < a.row else a.row < b.row) ∨
      (a.row = b.row ∧ a.col < b.col)))

/-- The battle phase as the specification words it: the attack step of each acting unit in
turn, on the live state, in `specUnitOrder`. -/
def battleUnitsSpec (state : GameState) : GameState :=
  (specUnitOrder state.board state.currentPlayer).foldl (attackStep state) state

/-- Player 0 has units at (0,1) and (0,2), each with attack 3; the only enemy in reach of
both stands at (1,1) with health 5. -/
def sharedTargetGame : GameState :=
  { sampleGame with
    board := fun r =>
      if r = 0 then
        [none, some (sampleUnit "left" 3 4 false 0), some (sampleUnit "right" 3 4 false 0),
          none, none, none, none]
      else if r = 1 then
        [none, some (sampleUnit "prey" 1 5 false 1), none, none, none, none, none]
      else List.replicate COLS none }

/-- No unit stands in two cells of the board. -/
def oneCellPerUnit (board : Board) : Prop :=
  ∀ (r c r' c' : Int) (unit : PlacedUnit),
    getCell board r c = some unit → getCell board r' c' = some unit → r = r' ∧ c = c'

/-- The units of `output` are those of `input`: an enemy of `currentPlayer` in the same
cell, a unit of `currentPlayer` in the same cell or one row forward of it. -/
def unitsConserved (currentPlayer : Fin 2) (input output : Board) : Prop :=
  (∀ (r c : Int) (unit : PlacedUnit), getCell output r c = some unit →
    (unit.playerIndex ≠ currentPlayer → getCell input r c = some unit) ∧
    (unit.playerIndex = currentPlayer →
      getCell input r c = some unit ∨
        getCell input (r - direction currentPlayer) c = some unit)) ∧
  (∀ (r c : Int) (unit : PlacedUnit), getCell input r c = some unit →
    (unit.playerIndex ≠ currentPlayer → getCell output r c = some unit) ∧
    (unit.playerIndex = currentPlayer →
      getCell output r c = some unit ∨
        getCell output (r + direction currentPlayer) c = some unit))

/-- A game that player 0 has won, with player 0 to move while a unit of player 1 stands
on row 0. -/
def finishedGame : GameState :=
  { edgeGame with gameOver := true, winner := some 0 }

/-- The actions the app dispatches: any action but `START_GAME`, and `END_TURN` only on a
game that is not over (App.js disables the End Turn button when `gameOver` is set, line
400, and the AI driver returns on `gameOver`, lines 139 and 203). -/
def appDispatch (s : GameState) (a : Action) : Prop :=
  (∀ payload, a ≠ Action.START_GAME payload) ∧ (a = Action.END_TURN → s.gameOver = false)

/-- The player `currentPlayer` has a unit on the row from which its advance leaves the
board: row 4 for player 0, row 0 for player 1. -/
def unitOnLastRow (board : Board) (currentPlayer : Fin 2) : Prop :=
  ∃ (r c : Int) (unit : PlacedUnit), getCell board r c = some unit ∧
    unit.playerIndex = currentPlayer ∧
    ((currentPlayer = 0 ∧ r = 4) ∨ (currentPlayer = 1 ∧ r = 0))

/-- A deck with the ids of `sampleDeck` and other stats: attack 2 and health 2. -/
def rivalDeck : List Card :=
  (List.range 15).map fun i => sampleCard ("p" ++ toString i) 1 2 2 false

/-- A fresh game in which the two players hold different cards under the same ids. -/
def rivalGame : GameState := initializeGameWith sampleDeck rivalDeck "orc" "human"

/-- The game of `rivalGame` after player 0 selects the hand card `p14` and ends the turn
without placing it. -/
def carriedSelectionGame : GameState :=
  gameReducer (gameReducer rivalGame (Action.SELECT_CARD (sampleCard "p14" 1 1 1 false)))
    Action.END_TURN

/-! ## Theorems -/

/-! ## Board lemmas -/

theorem rowIdx?_eq_some {r : Int} {i : Fin ROWS} (h : rowIdx? r = some i) : r = (i.val : Int) := by
  unfold rowIdx? at h
  split at h
  · rename_i hr
    have := Option.some.inj h
    subst this
    simp only []
    omega
  · cases h

theorem rowIdx?_coe (i : Fin ROWS) : rowIdx? (i.val : Int) = some i := by
  unfold rowIdx?
  have h : 0 ≤ (i.val : Int) ∧ (i.val : Int) < ROWS := by
    constructor
    · omega
    · have := i.isLt; omega
  rw [dif_pos h]
  congr 1

theorem rowIdx?_of_bounds {r : Int} (h0 : 0 ≤ r) (h1 : r < ROWS) :
    ∃ i : Fin ROWS, rowIdx? r = some i ∧ (i.val : Int) = r := by
  refine ⟨⟨r.toNat, by omega⟩, ?_, ?_⟩
  · unfold rowIdx?
    rw [dif_pos ⟨h0, h1⟩]
  · simp only []
    omega

theorem rowGet_rowSet (row : Row) (c : Nat) (v : Option PlacedUnit) (c' : Int) :
    rowGet (rowSet row c v) c' = if c' = (c : Int) then v else rowGet row c' := by
  unfold rowGet rowSet
  by_cases hc' : 0 ≤ c'
  · obtain ⟨n, rfl⟩ := Int.eq_ofNat_of_zero_le hc'
    simp only [Int.toNat_ofNat, hc', if_true, Nat.cast_inj]
    by_cases hlt : c < row.length
    · simp only [hlt, if_true, List.getD_eq_getElem?_getD, List.getElem?_set]
      by_cases hn : n = c
      · subst hn; simp [hlt]
      · have : ¬ c = n := fun h => hn h.symm
        simp [hn, this]
    · simp only [hlt, if_false, List.getD_eq_getElem?_getD]
      have hle : row.length ≤ c := Nat.le_of_not_lt hlt
      by_cases hn : n = c
      · subst hn
        simp only [if_true]
        rw [List.getElem?_append_right (by simp; omega)]
        have : n - (List.length row + (n - List.length row)) = 0 := by omega
        simp [this]
      · simp only [hn, if_false]
        by_cases hnl : n < row.length
        · rw [List.append_assoc, List.getElem?_append_left hnl]
        · have hge : row.length ≤ n := Nat.le_of_not_lt hnl
          rw [List.getElem?_eq_none (l := row) hge]
          by_cases hnc : n < c
          · rw [List.getElem?_append_left (by simp; omega),
              List.getElem?_append_right hge, List.getElem?_replicate]
            split <;> rfl
          · rw [List.getElem?_eq_none (by simp; omega)]
  · have hne : c' ≠ (c : Int) := by omega
    simp [hc', hne]

theorem getCell_setCell (board : Board) (r c : Int) (v : Option PlacedUnit) (r' c' : Int)
    (hr0 : 0 ≤ r) (hr1 : r < ROWS) (hc : 0 ≤ c) :
    getCell (setCell board r c v) r' c' = if r' = r ∧ c' = c then v else getCell board r' c' := by
  obtain ⟨i, hi, hir⟩ := rowIdx?_of_bounds hr0 hr1
  unfold getCell setCell
  rw [hi]
  simp only [hc, if_true]
  cases hj : rowIdx? r' with
  | none =>
    have : ¬ r' = r := by
      intro h; rw [h, hi] at hj; cases hj
    simp [this]
  | some j =>
    have hjr := rowIdx?_eq_some hj
    simp only []
    by_cases hji : j = i
    · subst hji
      have hrr : r' = r := by omega
      rw [Function.update_same, rowGet_rowSet]
      have hcc : (c.toNat : Int) = c := Int.toNat_of_nonneg hc
      simp [hrr, hcc]
    · rw [Function.update_noteq hji]
      have : ¬ r' = r := by
        intro h
        apply hji
        apply Fin.ext
        omega
      simp [this]

theorem getCell_setCell_of_ne (board : Board) (r c : Int) (v : Option PlacedUnit) (r' c' : Int)
    (h : ¬ (r' = r ∧ c' = c)) :
    getCell (setCell board r c v) r' c' = getCell board r' c' := by
  unfold setCell
  cases hi : rowIdx? r with
  | none => rfl
  | some i =>
    simp only []
    by_cases hc : 0 ≤ c
    · have hir := rowIdx?_eq_some hi
      have := getCell_setCell board r c v r' c' (by omega) (by have := i.isLt; omega) hc
      unfold setCell at this
      rw [hi] at this
      simp only [hc, if_true] at this
      simp only [hc, if_true]
      rw [this, if_neg h]
    · simp [hc]

theorem getCell_some_bounds {board : Board} {r c : Int} {u : PlacedUnit}
    (h : getCell board r c = some u) : 0 ≤ r ∧ r < ROWS ∧ 0 ≤ c := by
  unfold getCell at h
  cases hi : rowIdx? r with
  | none => rw [hi] at h; cases h
  | some i =>
    rw [hi] at h
    have hir := rowIdx?_eq_some hi
    have := i.isLt
    simp only [] at h
    unfold rowGet at h
    by_cases hc : 0 ≤ c
    · omega
    · rw [if_neg hc] at h; cases h

/-! ## Collected units -/

theorem mem_collectUnits {board : Board} {currentPlayer : Fin 2} {u : UnitPos} :
    u ∈ collectUnits board currentPlayer ↔
      u.row < ROWS ∧ getCell board u.row u.col = some u.unit ∧
        u.unit.playerIndex = currentPlayer := by
  unfold collectUnits
  simp only [List.mem_flatMap, List.mem_finRange, true_and, List.mem_filterMap]
  constructor
  · rintro ⟨i, ⟨c, cell⟩, hmem, hsome⟩
    rw [List.mk_mem_enum_iff_getElem?] at hmem
    simp only [] at hsome
    cases cell with
    | none => cases hsome
    | some unit =>
      simp only [] at hsome
      split at hsome
      · rename_i hp
        have := Option.some.inj hsome
        subst this
        refine ⟨i.isLt, ?_, hp⟩
        simp only []
        unfold getCell
        rw [rowIdx?_coe]
        simp only []
        unfold rowGet
        simp [List.getD_eq_getElem?_getD, hmem]
      · cases hsome
  · rintro ⟨hr, hget, hp⟩
    refine ⟨⟨u.row, hr⟩, (u.col, some u.unit), ?_, ?_⟩
    · rw [List.mk_mem_enum_iff_getElem?]
      unfold getCell at hget
      have := rowIdx?_coe ⟨u.row, hr⟩
      simp only [] at this
      rw [this] at hget
      simp only [] at hget
      unfold rowGet at hget
      simp only [Int.toNat_ofNat, Nat.cast_nonneg, if_true, List.getD_eq_getElem?_getD] at hget
      cases hx : (board ⟨u.row, hr⟩)[u.col]? with
      | none => rw [hx] at hget; cases hget
      | some x =>
        rw [hx] at hget
        simp only [Option.getD_some] at hget
        rw [hget]
    · simp only [hp, if_true]

theorem mem_sortUnits {currentPlayer : Fin 2} {units : List UnitPos} {u : UnitPos} :
    u ∈ sortUnits currentPlayer units ↔ u ∈ units :=
  (List.perm_insertionSort (unitOrder currentPlayer) units).mem_iff

theorem sortUnits_sorted (currentPlayer : Fin 2) (units : List UnitPos) :
    (sortUnits currentPlayer units).Sorted (unitOrder currentPlayer) :=
  List.sorted_insertionSort (unitOrder currentPlayer) units

/-- A property kept by every step of a `forEach` holds at its end. -/
theorem foldl_invariant {α β : Type} (P : α → Prop) (f : α → β → α) (l : List β) (a : α)
    (ha : P a) (hstep : ∀ s, ∀ u ∈ l, P s → P (f s u)) : P (l.foldl f a) := by
  induction l generalizing a with
  | nil => exact ha
  | cons x xs ih =>
    simp only [List.foldl_cons]
    apply ih
    · exact hstep a x (List.mem_cons_self _ _) ha
    · intro s u hu hs
      exact hstep s u (List.mem_cons_of_mem _ hu) hs

/-! ## Frame of the battle phase -/

theorem opponentIndex_ne (currentPlayer : Fin 2) : opponentIndex currentPlayer ≠ currentPlayer := by
  revert currentPlayer; decide

theorem applyOverflow_frame (state newState : GameState) (unit : PlacedUnit) (target : Target) :
    (applyOverflow state newState unit target).turnInfo = newState.turnInfo ∧
    (applyOverflow state newState unit target).gameOver = newState.gameOver ∧
    (applyOverflow state newState unit target).winner = newState.winner ∧
    (applyOverflow state newState unit target).message = newState.message ∧
    (applyOverflow state newState unit target).board = newState.board ∧
    (∀ i, ((applyOverflow state newState unit target).players i).economy =
      (newState.players i).economy) ∧
    (∀ i, i ≠ opponentIndex state.currentPlayer →
      (applyOverflow state newState unit target).players i = newState.players i) := by
  unfold applyOverflow
  simp only []
  split
  · split
    · refine ⟨rfl, rfl, rfl, rfl, rfl, ?_, ?_⟩
      · intro i
        simp only [setPlayer]
        split
        · rename_i h; subst h; rfl
        · rfl
      · intro i hi
        simp only [setPlayer, if_neg hi]
    · exact ⟨rfl, rfl, rfl, rfl, rfl, fun _ => rfl, fun _ _ => rfl⟩
  · exact ⟨rfl, rfl, rfl, rfl, rfl, fun _ => rfl, fun _ _ => rfl⟩

theorem attackStep_frame (state newState : GameState) (u : UnitPos) :
    (attackStep state newState u).turnInfo = newState.turnInfo ∧
    (attackStep state newState u).gameOver = newState.gameOver ∧
    (attackStep state newState u).winner = newState.winner ∧
    (attackStep state newState u).message = newState.message ∧
    (∀ i, ((attackStep state newState u).players i).economy = (newState.players i).economy) ∧
    (∀ i, i ≠ opponentIndex state.currentPlayer →
      (attackStep state newState u).players i = newState.players i) := by
  unfold attackStep
  split
  · exact ⟨rfl, rfl, rfl, rfl, fun _ => rfl, fun _ _ => rfl⟩
  · split
    · exact ⟨rfl, rfl, rfl, rfl, fun _ => rfl, fun _ _ => rfl⟩
    · rename_i target _
      obtain ⟨h1, h2, h3, h4, _, h6, h7⟩ := applyOverflow_frame state newState u.unit target
      simp only []
      split <;> exact ⟨h1, h2, h3, h4, h6, h7⟩

theorem battleUnits_frame (state : GameState) :
    (battleUnits state).turnInfo = state.turnInfo ∧
    (battleUnits state).gameOver = state.gameOver ∧
    (battleUnits state).winner = state.winner ∧
    (battleUnits state).message = state.message ∧
    (∀ i, ((battleUnits state).players i).economy = (state.players i).economy) ∧
    (∀ i, i ≠ opponentIndex state.currentPlayer →
      (battleUnits state).players i = state.players i) := by
  unfold battleUnits
  refine foldl_invariant (fun s : GameState =>
    s.turnInfo = state.turnInfo ∧ s.gameOver = state.gameOver ∧ s.winner = state.winner ∧
    s.message = state.message ∧ (∀ i, (s.players i).economy = (state.players i).economy) ∧
    (∀ i, i ≠ opponentIndex state.currentPlayer → s.players i = state.players i)) _ _ _ ?_ ?_
  · exact ⟨rfl, rfl, rfl, rfl, fun _ => rfl, fun _ _ => rfl⟩
  · intro s u _ ⟨h1, h2, h3, h4, h5, h6⟩
    obtain ⟨k1, k2, k3, k4, k5, k6⟩ := attackStep_frame state s u
    exact ⟨k1.trans h1, k2.trans h2, k3.trans h3, k4.trans h4,
      fun i => (k5 i).trans (h5 i), fun i hi => (k6 i hi).trans (h6 i hi)⟩

/-! ## Frame of the advance phase -/

theorem advanceStep_frame (state newState : GameState) (u : UnitPos) :
    (advanceStep state newState u).turnInfo = newState.turnInfo ∧
    (advanceStep state newState u).players = newState.players := by
  unfold advanceStep
  split
  · exact ⟨rfl, rfl⟩
  · simp only []
    split
    · exact ⟨rfl, rfl⟩
    · split
      · split <;> exact ⟨rfl, rfl⟩
      · exact ⟨rfl, rfl⟩

theorem advanceUnits_frame (state : GameState) :
    (advanceUnits state).turnInfo = state.turnInfo ∧
    (advanceUnits state).players = state.players := by
  unfold advanceUnits
  refine foldl_invariant
    (fun s : GameState => s.turnInfo = state.turnInfo ∧ s.players = state.players) _ _ _ ?_ ?_
  · exact ⟨rfl, rfl⟩
  · intro s u _ ⟨h1, h2⟩
    obtain ⟨k1, k2⟩ := advanceStep_frame state s u
    exact ⟨k1.trans h1, k2.trans h2⟩

/-! ## Frame of the draw phase -/

theorem drawCardOrFatigue_frame (state : GameState) (playerIndex : Fin 2) :
    (drawCardOrFatigue state playerIndex).turnInfo = state.turnInfo ∧
    (drawCardOrFatigue state playerIndex).gameOver = state.gameOver ∧
    (drawCardOrFatigue state playerIndex).winner = state.winner ∧
    (drawCardOrFatigue state playerIndex).message = state.message ∧
    (drawCardOrFatigue state playerIndex).board = state.board ∧
    (∀ i, i ≠ playerIndex → (drawCardOrFatigue state playerIndex).players i = state.players i) ∧
    ((drawCardOrFatigue state playerIndex).players playerIndex).mana =
      (state.players playerIndex).mana ∧
    ((drawCardOrFatigue state playerIndex).players playerIndex).manaCapacity =
      (state.players playerIndex).manaCapacity := by
  unfold drawCardOrFatigue
  simp only []
  split
  · split <;>
      exact ⟨rfl, rfl, rfl, rfl, rfl, fun i hi => by simp only [setPlayer, if_neg hi],
        by simp only [setPlayer, if_true], by simp only [setPlayer, if_true]⟩
  · split <;>
      exact ⟨rfl, rfl, rfl, rfl, rfl, fun i hi => by simp only [setPlayer, if_neg hi],
        by simp only [setPlayer, if_true], by simp only [setPlayer, if_true]⟩

/-! ## END_TURN: the win check after the battle phase -/

theorem checkWinCondition_log (s : GameState) (l : List String) :
    checkWinCondition { s with log := l } = checkWinCondition s := rfl

theorem endTurn_eq (state : GameState) :
    endTurn state =
      if winCheckTriggers state then
        match checkWinCondition (battleUnits state) with
        | some winResult =>
          applyWin { battleUnits state with
            log := (battleUnits state).log ++ ["Turn " ++ toString state.turn ++
              ": Battle phase for Player " ++ toString (playerNo state.currentPlayer)] } winResult
        | none => state
      else
        endTurnSwitch state { battleUnits state with
          log := (battleUnits state).log ++ ["Turn " ++ toString state.turn ++
            ": Battle phase for Player " ++ toString (playerNo state.currentPlayer)] } := by
  unfold endTurn winCheckTriggers
  simp only [checkWinCondition_log]
  cases hg : (battleUnits state).gameOver
  · cases hw : checkWinCondition (battleUnits state) <;> simp
  · simp

theorem checkWinCondition_gameOver {s : GameState} {w : WinResult}
    (h : checkWinCondition s = some w) : w.gameOver = true := by
  unfold checkWinCondition at h
  split at h
  · cases h; rfl
  · split at h
    · cases h; rfl
    · cases h

theorem checkWinCondition_isSome_iff (s : GameState) :
    (checkWinCondition s).isSome = true ↔ ∃ i, (s.players i).health ≤ 0 := by
  unfold checkWinCondition
  constructor
  · intro h
    split at h
    · exact ⟨0, by assumption⟩
    · split at h
      · exact ⟨1, by assumption⟩
      · cases h
  · rintro ⟨i, hi⟩
    split
    · rfl
    · split
      · rfl
      · rename_i h0 h1
        exfalso
        have : i = 0 ∨ i = 1 := by clear hi; revert i; decide
        rcases this with rfl | rfl
        · exact h0 hi
        · exact h1 hi

theorem economy_fields {p q : Player} (h : p.economy = q.economy) :
    p.hand = q.hand ∧ p.deck = q.deck ∧ p.mana = q.mana ∧ p.manaCapacity = q.manaCapacity ∧
      p.fatigueDamage = q.fatigueDamage := by
  unfold Player.economy at h
  simp only [Prod.mk.injEq] at h
  obtain ⟨_, h2, h3, h4, h5, _, h7⟩ := h
  exact ⟨h5, h4, h2, h3, h7⟩

theorem turnInfo_fields {s t : GameState} (h : s.turnInfo = t.turnInfo) :
    s.currentPlayer = t.currentPlayer ∧ s.turn = t.turn ∧ s.selectedCard = t.selectedCard ∧
      s.isFirstTurn = t.isFirstTurn ∧ s.gameMode = t.gameMode := by
  unfold GameState.turnInfo at h
  simp only [Prod.mk.injEq] at h
  obtain ⟨h1, h2, h3, h4, _, h6, _⟩ := h
  exact ⟨h1, h2, h3, h4, h6⟩

/-- C1. `END_TURN` on a state that is not over: when the battle phase leaves some player
at health `≤ 0`, the result is game over with the winner named by `checkWinCondition` on
the post-battle state, the current player and the turn are the input's, and every
player's hand, deck, mana, mana capacity and fatigue counter are the input's. -/
theorem endTurn_win_stops (state : GameState) (hgo : state.gameOver = false)
    (hdead : ∃ i, ((battleUnits state).players i).health ≤ 0) :
    ∃ winResult, checkWinCondition (battleUnits state) = some winResult ∧
      (gameReducer state Action.END_TURN).gameOver = true ∧
      (gameReducer state Action.END_TURN).winner = some winResult.winner ∧
      (gameReducer state Action.END_TURN).currentPlayer = state.currentPlayer ∧
      (gameReducer state Action.END_TURN).turn = state.turn ∧
      ∀ i, ((gameReducer state Action.END_TURN).players i).hand = (state.players i).hand ∧
        ((gameReducer state Action.END_TURN).players i).deck = (state.players i).deck ∧
        ((gameReducer state Action.END_TURN).players i).mana = (state.players i).mana ∧
        ((gameReducer state Action.END_TURN).players i).manaCapacity =
          (state.players i).manaCapacity ∧
        ((gameReducer state Action.END_TURN).players i).fatigueDamage =
          (state.players i).fatigueDamage := by
  obtain ⟨hinfo, hover, _, _, hecon, _⟩ := battleUnits_frame state
  have hsome := (checkWinCondition_isSome_iff (battleUnits state)).mpr hdead
  have htrig : winCheckTriggers state = true := by
    unfold winCheckTriggers
    rw [hover, hgo, hsome]
    rfl
  cases hw : checkWinCondition (battleUnits state) with
  | none => rw [hw] at hsome; cases hsome
  | some winResult =>
    refine ⟨winResult, rfl, ?_⟩
    have hres : gameReducer state Action.END_TURN =
        applyWin { battleUnits state with
          log := (battleUnits state).log ++ ["Turn " ++ toString state.turn ++
            ": Battle phase for Player " ++ toString (playerNo state.currentPlayer)] }
          winResult := by
      show endTurn state = _
      rw [endTurn_eq, htrig, hw]
      rfl
    rw [hres]
    obtain ⟨hcp, hturn, _⟩ := turnInfo_fields hinfo
    refine ⟨checkWinCondition_gameOver hw, rfl, hcp, hturn, fun i => ?_⟩
    exact economy_fields (hecon i)

theorem endTurn_win_stops_witness :
    overrunGame.gameOver = false ∧ ((battleUnits overrunGame).players 1).health ≤ 0 ∧
      (gameReducer overrunGame Action.END_TURN).gameOver = true ∧
      (gameReducer overrunGame Action.END_TURN).currentPlayer = 0 := by
  obtain ⟨_, _, h1, _, h2, _⟩ := endTurn_win_stops overrunGame rfl ⟨1, by decide⟩
  exact ⟨rfl, by decide, h1, h2⟩

/-! ## END_TURN: player switch and mana refill -/

theorem endTurnSwitch_fields (state newState : GameState) :
    (endTurnSwitch state newState).currentPlayer = (if state.currentPlayer = 0 then 1 else 0) ∧
    (endTurnSwitch state newState).turn =
      (if (if state.currentPlayer = 0 then (1 : Fin 2) else 0) = 0 then state.turn + 1
        else state.turn) ∧
    (endTurnSwitch state newState).isFirstTurn =
      (if (if state.currentPlayer = 0 then (1 : Fin 2) else 0) = 1 then false
        else state.isFirstTurn) ∧
    ((endTurnSwitch state newState).players (if state.currentPlayer = 0 then 1 else 0)).manaCapacity =
      (if (newState.players (if state.currentPlayer = 0 then 1 else 0)).manaCapacity < MAX_MANA
        then (newState.players (if state.currentPlayer = 0 then 1 else 0)).manaCapacity + 1
        else (newState.players (if state.currentPlayer = 0 then 1 else 0)).manaCapacity) ∧
    ((endTurnSwitch state newState).players (if state.currentPlayer = 0 then 1 else 0)).mana =
      ((endTurnSwitch state newState).players
        (if state.currentPlayer = 0 then 1 else 0)).manaCapacity ∧
    (∀ i, i ≠ (if state.currentPlayer = 0 then (1 : Fin 2) else 0) →
      (endTurnSwitch state newState).players i = newState.players i) := by
  generalize hnext : (if state.currentPlayer = 0 then (1 : Fin 2) else 0) = nextPlayer
  unfold endTurnSwitch
  simp only [hnext]
  generalize hs1 : ({ newState with
    currentPlayer := nextPlayer
    turn := if nextPlayer = 0 then state.turn + 1 else state.turn
    isFirstTurn := if nextPlayer = 1 then false else state.isFirstTurn } : GameState) = s1
  generalize hs3 : ({ drawCardOrFatigue s1 nextPlayer with
    log := (drawCardOrFatigue s1 nextPlayer).log ++
      ["Turn " ++ toString (drawCardOrFatigue s1 nextPlayer).turn ++ ": Draw phase for Player " ++
        toString (playerNo nextPlayer)] } : GameState) = s3
  obtain ⟨hd1, _, _, _, _, hd6, _, hd8⟩ := drawCardOrFatigue_frame s1 nextPlayer
  obtain ⟨ha1, ha2⟩ := advanceUnits_frame s3
  have h31 : s3.turnInfo = s1.turnInfo := by rw [← hs3]; exact hd1
  obtain ⟨c1, c2, _, c4, _⟩ := turnInfo_fields (ha1.trans h31)
  have hp3 : s3.players = (drawCardOrFatigue s1 nextPlayer).players := by rw [← hs3]
  have hp1 : s1.players = newState.players := by rw [← hs1]
  refine ⟨?_, ?_, ?_, ?_, ?_, ?_⟩
  · rw [c1, ← hs1]
  · rw [c2, ← hs1]
  · rw [c4, ← hs1]
  · simp only [if_true, ha2, hp3, hd8, hp1]
  · simp only [if_true]
  · intro i hi
    simp only [if_neg hi, ha2, hp3, hd6 i hi, hp1]

theorem other_player (currentPlayer : Fin 2) :
    (if currentPlayer = 0 then (1 : Fin 2) else 0) = 1 - currentPlayer := by
  revert currentPlayer; decide

theorem gameReducer_endTurn_of_not_triggers (state : GameState)
    (h : winCheckTriggers state = false) :
    gameReducer state Action.END_TURN =
      endTurnSwitch state { battleUnits state with
        log := (battleUnits state).log ++ ["Turn " ++ toString state.turn ++
          ": Battle phase for Player " ++ toString (playerNo state.currentPlayer)] } := by
  show endTurn state = _
  rw [endTurn_eq, h]
  rfl

/-- C2. `END_TURN` on a state where the post-battle win check does not trigger: the
current player becomes the other index, the turn grows by one exactly when the new
current player is `0`, `isFirstTurn` is cleared exactly when the new current player is
`1`; and a second such `END_TURN` restores the current player with the turn one higher. -/
theorem endTurn_switches_player (state : GameState) (h : winCheckTriggers state = false) :
    (gameReducer state Action.END_TURN).currentPlayer = 1 - state.currentPlayer ∧
    (gameReducer state Action.END_TURN).turn =
      (if (gameReducer state Action.END_TURN).currentPlayer = 0 then state.turn + 1
        else state.turn) ∧
    (gameReducer state Action.END_TURN).isFirstTurn =
      (if (gameReducer state Action.END_TURN).currentPlayer = 1 then false
        else state.isFirstTurn) ∧
    (winCheckTriggers (gameReducer state Action.END_TURN) = false →
      (gameReducer (gameReducer state Action.END_TURN) Action.END_TURN).currentPlayer =
        state.currentPlayer ∧
      (gameReducer (gameReducer state Action.END_TURN) Action.END_TURN).turn = state.turn + 1) := by
  have key : ∀ s : GameState, winCheckTriggers s = false →
      (gameReducer s Action.END_TURN).currentPlayer = 1 - s.currentPlayer ∧
      (gameReducer s Action.END_TURN).turn =
        (if (1 - s.currentPlayer) = 0 then s.turn + 1 else s.turn) ∧
      (gameReducer s Action.END_TURN).isFirstTurn =
        (if (1 - s.currentPlayer) = 1 then false else s.isFirstTurn) := by
    intro s hs
    rw [gameReducer_endTurn_of_not_triggers s hs]
    obtain ⟨h1, h2, h3, _⟩ := endTurnSwitch_fields s { battleUnits s with
        log := (battleUnits s).log ++ ["Turn " ++ toString s.turn ++
          ": Battle phase for Player " ++ toString (playerNo s.currentPlayer)] }
    rw [other_player] at h1 h2 h3
    exact ⟨h1, h2, h3⟩
  obtain ⟨h1, h2, h3⟩ := key state h
  refine ⟨h1, ?_, ?_, ?_⟩
  · rw [h1]; exact h2
  · rw [h1]; exact h3
  · intro h'
    obtain ⟨k1, k2, _⟩ := key _ h'
    rw [k1, k2, h1, h2]
    have hcases : state.currentPlayer = 0 ∨ state.currentPlayer = 1 := by
      generalize state.currentPlayer = c
      revert c; decide
    rcases hcases with hc | hc <;> rw [hc] <;> simp

theorem endTurn_switches_player_witness :
    winCheckTriggers sampleGame = false ∧
      winCheckTriggers (gameReducer sampleGame Action.END_TURN) = false ∧
      (gameReducer sampleGame Action.END_TURN).currentPlayer = 1 ∧
      (gameReducer sampleGame Action.END_TURN).turn = 1 ∧
      (gameReducer (gameReducer sampleGame Action.END_TURN) Action.END_TURN).currentPlayer = 0 ∧
      (gameReducer (gameReducer sampleGame Action.END_TURN) Action.END_TURN).turn = 2 :=
  ⟨by decide, by decide, (endTurn_switches_player sampleGame (by decide)).1,
    (endTurn_switches_player sampleGame (by decide)).2.1,
    (endTurn_switches_player sampleGame (by decide)).2.2.2 (by decide)⟩

theorem dealCards_fields (n : Nat) (player : Player) :
    (dealCards n player).health = player.health ∧ (dealCards n player).mana = player.mana ∧
      (dealCards n player).manaCapacity = player.manaCapacity ∧
      (dealCards n player).fatigueDamage = player.fatigueDamage := by
  induction n generalizing player with
  | zero => exact ⟨rfl, rfl, rfl, rfl⟩
  | succ n ih =>
    unfold dealCards
    split
    · exact ih _
    · exact ih _

theorem collectUnits_empty (currentPlayer : Fin 2) :
    collectUnits (fun _ => List.replicate COLS none) currentPlayer = [] := by
  rw [List.eq_nil_iff_forall_not_mem]
  intro u hu
  rw [mem_collectUnits] at hu
  obtain ⟨_, hget, _⟩ := hu
  unfold getCell at hget
  split at hget
  · unfold rowGet at hget
    split at hget
    · rw [List.getD_eq_getElem?_getD, List.getElem?_replicate] at hget
      split at hget <;> cases hget
    · cases hget
  · cases hget

theorem winCheckTriggers_initial (d1 d2 : List Card) (a1 a2 : String) :
    winCheckTriggers (initializeGameWith d1 d2 a1 a2) = false := by
  have hb : battleUnits (initializeGameWith d1 d2 a1 a2) = initializeGameWith d1 d2 a1 a2 := by
    unfold battleUnits
    have : (initializeGameWith d1 d2 a1 a2).board = fun _ => List.replicate COLS none := rfl
    rw [this, collectUnits_empty]
    rfl
  unfold winCheckTriggers
  rw [hb]
  have h0 : ((initializeGameWith d1 d2 a1 a2).players 0).health = 30 :=
    (dealCards_fields _ _).1
  have h1 : ((initializeGameWith d1 d2 a1 a2).players 1).health = 30 :=
    (dealCards_fields _ _).1
  have : checkWinCondition (initializeGameWith d1 d2 a1 a2) = none := by
    unfold checkWinCondition
    rw [h0, h1]
    rfl
  rw [this]
  rfl

/-- The refill guards the increment with `manaCapacity < MAX_MANA` and never lowers a
capacity: a capacity of 11, outside the range `1 .. 10` of the data model, stays 11. -/
theorem endTurn_capacity_not_min :
    winCheckTriggers overfullManaGame = false ∧
      ((gameReducer overfullManaGame Action.END_TURN).players 1).manaCapacity = 11 ∧
      ((gameReducer overfullManaGame Action.END_TURN).players 1).manaCapacity ≠
        min ((overfullManaGame.players 1).manaCapacity + 1) 10 := by
  decide

/-- The mana refill of `END_TURN` on a state where the post-battle win check does not
trigger: the new current player's capacity grows by one while it is below `MAX_MANA = 10`,
which is `min (old + 1) 10` for every old capacity of at most 10; their mana is the new
capacity; the other player's mana and capacity are unchanged.  On a freshly initialised
game, whatever the two decks, player 1 ends with mana 2 and capacity 2. -/
theorem endTurn_refill (state : GameState) (h : winCheckTriggers state = false) :
    ((gameReducer state Action.END_TURN).players (1 - state.currentPlayer)).manaCapacity =
      (if (state.players (1 - state.currentPlayer)).manaCapacity < 10
        then (state.players (1 - state.currentPlayer)).manaCapacity + 1
        else (state.players (1 - state.currentPlayer)).manaCapacity) ∧
    ((state.players (1 - state.currentPlayer)).manaCapacity ≤ 10 →
      ((gameReducer state Action.END_TURN).players (1 - state.currentPlayer)).manaCapacity =
        min ((state.players (1 - state.currentPlayer)).manaCapacity + 1) 10) ∧
    ((gameReducer state Action.END_TURN).players (1 - state.currentPlayer)).mana =
      ((gameReducer state Action.END_TURN).players (1 - state.currentPlayer)).manaCapacity ∧
    ((gameReducer state Action.END_TURN).players state.currentPlayer).mana =
      (state.players state.currentPlayer).mana ∧
    ((gameReducer state Action.END_TURN).players state.currentPlayer).manaCapacity =
      (state.players state.currentPlayer).manaCapacity ∧
    (∀ d1 d2 a1 a2,
      ((gameReducer (initializeGameWith d1 d2 a1 a2) Action.END_TURN).players 1).mana = 2 ∧
      ((gameReducer (initializeGameWith d1 d2 a1 a2) Action.END_TURN).players 1).manaCapacity
        = 2) := by
  have key : ∀ s : GameState, winCheckTriggers s = false →
      ((gameReducer s Action.END_TURN).players (1 - s.currentPlayer)).manaCapacity =
        (if (s.players (1 - s.currentPlayer)).manaCapacity < 10
          then (s.players (1 - s.currentPlayer)).manaCapacity + 1
          else (s.players (1 - s.currentPlayer)).manaCapacity) ∧
      ((gameReducer s Action.END_TURN).players (1 - s.currentPlayer)).mana =
        ((gameReducer s Action.END_TURN).players (1 - s.currentPlayer)).manaCapacity ∧
      ((gameReducer s Action.END_TURN).players s.currentPlayer).mana =
        (s.players s.currentPlayer).mana ∧
      ((gameReducer s Action.END_TURN).players s.currentPlayer).manaCapacity =
        (s.players s.currentPlayer).manaCapacity := by
    intro s hs
    rw [gameReducer_endTurn_of_not_triggers s hs]
    obtain ⟨_, _, _, h4, h5, h6⟩ := endTurnSwitch_fields s { battleUnits s with
        log := (battleUnits s).log ++ ["Turn " ++ toString s.turn ++
          ": Battle phase for Player " ++ toString (playerNo s.currentPlayer)] }
    rw [other_player] at h4 h5 h6
    obtain ⟨_, _, _, _, hecon, _⟩ := battleUnits_frame s
    have hne : s.currentPlayer ≠ 1 - s.currentPlayer := by
      generalize s.currentPlayer = c
      revert c; decide
    obtain ⟨_, _, e3, e4, _⟩ := economy_fields (hecon (1 - s.currentPlayer))
    obtain ⟨_, _, f3, f4, _⟩ := economy_fields (hecon s.currentPlayer)
    refine ⟨?_, h5, ?_, ?_⟩
    · rw [h4]
      show (if ((battleUnits s).players (1 - s.currentPlayer)).manaCapacity < MAX_MANA then _
        else _) = _
      rw [e4]
      rfl
    · rw [h6 _ hne]; exact f3
    · rw [h6 _ hne]; exact f4
  obtain ⟨k1, k2, k3, k4⟩ := key state h
  refine ⟨k1, ?_, k2, k3, k4, ?_⟩
  · intro hle
    rw [k1]
    split
    · rw [min_eq_left (by omega)]
    · rw [min_eq_right (by omega)]; omega
  · intro d1 d2 a1 a2
    obtain ⟨j1, j2, _, _⟩ := key _ (winCheckTriggers_initial d1 d2 a1 a2)
    have hcap : ((initializeGameWith d1 d2 a1 a2).players 1).manaCapacity = 1 :=
      (dealCards_fields _ _).2.2.1
    have hcp : (1 : Fin 2) - (initializeGameWith d1 d2 a1 a2).currentPlayer = 1 := rfl
    rw [hcp] at j1 j2
    rw [hcap] at j1
    rw [j2, j1]
    exact ⟨rfl, rfl⟩

/-! ## Draw phase: draw, burn and fatigue -/

/-- C4. Drawing for a player whose deck is non-empty removes exactly the deck's last
card, the rest of the deck keeping its order; with fewer than 7 cards in hand the card is
appended to the hand (one card more), otherwise the hand is unchanged and the card is
burned; health and fatigue counter of that player and the whole other player are
unchanged, and exactly one log line is appended. -/
theorem drawCardOrFatigue_nonempty_deck (state : GameState) (playerIndex : Fin 2)
    (h : (state.players playerIndex).deck ≠ []) :
    (state.players playerIndex).deck =
      ((drawCardOrFatigue state playerIndex).players playerIndex).deck ++
        [(state.players playerIndex).deck.getLast h] ∧
    ((state.players playerIndex).hand.length < 7 →
      ((drawCardOrFatigue state playerIndex).players playerIndex).hand =
        (state.players playerIndex).hand ++ [(state.players playerIndex).deck.getLast h] ∧
      ((drawCardOrFatigue state playerIndex).players playerIndex).hand.length =
        (state.players playerIndex).hand.length + 1) ∧
    (7 ≤ (state.players playerIndex).hand.length →
      ((drawCardOrFatigue state playerIndex).players playerIndex).hand =
        (state.players playerIndex).hand) ∧
    ((drawCardOrFatigue state playerIndex).players playerIndex).health =
      (state.players playerIndex).health ∧
    ((drawCardOrFatigue state playerIndex).players playerIndex).fatigueDamage =
      (state.players playerIndex).fatigueDamage ∧
    (∀ j, j ≠ playerIndex → (drawCardOrFatigue state playerIndex).players j = state.players j) ∧
    (∃ line, (drawCardOrFatigue state playerIndex).log = state.log ++ [line]) := by
  have hlast := List.getLast?_eq_getLast _ h
  have hsplit := List.dropLast_append_getLast h
  unfold drawCardOrFatigue
  simp only [hlast]
  by_cases hlen : (state.players playerIndex).hand.length < HAND_SIZE_LIMIT
  · simp only [hlen, if_true, setPlayer]
    refine ⟨hsplit.symm, fun _ => ⟨by trivial, by simp⟩, ?_, by trivial, by trivial, ?_, ⟨_, rfl⟩⟩
    · intro h7
      unfold HAND_SIZE_LIMIT at hlen
      omega
    · intro j hj
      simp only [if_neg hj]
  · simp only [hlen, if_false, setPlayer, if_true]
    refine ⟨hsplit.symm, ?_, fun _ => by trivial, by trivial, by trivial, ?_, ⟨_, rfl⟩⟩
    · intro h7
      unfold HAND_SIZE_LIMIT at hlen
      omega
    · intro j hj
      simp only [if_neg hj]

theorem drawCardOrFatigue_nonempty_deck_witness :
    (sampleGame.players 1).deck ≠ [] ∧
      ((drawCardOrFatigue sampleGame 1).players 1).hand.length = 4 ∧
      ((drawCardOrFatigue sampleGame 1).players 1).deck.length = 11 :=
  ⟨by decide,
    ((drawCardOrFatigue_nonempty_deck sampleGame 1 (by decide)).2.1 (by decide)).2,
    by decide⟩

theorem drawCardOrFatigue_fatigue (state : GameState) (playerIndex : Fin 2)
    (hdeck : (state.players playerIndex).deck = [])
    (hhand : (state.players playerIndex).hand.length < 7) :
    (drawCardOrFatigue state playerIndex).players playerIndex =
      { state.players playerIndex with
        fatigueDamage := (state.players playerIndex).fatigueDamage + 1
        health := (state.players playerIndex).health -
          ((state.players playerIndex).fatigueDamage + 1) } := by
  unfold drawCardOrFatigue
  have hlen : (state.players playerIndex).hand.length < HAND_SIZE_LIMIT := hhand
  simp only [hlen, if_true, hdeck, List.getLast?_nil, setPlayer, FATIGUE_DAMAGE]

theorem triangle_succ (k : Nat) :
    ((k : Int) + 1) * ((k : Int) + 1 + 1) / 2 = (k : Int) * ((k : Int) + 1) / 2 + ((k : Int) + 1) := by
  have : ((k : Int) + 1) * ((k : Int) + 1 + 1) = (k : Int) * ((k : Int) + 1) + 2 * ((k : Int) + 1) := by
    ring
  rw [this, Int.add_mul_ediv_left _ _ (by decide : (2 : Int) ≠ 0)]

theorem drawCardOrFatigue_iterate (state : GameState) (playerIndex : Fin 2)
    (hdeck : (state.players playerIndex).deck = [])
    (hhand : (state.players playerIndex).hand.length < 7) (k : Nat) :
    ((((fun s => drawCardOrFatigue s playerIndex)^[k]) state).players playerIndex).deck = [] ∧
    ((((fun s => drawCardOrFatigue s playerIndex)^[k]) state).players playerIndex).hand =
      (state.players playerIndex).hand ∧
    ((((fun s => drawCardOrFatigue s playerIndex)^[k]) state).players playerIndex).fatigueDamage =
      (state.players playerIndex).fatigueDamage + k ∧
    ((((fun s => drawCardOrFatigue s playerIndex)^[k]) state).players playerIndex).health =
      (state.players playerIndex).health -
        (k * (state.players playerIndex).fatigueDamage + (k : Int) * ((k : Int) + 1) / 2) := by
  induction k with
  | zero => simp [hdeck]
  | succ k ih =>
    obtain ⟨i1, i2, i3, i4⟩ := ih
    rw [Function.iterate_succ_apply']
    rw [drawCardOrFatigue_fatigue _ _ i1 (by rw [i2]; exact hhand)]
    refine ⟨i1, i2, ?_, ?_⟩
    · simp only [i3]
      push_cast
      ring
    · simp only [i3, i4]
      push_cast
      rw [triangle_succ]
      ring

/-- C5. For a player with an empty deck, fewer than 7 cards in hand and fatigue counter
`f`, `k` consecutive draws raise the counter to `f + k` and lower health by
`k*f + k*(k+1)/2` in total; the `n`-th draw subtracts `f + n`, which from `f = 0` is
1, 2, 3, ... -/
theorem fatigue_escalates (state : GameState) (playerIndex : Fin 2)
    (hdeck : (state.players playerIndex).deck = [])
    (hhand : (state.players playerIndex).hand.length < 7) (k : Nat) :
    ((((fun s => drawCardOrFatigue s playerIndex)^[k]) state).players playerIndex).fatigueDamage =
      (state.players playerIndex).fatigueDamage + k ∧
    ((((fun s => drawCardOrFatigue s playerIndex)^[k]) state).players playerIndex).health =
      (state.players playerIndex).health -
        (k * (state.players playerIndex).fatigueDamage + (k : Int) * ((k : Int) + 1) / 2) ∧
    (∀ n : Nat, 1 ≤ n → n ≤ k →
      ((((fun s => drawCardOrFatigue s playerIndex)^[n - 1]) state).players playerIndex).health -
        ((((fun s => drawCardOrFatigue s playerIndex)^[n]) state).players playerIndex).health =
        (state.players playerIndex).fatigueDamage + n) ∧
    ((state.players playerIndex).fatigueDamage = 0 → ∀ n : Nat, 1 ≤ n → n ≤ k →
      ((((fun s => drawCardOrFatigue s playerIndex)^[n - 1]) state).players playerIndex).health -
        ((((fun s => drawCardOrFatigue s playerIndex)^[n]) state).players playerIndex).health =
        n) := by
  have hstep : ∀ n : Nat, 1 ≤ n →
      ((((fun s => drawCardOrFatigue s playerIndex)^[n - 1]) state).players playerIndex).health -
        ((((fun s => drawCardOrFatigue s playerIndex)^[n]) state).players playerIndex).health =
        (state.players playerIndex).fatigueDamage + n := by
    intro n hn
    obtain ⟨m, rfl⟩ : ∃ m, n = m + 1 := ⟨n - 1, by omega⟩
    obtain ⟨i1, i2, i3, _⟩ := drawCardOrFatigue_iterate state playerIndex hdeck hhand m
    rw [Nat.add_sub_cancel, Function.iterate_succ_apply',
      drawCardOrFatigue_fatigue _ _ i1 (by rw [i2]; exact hhand)]
    simp only [i3]
    push_cast
    ring
  obtain ⟨_, _, h3, h4⟩ := drawCardOrFatigue_iterate state playerIndex hdeck hhand k
  refine ⟨h3, h4, fun n hn _ => hstep n hn, fun hf n hn _ => ?_⟩
  rw [hstep n hn, hf]
  simp

theorem fatigue_escalates_witness :
    (exhaustedGame.players 0).deck = [] ∧ (exhaustedGame.players 0).hand.length < 7 ∧
      ((((fun s => drawCardOrFatigue s 0)^[3]) exhaustedGame).players 0).fatigueDamage = 3 ∧
      ((((fun s => drawCardOrFatigue s 0)^[3]) exhaustedGame).players 0).health = 24 :=
  ⟨rfl, by decide, (fatigue_escalates exhaustedGame 0 rfl (by decide) 3).1,
    (fatigue_escalates exhaustedGame 0 rfl (by decide) 3).2.1⟩

/-! ## Battle phase: target choice -/

theorem validTargets_eq (board : Board) (currentPlayer : Fin 2) (row col : Nat) :
    validTargets board currentPlayer row col =
      (frontCells currentPlayer row col).filterMap (targetAt board currentPlayer) := rfl

theorem selectTarget_eq (board : Board) (currentPlayer : Fin 2) (row col : Nat) :
    selectTarget board currentPlayer row col =
      (((validTargets board currentPlayer row col).filter (fun t => t.unit.hasTaunt)).head?).or
        (validTargets board currentPlayer row col).head? := by
  unfold selectTarget
  cases hv : validTargets board currentPlayer row col with
  | nil => rfl
  | cons first rest =>
    simp only []
    cases hf : List.filter (fun t => t.unit.hasTaunt) (first :: rest) with
    | nil => rfl
    | cons t ts => rfl

theorem head?_validTargets (board : Board) (currentPlayer : Fin 2) (cells : List (Int × Int)) :
    (cells.filterMap (targetAt board currentPlayer)).head? =
      (cells.find? (enemyAt board currentPlayer)).bind (targetAt board currentPlayer) := by
  induction cells with
  | nil => rfl
  | cons cell rest ih =>
    rw [List.filterMap_cons, List.find?_cons]
    unfold targetAt enemyAt at *
    cases hg : getCell board cell.1 cell.2 with
    | none => simpa using ih
    | some unit =>
      by_cases hp : unit.playerIndex ≠ currentPlayer
      · simp [hp, hg]
      · simpa [hp] using ih

theorem head?_tauntTargets (board : Board) (currentPlayer : Fin 2) (cells : List (Int × Int)) :
    ((cells.filterMap (targetAt board currentPlayer)).filter (fun t => t.unit.hasTaunt)).head? =
      (cells.find? (tauntEnemyAt board currentPlayer)).bind (targetAt board currentPlayer) := by
  induction cells with
  | nil => rfl
  | cons cell rest ih =>
    rw [List.filterMap_cons, List.find?_cons]
    unfold targetAt tauntEnemyAt at *
    cases hg : getCell board cell.1 cell.2 with
    | none => simpa using ih
    | some unit =>
      by_cases hp : unit.playerIndex ≠ currentPlayer
      · cases ht : unit.hasTaunt
        · simpa [hp, ht, List.filter_cons] using ih
        · simp [hp, ht, hg, List.filter_cons]
      · simpa [hp] using ih

theorem targetAt_of_enemyAt {board : Board} {currentPlayer : Fin 2} {cell : Int × Int}
    (h : enemyAt board currentPlayer cell = true) :
    ∃ unit, getCell board cell.1 cell.2 = some unit ∧ unit.playerIndex ≠ currentPlayer ∧
      targetAt board currentPlayer cell = some ⟨cell.1, cell.2, unit⟩ := by
  unfold enemyAt at h
  unfold targetAt
  cases hg : getCell board cell.1 cell.2 with
  | none => rw [hg] at h; cases h
  | some unit =>
    rw [hg] at h
    have hp : unit.playerIndex ≠ currentPlayer := by simpa using h
    exact ⟨unit, rfl, hp, by simp [hp]⟩

theorem enemyAt_of_tauntEnemyAt {board : Board} {currentPlayer : Fin 2} {cell : Int × Int}
    (h : tauntEnemyAt board currentPlayer cell = true) :
    enemyAt board currentPlayer cell = true := by
  unfold tauntEnemyAt at h
  unfold enemyAt
  cases hg : getCell board cell.1 cell.2 with
  | none => rw [hg] at h; cases h
  | some unit =>
    rw [hg] at h
    simp only [Bool.and_eq_true] at h
    exact h.1

/-- The chosen target stands on the live board and is an enemy inside the 5x7 board. -/
theorem selectTarget_spec {board : Board} {currentPlayer : Fin 2} {row col : Nat} {t : Target}
    (h : selectTarget board currentPlayer row col = some t) :
    getCell board t.r t.c = some t.unit ∧ t.unit.playerIndex ≠ currentPlayer ∧
      (t.r, t.c) ∈ frontCells currentPlayer row col := by
  have hmem : t ∈ validTargets board currentPlayer row col := by
    rw [selectTarget_eq] at h
    cases hf : ((validTargets board currentPlayer row col).filter
        (fun t => t.unit.hasTaunt)).head? with
    | some x =>
      rw [hf] at h
      simp only [Option.or_some] at h
      cases h
      exact (List.mem_filter.mp (List.mem_of_mem_head? hf)).1
    | none =>
      rw [hf] at h
      simp only [Option.none_or] at h
      exact List.mem_of_mem_head? h
  rw [validTargets_eq, List.mem_filterMap] at hmem
  obtain ⟨cell, hcell, htar⟩ := hmem
  unfold targetAt at htar
  cases hg : getCell board cell.1 cell.2 with
  | none => rw [hg] at htar; cases htar
  | some unit =>
    rw [hg] at htar
    simp only [] at htar
    split at htar
    · cases htar
      rename_i hp
      exact ⟨hg, hp, hcell⟩
    · cases htar

/-! ## Battle phase: one attack -/

theorem boardAll_spec (p : PlacedUnit → Bool) (board : Board) (h : boardAll p board = true)
    {r c : Int} {unit : PlacedUnit} (hget : getCell board r c = some unit) : p unit = true := by
  unfold boardAll at h
  rw [List.all_eq_true] at h
  unfold getCell at hget
  cases hi : rowIdx? r with
  | none => rw [hi] at hget; cases hget
  | some i =>
    rw [hi] at hget
    simp only [] at hget
    have hrow := h i (List.mem_finRange i)
    rw [List.all_eq_true] at hrow
    unfold rowGet at hget
    split at hget
    · rw [List.getD_eq_getElem?_getD] at hget
      cases hx : (board i)[c.toNat]? with
      | none => rw [hx] at hget; cases hget
      | some x =>
        rw [hx] at hget
        simp only [Option.getD_some] at hget
        have := hrow x (List.getElem?_mem hx)
        rw [hget] at this
        exact this
    · cases hget

theorem attackStep_board (state newState : GameState) (u : UnitPos) (t : Target)
    (hlive : getCell newState.board u.row u.col = some u.unit)
    (hsel : selectTarget newState.board state.currentPlayer u.row u.col = some t) :
    (attackStep state newState u).board =
      setCell newState.board t.r t.c
        (if t.unit.health - u.unit.attack ≤ 0 then none
          else some { t.unit with health := t.unit.health - u.unit.attack }) := by
  unfold attackStep
  rw [if_neg (by rw [hlive]; exact fun h => h rfl), hsel]
  have hb := (applyOverflow_frame state newState u.unit t).2.2.2.2.1
  simp only []
  split
  · simp only [hb]
  · simp only [hb]

theorem attackStep_players (state newState : GameState) (u : UnitPos) (t : Target)
    (hlive : getCell newState.board u.row u.col = some u.unit)
    (hsel : selectTarget newState.board state.currentPlayer u.row u.col = some t) :
    (attackStep state newState u).players = (applyOverflow state newState u.unit t).players := by
  unfold attackStep
  rw [if_neg (by rw [hlive]; exact fun h => h rfl), hsel]
  simp only []
  split <;> rfl

theorem attackStep_cells (state newState : GameState) (u : UnitPos) (t : Target)
    (hlive : getCell newState.board u.row u.col = some u.unit)
    (hsel : selectTarget newState.board state.currentPlayer u.row u.col = some t) (r c : Int) :
    getCell (attackStep state newState u).board r c =
      if r = t.r ∧ c = t.c then
        (if t.unit.health - u.unit.attack ≤ 0 then none
          else some { t.unit with health := t.unit.health - u.unit.attack })
      else getCell newState.board r c := by
  obtain ⟨hget, _, _⟩ := selectTarget_spec hsel
  obtain ⟨b1, b2, b3⟩ := getCell_some_bounds hget
  rw [attackStep_board state newState u t hlive hsel, getCell_setCell _ _ _ _ _ _ b1 b2 b3]

theorem frontCells_eq (currentPlayer : Fin 2) (row col : Nat) :
    frontCells currentPlayer row col =
      [((row : Int) + (if currentPlayer = 0 then 1 else -1), (col : Int)),
       ((row : Int) + (if currentPlayer = 0 then 1 else -1), (col : Int) - 1),
       ((row : Int) + (if currentPlayer = 0 then 1 else -1), (col : Int) + 1)].filter
        (fun cell => decide (0 ≤ cell.1 ∧ cell.1 < 5 ∧ 0 ≤ cell.2 ∧ cell.2 < 7)) := by
  unfold frontCells direction
  congr 1
  funext cell
  unfold inBounds
  simp only [ROWS, COLS, Bool.decide_and, Nat.cast_ofNat, Bool.and_assoc]

/-- C6. For an acting unit at `(row, col)` the candidate cells are `(row+d, col)`,
`(row+d, col-1)`, `(row+d, col+1)` in this order, kept when inside the 5x7 board, with
`d = 1` for player 0 and `d = -1` for player 1.  The target is the first candidate holding
an enemy unit with taunt when there is one, otherwise the first candidate holding an
enemy unit; with no enemy in any candidate the step changes nothing; and the attack of a
live unit changes the target's cell and no other. -/
theorem attack_target_choice (state newState : GameState) (u : UnitPos) :
    frontCells state.currentPlayer u.row u.col =
      [((u.row : Int) + (if state.currentPlayer = 0 then 1 else -1), (u.col : Int)),
       ((u.row : Int) + (if state.currentPlayer = 0 then 1 else -1), (u.col : Int) - 1),
       ((u.row : Int) + (if state.currentPlayer = 0 then 1 else -1), (u.col : Int) + 1)].filter
        (fun cell => decide (0 ≤ cell.1 ∧ cell.1 < 5 ∧ 0 ≤ cell.2 ∧ cell.2 < 7)) ∧
    (∀ cell, (frontCells state.currentPlayer u.row u.col).find?
        (tauntEnemyAt newState.board state.currentPlayer) = some cell →
      ∃ unit, getCell newState.board cell.1 cell.2 = some unit ∧
        selectTarget newState.board state.currentPlayer u.row u.col =
          some ⟨cell.1, cell.2, unit⟩) ∧
    ((frontCells state.currentPlayer u.row u.col).find?
        (tauntEnemyAt newState.board state.currentPlayer) = none →
      ∀ cell, (frontCells state.currentPlayer u.row u.col).find?
          (enemyAt newState.board state.currentPlayer) = some cell →
        ∃ unit, getCell newState.board cell.1 cell.2 = some unit ∧
          selectTarget newState.board state.currentPlayer u.row u.col =
            some ⟨cell.1, cell.2, unit⟩) ∧
    ((frontCells state.currentPlayer u.row u.col).find?
        (enemyAt newState.board state.currentPlayer) = none →
      selectTarget newState.board state.currentPlayer u.row u.col = none ∧
        attackStep state newState u = newState) ∧
    (getCell newState.board u.row u.col = some u.unit →
      ∀ t, selectTarget newState.board state.currentPlayer u.row u.col = some t →
        getCell (attackStep state newState u).board t.r t.c =
          (if t.unit.health - u.unit.attack ≤ 0 then none
            else some { t.unit with health := t.unit.health - u.unit.attack }) ∧
        ∀ r c, ¬ (r = t.r ∧ c = t.c) →
          getCell (attackStep state newState u).board r c = getCell newState.board r c) := by
  have hsel := selectTarget_eq newState.board state.currentPlayer u.row u.col
  rw [validTargets_eq, head?_validTargets, head?_tauntTargets] at hsel
  refine ⟨frontCells_eq _ _ _, ?_, ?_, ?_, ?_⟩
  · intro cell hfind
    obtain ⟨unit, hget, _, htar⟩ :=
      targetAt_of_enemyAt (enemyAt_of_tauntEnemyAt (List.find?_some hfind))
    refine ⟨unit, hget, ?_⟩
    rw [hsel, hfind]
    simp only [Option.some_bind, htar, Option.or_some]
  · intro hnone cell hfind
    obtain ⟨unit, hget, _, htar⟩ := targetAt_of_enemyAt (List.find?_some hfind)
    refine ⟨unit, hget, ?_⟩
    rw [hsel, hnone, hfind]
    simp only [Option.none_bind, Option.none_or, Option.some_bind, htar]
  · intro hnone
    have hnoTaunt : (frontCells state.currentPlayer u.row u.col).find?
        (tauntEnemyAt newState.board state.currentPlayer) = none := by
      rw [List.find?_eq_none] at hnone ⊢
      intro x hx ht
      exact hnone x hx (enemyAt_of_tauntEnemyAt ht)
    have hs : selectTarget newState.board state.currentPlayer u.row u.col = none := by
      rw [hsel, hnone, hnoTaunt]
      rfl
    refine ⟨hs, ?_⟩
    unfold attackStep
    rw [hs]
    simp
  · intro hlive t ht
    constructor
    · rw [attackStep_cells state newState u t hlive ht, if_pos ⟨rfl, rfl⟩]
    · intro r c hne
      rw [attackStep_cells state newState u t hlive ht, if_neg hne]

theorem attack_target_choice_witness :
    getCell skirmishGame.board 0 1 = some (sampleUnit "scout" 3 2 false 0) ∧
      ∃ unit, getCell skirmishGame.board 1 2 = some unit ∧
        selectTarget skirmishGame.board 0 0 1 = some ⟨1, 2, unit⟩ :=
  ⟨by decide,
    (attack_target_choice skirmishGame skirmishGame
      ⟨sampleUnit "scout" 3 2 false 0, 0, 1⟩).2.1 (1, 2) (by decide)⟩

/-- C7. One attack of a live unit `u` on its target `t`, with `a = u.unit.attack` and
`h = t.unit.health` before the attack: when the target stands on the opponent's spawn row
(row 4 when player 0 acts, row 0 when player 1 acts) and `a > h`, the opponent's health
drops by exactly `a - h` and the acting player's health is unchanged; in every other case
both players' health is unchanged. -/
theorem attack_overflow_damage (state newState : GameState) (u : UnitPos) (t : Target)
    (hlive : getCell newState.board u.row u.col = some u.unit)
    (hsel : selectTarget newState.board state.currentPlayer u.row u.col = some t) :
    (t.r = (if state.currentPlayer = 0 then 4 else 0) ∧ u.unit.attack > t.unit.health →
      ((attackStep state newState u).players (1 - state.currentPlayer)).health =
        (newState.players (1 - state.currentPlayer)).health -
          (u.unit.attack - t.unit.health) ∧
      ((attackStep state newState u).players state.currentPlayer).health =
        (newState.players state.currentPlayer).health) ∧
    (¬ (t.r = (if state.currentPlayer = 0 then 4 else 0) ∧ u.unit.attack > t.unit.health) →
      ∀ i, ((attackStep state newState u).players i).health = (newState.players i).health) := by
  rw [attackStep_players state newState u t hlive hsel]
  have hrow : opponentSpawnRow state.currentPlayer = (if state.currentPlayer = 0 then 4 else 0) := by
    unfold opponentSpawnRow
    split <;> rfl
  have hopp : opponentIndex state.currentPlayer = 1 - state.currentPlayer := rfl
  have hne : state.currentPlayer ≠ 1 - state.currentPlayer := by
    generalize state.currentPlayer = c
    revert c; decide
  unfold applyOverflow
  simp only [hrow, hopp]
  constructor
  · rintro ⟨hr, ha⟩
    have h1 : t.unit.health - u.unit.attack ≤ 0 := by omega
    have h2 : u.unit.attack - t.unit.health > 0 := by omega
    simp only [hr, h1, h2, decide_True, Bool.and_self, if_true, setPlayer, if_neg hne]
    exact ⟨trivial, trivial⟩
  · intro hnot i
    by_cases hr : t.r = (if state.currentPlayer = 0 then 4 else 0)
    · have ha : ¬ u.unit.attack > t.unit.health := fun h => hnot ⟨hr, h⟩
      have h2 : ¬ u.unit.attack - t.unit.health > 0 := by omega
      simp only [h2, if_false, ite_self]
    · simp only [hr, decide_False, Bool.false_and, Bool.false_eq_true, if_false]

theorem attack_overflow_damage_witness :
    getCell overrunGame.board 3 2 = some (sampleUnit "ram" 40 5 false 0) ∧
      selectTarget overrunGame.board 0 3 2 = some ⟨4, 2, sampleUnit "guard" 1 1 true 1⟩ ∧
      ((attackStep overrunGame overrunGame ⟨sampleUnit "ram" 40 5 false 0, 3, 2⟩).players 1).health
        = 30 - (40 - 1) :=
  ⟨by decide, by decide,
    ((attack_overflow_damage overrunGame overrunGame ⟨sampleUnit "ram" 40 5 false 0, 3, 2⟩
      ⟨4, 2, sampleUnit "guard" 1 1 true 1⟩ (by decide) (by decide)).1
        ⟨by decide, by decide⟩).1⟩

theorem attackStep_of_not_live (state newState : GameState) (u : UnitPos)
    (h : getCell newState.board u.row u.col ≠ some u.unit) :
    attackStep state newState u = newState := by
  unfold attackStep
  rw [if_pos h]

theorem attackStep_of_no_target (state newState : GameState) (u : UnitPos)
    (h : selectTarget newState.board state.currentPlayer u.row u.col = none) :
    attackStep state newState u = newState := by
  unfold attackStep
  rw [h]
  simp

/-- C8. When every unit on the board has `0 < health ≤ maxHealth` and attack `≥ 1`, every
unit on the board after `battleUnits` has `0 < health ≤ maxHealth`; in each attack a
target whose health after damage is `≤ 0` leaves its cell empty, and a surviving target
is written back in its cell with health lowered by exactly the attacker's attack. -/
theorem battle_keeps_units_healthy (state : GameState)
    (h : ∀ r c unit, getCell state.board r c = some unit →
      0 < unit.health ∧ unit.health ≤ unit.maxHealth ∧ 1 ≤ unit.attack) :
    (∀ r c unit, getCell (battleUnits state).board r c = some unit →
      0 < unit.health ∧ unit.health ≤ unit.maxHealth) ∧
    (∀ newState u t, getCell newState.board u.row u.col = some u.unit →
      selectTarget newState.board state.currentPlayer u.row u.col = some t →
      (t.unit.health - u.unit.attack ≤ 0 →
        getCell (attackStep state newState u).board t.r t.c = none) ∧
      (0 < t.unit.health - u.unit.attack →
        getCell (attackStep state newState u).board t.r t.c =
          some { t.unit with health := t.unit.health - u.unit.attack })) := by
  constructor
  · unfold battleUnits
    refine foldl_invariant (fun s : GameState => ∀ r c unit, getCell s.board r c = some unit →
      0 < unit.health ∧ unit.health ≤ unit.maxHealth) _ _ _ ?_ ?_
    · intro r c unit hget
      exact ⟨(h r c unit hget).1, (h r c unit hget).2.1⟩
    · intro s u hu hs r c unit hget
      rw [mem_sortUnits, mem_collectUnits] at hu
      have hattack : 1 ≤ u.unit.attack := (h _ _ _ hu.2.1).2.2
      by_cases hlive : getCell s.board u.row u.col = some u.unit
      · cases hsel : selectTarget s.board state.currentPlayer u.row u.col with
        | none =>
          rw [attackStep_of_no_target state s u hsel] at hget
          exact hs r c unit hget
        | some t =>
          rw [attackStep_cells state s u t hlive hsel] at hget
          split at hget
          · obtain ⟨ht1, ht2⟩ := hs _ _ _ (selectTarget_spec hsel).1
            split at hget
            · cases hget
            · have := Option.some.inj hget
              subst this
              simp only []
              constructor <;> omega
          · exact hs r c unit hget
      · rw [attackStep_of_not_live state s u hlive] at hget
        exact hs r c unit hget
  · intro newState u t hlive hsel
    rw [attackStep_cells state newState u t hlive hsel, if_pos ⟨rfl, rfl⟩]
    constructor
    · intro hle
      rw [if_pos hle]
    · intro hpos
      rw [if_neg (by omega)]

theorem battle_keeps_units_healthy_witness :
    (∀ r c unit, getCell skirmishGame.board r c = some unit →
      0 < unit.health ∧ unit.health ≤ unit.maxHealth ∧ 1 ≤ unit.attack) ∧
    (∀ r c unit, getCell (battleUnits skirmishGame).board r c = some unit →
      0 < unit.health ∧ unit.health ≤ unit.maxHealth) := by
  have hall : ∀ r c unit, getCell skirmishGame.board r c = some unit →
      0 < unit.health ∧ unit.health ≤ unit.maxHealth ∧ 1 ≤ unit.attack := by
    intro r c unit hget
    have := boardAll_spec
      (fun x => decide (0 < x.health ∧ x.health ≤ x.maxHealth ∧ 1 ≤ x.attack))
      skirmishGame.board (by decide) hget
    exact of_decide_eq_true this
  exact ⟨hall, (battle_keeps_units_healthy skirmishGame hall).1⟩

/-! ## Advance phase: one move -/

theorem inBounds_iff (r c : Int) :
    inBounds r c = true ↔ 0 ≤ r ∧ r < 5 ∧ 0 ≤ c ∧ c < 7 := by
  unfold inBounds
  simp only [ROWS, COLS, Bool.and_eq_true, decide_eq_true_eq, Nat.cast_ofNat, and_assoc]

theorem findTauntBlocker_eq_none_iff (board : Board) (currentPlayer : Fin 2) (newRow col : Int) :
    findTauntBlocker board currentPlayer newRow col = none ↔
      ∀ tile ∈ [(newRow - 1, col), (newRow + 1, col), (newRow, col - 1), (newRow, col + 1)],
        0 ≤ tile.1 → tile.1 < 5 → 0 ≤ tile.2 → tile.2 < 7 →
        ∀ adj ∈ getCell board tile.1 tile.2,
          ¬ (adj.playerIndex ≠ currentPlayer ∧ adj.hasTaunt = true) := by
  unfold findTauntBlocker adjacentTiles
  rw [List.findSome?_eq_none_iff]
  constructor
  · intro h tile htile h1 h2 h3 h4 adj hmem hbad
    have hadj : getCell board tile.1 tile.2 = some adj := Option.mem_def.mp hmem
    have := h tile htile
    rw [if_pos ((inBounds_iff _ _).mpr ⟨h1, h2, h3, h4⟩), hadj] at this
    simp only [] at this
    rw [if_pos hbad] at this
    cases this
  · intro h tile htile
    by_cases hb : inBounds tile.1 tile.2 = true
    · rw [if_pos hb]
      obtain ⟨h1, h2, h3, h4⟩ := (inBounds_iff _ _).mp hb
      cases hadj : getCell board tile.1 tile.2 with
      | none => rfl
      | some adj =>
        simp only []
        rw [if_neg (h tile htile h1 h2 h3 h4 adj (Option.mem_def.mpr hadj))]
    · rw [if_neg hb]

theorem direction_eq (currentPlayer : Fin 2) :
    direction currentPlayer = (if currentPlayer = 0 then 1 else -1) := rfl

theorem direction_cases (currentPlayer : Fin 2) :
    (currentPlayer = 0 ∧ direction currentPlayer = 1) ∨
      (currentPlayer = 1 ∧ direction currentPlayer = -1) := by
  revert currentPlayer; decide

/-- The step of a live unit whose forward cell is on the board. -/
theorem advanceStep_onBoard (state newState : GameState) (u : UnitPos)
    (hlive : getCell newState.board u.row u.col = some u.unit)
    (hfwd : 0 ≤ (u.row : Int) + direction state.currentPlayer ∧
      (u.row : Int) + direction state.currentPlayer < 5) :
    (destinationFree newState.board state.currentPlayer
        ((u.row : Int) + direction state.currentPlayer) u.col →
      (advanceStep state newState u).board =
        setCell (setCell newState.board ((u.row : Int) + direction state.currentPlayer) u.col
          (some u.unit)) u.row u.col none) ∧
    (¬ destinationFree newState.board state.currentPlayer
        ((u.row : Int) + direction state.currentPlayer) u.col →
      (advanceStep state newState u).board = newState.board) := by
  have hwin : ¬ ((state.currentPlayer = 0 ∧ (u.row : Int) + direction state.currentPlayer ≥ ROWS) ∨
      (state.currentPlayer = 1 ∧ (u.row : Int) + direction state.currentPlayer < 0)) := by
    simp only [ROWS, Nat.cast_ofNat]
    omega
  unfold advanceStep
  rw [if_neg (by rw [hlive]; exact fun h => h rfl)]
  simp only [if_neg hwin]
  unfold destinationFree
  rw [← findTauntBlocker_eq_none_iff]
  cases hdest : getCell newState.board ((u.row : Int) + direction state.currentPlayer) u.col with
  | some x =>
    simp only [Option.isNone_some, Bool.false_eq_true, and_false, if_false]
    exact ⟨fun h => (by cases h.1), fun _ => trivial⟩
  | none =>
    have hcond : (u.row : Int) + direction state.currentPlayer ≥ 0 ∧
        (u.row : Int) + direction state.currentPlayer < (ROWS : Int) ∧
        (none : Option PlacedUnit).isNone = true := ⟨hfwd.1, hfwd.2, rfl⟩
    rw [if_pos hcond]
    cases hblock : findTauntBlocker newState.board state.currentPlayer
        ((u.row : Int) + direction state.currentPlayer) u.col with
    | none => simp
    | some b => simp

/-- C9. A live unit whose forward cell is on the board moves into it (the forward cell
then holds the unit and the origin cell is empty) exactly when, on the live board, the
forward cell is empty and no in-bounds orthogonal neighbour of the forward cell holds an
enemy unit with taunt; otherwise the board is unchanged, the unit staying in its cell.  In
particular an enemy taunt unit orthogonally next to the destination keeps the unit out. -/
theorem advance_moves_iff_free (state newState : GameState) (u : UnitPos)
    (hlive : getCell newState.board u.row u.col = some u.unit)
    (hfwd : 0 ≤ (u.row : Int) + (if state.currentPlayer = 0 then 1 else -1) ∧
      (u.row : Int) + (if state.currentPlayer = 0 then 1 else -1) < 5) :
    ((getCell (advanceStep state newState u).board
          ((u.row : Int) + (if state.currentPlayer = 0 then 1 else -1)) u.col = some u.unit ∧
        getCell (advanceStep state newState u).board u.row u.col = none) ↔
      destinationFree newState.board state.currentPlayer
        ((u.row : Int) + (if state.currentPlayer = 0 then 1 else -1)) u.col) ∧
    (¬ destinationFree newState.board state.currentPlayer
        ((u.row : Int) + (if state.currentPlayer = 0 then 1 else -1)) u.col →
      (advanceStep state newState u).board = newState.board ∧
        getCell (advanceStep state newState u).board u.row u.col = some u.unit) ∧
    (∀ tile ∈ [((u.row : Int) + (if state.currentPlayer = 0 then 1 else -1) - 1, (u.col : Int)),
          ((u.row : Int) + (if state.currentPlayer = 0 then 1 else -1) + 1, (u.col : Int)),
          ((u.row : Int) + (if state.currentPlayer = 0 then 1 else -1), (u.col : Int) - 1),
          ((u.row : Int) + (if state.currentPlayer = 0 then 1 else -1), (u.col : Int) + 1)],
      0 ≤ tile.1 → tile.1 < 5 → 0 ≤ tile.2 → tile.2 < 7 →
      ∀ adj, getCell newState.board tile.1 tile.2 = some adj →
        adj.playerIndex ≠ state.currentPlayer → adj.hasTaunt = true →
        (advanceStep state newState u).board = newState.board) := by
  rw [← direction_eq]
  rw [← direction_eq] at hfwd
  obtain ⟨hmove, hstay⟩ := advanceStep_onBoard state newState u hlive hfwd
  obtain ⟨b1, b2, b3⟩ := getCell_some_bounds hlive
  have hd : direction state.currentPlayer ≠ 0 := by
    rcases direction_cases state.currentPlayer with h | h <;> rw [h.2] <;> decide
  refine ⟨⟨?_, ?_⟩, ?_, ?_⟩
  · rintro ⟨h1, h2⟩
    by_contra hnot
    rw [hstay hnot, hlive] at h2
    cases h2
  · intro hfree
    rw [hmove hfree]
    constructor
    · rw [getCell_setCell_of_ne _ _ _ _ _ _ (by omega),
        getCell_setCell _ _ _ _ _ _ hfwd.1 hfwd.2 b3, if_pos ⟨rfl, rfl⟩]
    · rw [getCell_setCell _ _ _ _ _ _ b1 b2 b3, if_pos ⟨rfl, rfl⟩]
  · intro hnot
    rw [hstay hnot]
    exact ⟨rfl, hlive⟩
  · intro tile htile h1 h2 h3 h4 adj hadj hp ht
    apply hstay
    intro hfree
    exact hfree.2 tile htile h1 h2 h3 h4 adj (Option.mem_def.mpr hadj) ⟨hp, ht⟩

theorem advance_moves_iff_free_witness :
    getCell marchGame.board 2 3 = some (sampleUnit "mid" 2 2 false 1) ∧
      getCell (advanceStep marchGame marchGame ⟨sampleUnit "mid" 2 2 false 1, 2, 3⟩).board 1 3 =
        some (sampleUnit "mid" 2 2 false 1) ∧
      getCell (advanceStep marchGame marchGame ⟨sampleUnit "mid" 2 2 false 1, 2, 3⟩).board 2 3 =
        none ∧
      (advanceStep marchGame marchGame ⟨sampleUnit "left" 2 2 false 1, 2, 0⟩).board =
        marchGame.board :=
  ⟨by decide,
    ((advance_moves_iff_free marchGame marchGame ⟨sampleUnit "mid" 2 2 false 1, 2, 3⟩
      (by decide) (by decide)).1.mpr (by decide)).1,
    ((advance_moves_iff_free marchGame marchGame ⟨sampleUnit "mid" 2 2 false 1, 2, 3⟩
      (by decide) (by decide)).1.mpr (by decide)).2,
    (advance_moves_iff_free marchGame marchGame ⟨sampleUnit "left" 2 2 false 1, 2, 0⟩
      (by decide) (by decide)).2.2 (1, 1) (by decide) (by decide) (by decide) (by decide)
      (by decide) (sampleUnit "wall" 1 5 true 0) (by decide) (by decide) (by decide)⟩

/-! ## Advance phase: reaching the opponent edge -/

theorem advanceStep_keeps_win (state newState : GameState) (u : UnitPos)
    (h : newState.gameOver = true ∧ newState.winner = some state.currentPlayer) :
    (advanceStep state newState u).gameOver = true ∧
      (advanceStep state newState u).winner = some state.currentPlayer := by
  unfold advanceStep
  split
  · exact h
  · simp only []
    split
    · exact ⟨rfl, rfl⟩
    · split
      · split <;> exact h
      · exact h

theorem advanceStep_wins (state newState : GameState) (u : UnitPos)
    (hlive : getCell newState.board u.row u.col = some u.unit)
    (hoff : (state.currentPlayer = 0 ∧ u.row = 4) ∨ (state.currentPlayer = 1 ∧ u.row = 0)) :
    (advanceStep state newState u).gameOver = true ∧
      (advanceStep state newState u).winner = some state.currentPlayer := by
  have hwin : (state.currentPlayer = 0 ∧ (u.row : Int) + direction state.currentPlayer ≥ ROWS) ∨
      (state.currentPlayer = 1 ∧ (u.row : Int) + direction state.currentPlayer < 0) := by
    rcases hoff with ⟨hc, hr⟩ | ⟨hc, hr⟩
    · left
      refine ⟨hc, ?_⟩
      rw [hc, hr]
      decide
    · right
      refine ⟨hc, ?_⟩
      rw [hc, hr]
      decide
  unfold advanceStep
  rw [if_neg (by rw [hlive]; exact fun h => h rfl)]
  simp only [if_pos hwin]
  exact ⟨trivial, trivial⟩

theorem advanceStep_no_win (state newState : GameState) (u : UnitPos) (hrow : u.row < 5)
    (hon : ¬ ((state.currentPlayer = 0 ∧ u.row = 4) ∨ (state.currentPlayer = 1 ∧ u.row = 0))) :
    (advanceStep state newState u).gameOver = newState.gameOver ∧
      (advanceStep state newState u).winner = newState.winner := by
  have hwin : ¬ ((state.currentPlayer = 0 ∧ (u.row : Int) + direction state.currentPlayer ≥ ROWS) ∨
      (state.currentPlayer = 1 ∧ (u.row : Int) + direction state.currentPlayer < 0)) := by
    rintro (⟨hc, hr⟩ | ⟨hc, hr⟩)
    · apply hon
      left
      refine ⟨hc, ?_⟩
      rw [hc] at hr
      simp only [direction, if_true, ROWS, Nat.cast_ofNat] at hr
      omega
    · apply hon
      right
      refine ⟨hc, ?_⟩
      rw [hc] at hr
      simp only [direction, Fin.isValue, one_ne_zero, if_false] at hr
      omega
  unfold advanceStep
  split
  · exact ⟨rfl, rfl⟩
  · simp only [if_neg hwin]
    split
    · split <;> exact ⟨rfl, rfl⟩
    · exact ⟨rfl, rfl⟩

/-- C10. `advanceUnits` returns game over with the current player as winner whenever the
acting player has a unit whose forward destination is off the board, that is a unit on
row 4 for player 0 or on row 0 for player 1; and when the input is not over and the acting
player has no such unit, the result is not over and keeps the input's winner. -/
theorem advance_reaches_spawn (state : GameState) :
    ((∃ r c unit, getCell state.board r c = some unit ∧
        unit.playerIndex = state.currentPlayer ∧
        ((state.currentPlayer = 0 ∧ r = 4) ∨ (state.currentPlayer = 1 ∧ r = 0))) →
      (advanceUnits state).gameOver = true ∧
        (advanceUnits state).winner = some state.currentPlayer) ∧
    (state.gameOver = false →
      (¬ ∃ r c unit, getCell state.board r c = some unit ∧
        unit.playerIndex = state.currentPlayer ∧
        ((state.currentPlayer = 0 ∧ r = 4) ∨ (state.currentPlayer = 1 ∧ r = 0))) →
      (advanceUnits state).gameOver = false ∧ (advanceUnits state).winner = state.winner) := by
  constructor
  · rintro ⟨r, c, unit, hget, hp, hrow⟩
    obtain ⟨b1, b2, b3⟩ := getCell_some_bounds hget
    have hmem : (⟨unit, r.toNat, c.toNat⟩ : UnitPos) ∈
        sortUnits state.currentPlayer (collectUnits state.board state.currentPlayer) := by
      rw [mem_sortUnits, mem_collectUnits]
      simp only [Int.toNat_of_nonneg b1, Int.toNat_of_nonneg b3]
      have b2' : r < 5 := b2
      exact ⟨show r.toNat < 5 by omega, hget, hp⟩
    have hsorted := sortUnits_sorted state.currentPlayer
      (collectUnits state.board state.currentPlayer)
    unfold advanceUnits
    cases hl : sortUnits state.currentPlayer (collectUnits state.board state.currentPlayer) with
    | nil => rw [hl] at hmem; cases hmem
    | cons first rest =>
      rw [hl] at hmem hsorted
      have hfirst : first ∈ collectUnits state.board state.currentPlayer := by
        apply mem_sortUnits.mp
        rw [hl]
        exact List.mem_cons_self _ _
      rw [mem_collectUnits] at hfirst
      obtain ⟨f1, f2, _⟩ := hfirst
      have f1' : first.row < 5 := f1
      have hrel : unitOrder state.currentPlayer first ⟨unit, r.toNat, c.toNat⟩ ∨
          first = ⟨unit, r.toNat, c.toNat⟩ := by
        rcases List.mem_cons.mp hmem with h | h
        · exact Or.inr h.symm
        · exact Or.inl (List.rel_of_sorted_cons hsorted _ h)
      have hoff : (state.currentPlayer = 0 ∧ first.row = 4) ∨
          (state.currentPlayer = 1 ∧ first.row = 0) := by
        rcases hrow with ⟨hc, hr⟩ | ⟨hc, hr⟩
        · left
          refine ⟨hc, ?_⟩
          rcases hrel with h | h
          · unfold unitOrder at h
            rw [if_pos hc] at h
            simp only [hr] at h
            have : (4 : Int).toNat = 4 := rfl
            omega
          · rw [h, hr]; rfl
        · right
          refine ⟨hc, ?_⟩
          rcases hrel with h | h
          · unfold unitOrder at h
            rw [if_neg (by rw [hc]; decide)] at h
            simp only [hr] at h
            have : (0 : Int).toNat = 0 := rfl
            omega
          · rw [h, hr]; rfl
      rw [List.foldl_cons]
      refine foldl_invariant (fun s : GameState =>
        s.gameOver = true ∧ s.winner = some state.currentPlayer) _ _ _ ?_ ?_
      · exact advanceStep_wins state state first f2 hoff
      · intro s u _ hs
        exact advanceStep_keeps_win state s u hs
  · intro hgo hnone
    unfold advanceUnits
    refine foldl_invariant (fun s : GameState =>
      s.gameOver = false ∧ s.winner = state.winner) _ _ _ ⟨hgo, rfl⟩ ?_
    intro s u hu hs
    rw [mem_sortUnits, mem_collectUnits] at hu
    obtain ⟨u1, u2, u3⟩ := hu
    have hon : ¬ ((state.currentPlayer = 0 ∧ u.row = 4) ∨
        (state.currentPlayer = 1 ∧ u.row = 0)) := by
      intro h
      apply hnone
      refine ⟨u.row, u.col, u.unit, u2, u3, ?_⟩
      rcases h with ⟨hc, hr⟩ | ⟨hc, hr⟩
      · exact Or.inl ⟨hc, by rw [hr]; rfl⟩
      · exact Or.inr ⟨hc, by rw [hr]; rfl⟩
    obtain ⟨k1, k2⟩ := advanceStep_no_win state s u u1 hon
    exact ⟨k1.trans hs.1, k2.trans hs.2⟩

theorem advance_reaches_spawn_witness :
    getCell breakthroughGame.board 4 3 = some (sampleUnit "runner" 1 1 false 0) ∧
      (advanceUnits breakthroughGame).gameOver = true ∧
      (advanceUnits breakthroughGame).winner = some 0 ∧
      sampleGame.gameOver = false ∧ (advanceUnits sampleGame).gameOver = false :=
  ⟨by decide,
    ((advance_reaches_spawn breakthroughGame).1
      ⟨4, 3, sampleUnit "runner" 1 1 false 0, by decide, by decide,
        Or.inl ⟨by decide, rfl⟩⟩).1,
    ((advance_reaches_spawn breakthroughGame).1
      ⟨4, 3, sampleUnit "runner" 1 1 false 0, by decide, by decide,
        Or.inl ⟨by decide, rfl⟩⟩).2,
    rfl, by decide⟩

/-! ## Win check -/

/-- C11. `checkWinCondition` names player 1 winner exactly when player 0's health is
`≤ 0`, names player 0 winner exactly when player 0's health is `> 0` and player 1's health
is `≤ 0`, and returns no result otherwise; every result has `gameOver = true`; with both
players at `≤ 0` health player 1 is the winner. -/
theorem checkWinCondition_precedence (state : GameState) :
    ((∃ winResult, checkWinCondition state = some winResult ∧ winResult.winner = 1) ↔
      (state.players 0).health ≤ 0) ∧
    ((∃ winResult, checkWinCondition state = some winResult ∧ winResult.winner = 0) ↔
      (0 < (state.players 0).health ∧ (state.players 1).health ≤ 0)) ∧
    (checkWinCondition state = none ↔
      (0 < (state.players 0).health ∧ 0 < (state.players 1).health)) ∧
    (∀ winResult, checkWinCondition state = some winResult → winResult.gameOver = true) ∧
    ((state.players 0).health ≤ 0 → (state.players 1).health ≤ 0 →
      ∃ winResult, checkWinCondition state = some winResult ∧ winResult.winner = 1) := by
  have h01 : (0 : Fin 2) ≠ 1 := by decide
  have h10 : (1 : Fin 2) ≠ 0 := by decide
  unfold checkWinCondition
  by_cases h0 : (state.players 0).health ≤ 0
  · simp only [if_pos h0]
    refine ⟨⟨fun _ => h0, fun _ => ⟨_, rfl, rfl⟩⟩, ⟨?_, ?_⟩, ⟨?_, ?_⟩, ?_, ?_⟩
    · rintro ⟨w, hw, hw0⟩
      cases hw
      exact absurd hw0 h10
    · rintro ⟨hpos, _⟩
      omega
    · intro h; cases h
    · rintro ⟨hpos, _⟩
      omega
    · intro w hw
      cases hw
      rfl
    · intro _ _
      exact ⟨_, rfl, rfl⟩
  · simp only [if_neg h0]
    have hpos : 0 < (state.players 0).health := by omega
    by_cases h1 : (state.players 1).health ≤ 0
    · simp only [if_pos h1]
      refine ⟨⟨?_, fun h => absurd h h0⟩, ⟨fun _ => ⟨hpos, h1⟩, fun _ => ⟨_, rfl, rfl⟩⟩,
        ⟨?_, ?_⟩, ?_, fun h => absurd h h0⟩
      · rintro ⟨w, hw, hw1⟩
        cases hw
        exact absurd hw1 h01
      · intro h; cases h
      · rintro ⟨_, hp1⟩
        omega
      · intro w hw
        cases hw
        rfl
    · simp only [if_neg h1]
      refine ⟨⟨?_, fun h => absurd h h0⟩, ⟨?_, ?_⟩, ⟨fun _ => ⟨hpos, by omega⟩, fun _ => trivial⟩,
        ?_, fun h => absurd h h0⟩
      · rintro ⟨w, hw, _⟩
        cases hw
      · rintro ⟨w, hw, _⟩
        cases hw
      · rintro ⟨_, hp1⟩
        exact absurd hp1 h1
      · intro w hw
        cases hw

theorem checkWinCondition_precedence_witness :
    (bothDownGame.players 0).health ≤ 0 ∧ (bothDownGame.players 1).health ≤ 0 ∧
      ∃ winResult, checkWinCondition bothDownGame = some winResult ∧ winResult.winner = 1 :=
  ⟨by decide, by decide,
    (checkWinCondition_precedence bothDownGame).2.2.2.2 (by decide) (by decide)⟩

/-! ## PLACE_CARD and SELECT_CARD -/

theorem filter_id_eq_erase (hand : List Card) (selectedCard : Card)
    (hids : (hand.map (fun c => c.id)).Nodup) (hmem : selectedCard ∈ hand) :
    hand.filter (fun c => decide (c.id ≠ selectedCard.id)) = hand.erase selectedCard := by
  induction hand with
  | nil => cases hmem
  | cons x xs ih =>
    rw [List.map_cons, List.nodup_cons] at hids
    obtain ⟨hx, hxs⟩ := hids
    by_cases hxs_eq : x = selectedCard
    · subst hxs_eq
      rw [List.erase_cons_head, List.filter_cons]
      simp only [ne_eq, not_true_eq_false, decide_False, Bool.false_eq_true, if_false]
      rw [List.filter_eq_self]
      intro c hc
      simp only [ne_eq, decide_not, Bool.not_eq_true', decide_eq_false_iff_not]
      intro hid
      apply hx
      rw [← hid]
      exact List.mem_map_of_mem _ hc
    · have hin : selectedCard ∈ xs := by
        rcases List.mem_cons.mp hmem with h | h
        · exact absurd h.symm hxs_eq
        · exact h
      have hid : x.id ≠ selectedCard.id := by
        intro hid
        apply hx
        rw [hid]
        exact List.mem_map_of_mem _ hin
      rw [List.filter_cons]
      simp only [ne_eq, hid, not_false_eq_true, decide_True, if_true]
      rw [List.erase_cons_tail (by simpa using hxs_eq)]
      congr 1
      have := ih hxs hin
      simpa using this

/-- C12. A legal `PLACE_CARD`: on a state that is not over, with a selected card that is
in the current player's hand (hand ids pairwise distinct), the row being the current
player's spawn row (0 for player 0, 4 for player 1), `0 ≤ col < 7` and the cell empty, the
cell then holds the card's fields with `playerIndex = currentPlayer`, every other cell is
unchanged, the hand is the old hand without the selected card (one card fewer, no card
of that id left), mana is lowered by the card's cost, the other player is unchanged, the
selection is cleared and the log has exactly one more entry. -/
theorem placeCard_places (state : GameState) (selectedCard : Card) (row col : Int)
    (hgo : state.gameOver = false)
    (hsel : state.selectedCard = some selectedCard)
    (hmem : selectedCard ∈ (state.players state.currentPlayer).hand)
    (hids : ((state.players state.currentPlayer).hand.map (fun c => c.id)).Nodup)
    (hrow : row = if state.currentPlayer = 0 then 0 else 4)
    (hcol0 : 0 ≤ col) (_hcol1 : col < 7)
    (hempty : getCell state.board row col = none) :
    getCell (gameReducer state (Action.PLACE_CARD row col)).board row col =
      some { toCard := selectedCard, playerIndex := state.currentPlayer } ∧
    (∀ r c, ¬ (r = row ∧ c = col) →
      getCell (gameReducer state (Action.PLACE_CARD row col)).board r c =
        getCell state.board r c) ∧
    (gameReducer state (Action.PLACE_CARD row col)).players state.currentPlayer =
      { state.players state.currentPlayer with
        hand := (state.players state.currentPlayer).hand.erase selectedCard
        mana := (state.players state.currentPlayer).mana - selectedCard.cost } ∧
    ((gameReducer state (Action.PLACE_CARD row col)).players state.currentPlayer).hand.length + 1
      = (state.players state.currentPlayer).hand.length ∧
    (∀ c ∈ ((gameReducer state (Action.PLACE_CARD row col)).players state.currentPlayer).hand,
      c.id ≠ selectedCard.id) ∧
    (∀ j, j ≠ state.currentPlayer →
      (gameReducer state (Action.PLACE_CARD row col)).players j = state.players j) ∧
    (gameReducer state (Action.PLACE_CARD row col)).selectedCard = none ∧
    (∃ line, (gameReducer state (Action.PLACE_CARD row col)).log = state.log ++ [line]) := by
  have hrow' : ¬ row ≠ (if state.currentPlayer = 0 then 0 else (ROWS : Int) - 1) := by
    rw [hrow]
    split <;> simp
  have hocc : ¬ (getCell state.board row col).isSome = true := by
    rw [hempty]
    simp
  have hres : gameReducer state (Action.PLACE_CARD row col) =
      { state with
        board := setCell state.board row col
          (some { toCard := selectedCard, playerIndex := state.currentPlayer })
        players := setPlayer state.players state.currentPlayer
          { state.players state.currentPlayer with
            hand := (state.players state.currentPlayer).hand.filter
              (fun c => decide (c.id ≠ selectedCard.id))
            mana := (state.players state.currentPlayer).mana - selectedCard.cost }
        selectedCard := none
        message := "Unit placed!"
        log := state.log ++ ["Turn " ++ toString state.turn ++ ": Player " ++
          toString (playerNo state.currentPlayer) ++ " placed " ++ selectedCard.name ++ " at " ++
          toString row ++ "," ++ toString col] } := by
    show placeCard state row col = _
    unfold placeCard
    simp only [hsel, hgo, Bool.false_eq_true, if_false, if_neg hrow', if_neg hocc]
  have hr0 : 0 ≤ row := by rw [hrow]; split <;> decide
  have hr1 : row < ROWS := by rw [hrow]; split <;> decide
  have hfilter := filter_id_eq_erase _ selectedCard hids hmem
  rw [hres]
  refine ⟨?_, ?_, ?_, ?_, ?_, ?_, rfl, ⟨_, rfl⟩⟩
  · simp only []
    rw [getCell_setCell _ _ _ _ _ _ hr0 hr1 hcol0, if_pos ⟨rfl, rfl⟩]
  · intro r c hne
    simp only []
    rw [getCell_setCell_of_ne _ _ _ _ _ _ hne]
  · simp only [setPlayer, if_true, hfilter]
  · simp only [setPlayer, if_true, hfilter]
    rw [List.length_erase_of_mem hmem]
    have := List.length_pos_of_mem hmem
    omega
  · intro c hc
    simp only [setPlayer, if_true] at hc
    have := (List.mem_filter.mp hc).2
    simpa using this
  · intro j hj
    simp only [setPlayer, if_neg hj]

theorem placeCard_places_witness :
    selectedGame.gameOver = false ∧ getCell selectedGame.board 0 2 = none ∧
      ((gameReducer selectedGame (Action.PLACE_CARD 0 2)).players 0).hand.length + 1 = 3 ∧
      (gameReducer selectedGame (Action.PLACE_CARD 0 2)).selectedCard = none := by
  have h := placeCard_places selectedGame (sampleCard "p14" 1 1 1 false) 0 2 (by decide)
    (by decide) (by decide) (by decide) (by decide) (by decide) (by decide) (by decide)
  exact ⟨by decide, by decide, h.2.2.2.1, h.2.2.2.2.2.2.1⟩

/-- C13. A rejected `PLACE_CARD` leaves the game unchanged: with no card selected or the
game over the result is the input state; with a card selected and the game not over, a row
other than the current player's spawn row, or the spawn row with an occupied target cell,
gives the input state with only `message` replaced (`Cell occupied!` in the occupied
case). -/
theorem placeCard_rejected (state : GameState) (row col : Int) :
    (state.selectedCard = none ∨ state.gameOver = true →
      gameReducer state (Action.PLACE_CARD row col) = state) ∧
    (∀ card, state.selectedCard = some card → state.gameOver = false →
      row ≠ (if state.currentPlayer = 0 then 0 else 4) →
      gameReducer state (Action.PLACE_CARD row col) =
        { state with message := "Must place on spawn row!" }) ∧
    (∀ card unit, state.selectedCard = some card → state.gameOver = false →
      row = (if state.currentPlayer = 0 then 0 else 4) →
      getCell state.board row col = some unit →
      gameReducer state (Action.PLACE_CARD row col) =
        { state with message := "Cell occupied!" }) := by
  have hvalid : (if state.currentPlayer = 0 then (0 : Int) else (ROWS : Int) - 1) =
      (if state.currentPlayer = 0 then 0 else 4) := by
    split <;> rfl
  refine ⟨?_, ?_, ?_⟩
  · intro h
    show placeCard state row col = state
    unfold placeCard
    cases hs : state.selectedCard with
    | none => rfl
    | some card =>
      rcases h with h | h
      · rw [hs] at h; cases h
      · simp only [h, if_true]
  · intro card hs hgo hrow
    show placeCard state row col = _
    unfold placeCard
    simp only [hs, hgo, Bool.false_eq_true, if_false, hvalid, if_pos hrow]
  · intro card unit hs hgo hrow hocc
    show placeCard state row col = _
    unfold placeCard
    have hrow' : ¬ row ≠ (if state.currentPlayer = 0 then 0 else 4) := fun h => h hrow
    simp only [hs, hgo, Bool.false_eq_true, if_false, hvalid, if_neg hrow', hocc,
      Option.isSome_some, if_true]

theorem placeCard_rejected_witness :
    gameReducer sampleGame (Action.PLACE_CARD 0 2) = sampleGame ∧
      (gameReducer selectedGame (Action.PLACE_CARD 3 2)).board = selectedGame.board ∧
      (gameReducer crowdedGame (Action.PLACE_CARD 0 3)).message = "Cell occupied!" ∧
      (gameReducer crowdedGame (Action.PLACE_CARD 0 3)).players = crowdedGame.players := by
  have h1 := (placeCard_rejected sampleGame 0 2).1 (Or.inl rfl)
  have h2 := (placeCard_rejected selectedGame 3 2).2.1 (sampleCard "p14" 1 1 1 false)
    (by decide) (by decide) (by decide)
  have h3 := (placeCard_rejected crowdedGame 0 3).2.2 (sampleCard "p14" 1 1 1 false)
    (sampleUnit "first" 1 1 false 0) (by decide) (by decide) (by decide) (by decide)
  rw [h2, h3]
  exact ⟨h1, rfl, rfl, rfl⟩

/-- C14 (as the claim words it, refuted): with a card selected in a game that is not
over, `PLACE_CARD` on the spawn row at column 7 is not rejected: the row array grows to
hold the unit at index 7, the card leaves the hand, its cost is taken from the mana and
the selection is cleared; likewise at column -1.  A row outside `0..4` is rejected with
only the message replaced. -/
theorem placeCard_column_out_of_range :
    selectedGame.selectedCard = some (sampleCard "p14" 1 1 1 false) ∧
    selectedGame.gameOver = false ∧
    (selectedGame.players 0).hand.length = 3 ∧ (selectedGame.players 0).mana = 1 ∧
    ((gameReducer selectedGame (Action.PLACE_CARD 0 7)).players 0).hand.length = 2 ∧
    ((gameReducer selectedGame (Action.PLACE_CARD 0 7)).players 0).mana = 0 ∧
    (gameReducer selectedGame (Action.PLACE_CARD 0 7)).selectedCard = none ∧
    ((gameReducer selectedGame (Action.PLACE_CARD 0 7)).board 0).length = 8 ∧
    getCell (gameReducer selectedGame (Action.PLACE_CARD 0 7)).board 0 7 =
      some { toCard := sampleCard "p14" 1 1 1 false, playerIndex := 0 } ∧
    ((gameReducer selectedGame (Action.PLACE_CARD 0 (-1))).players 0).hand.length = 2 ∧
    ((gameReducer selectedGame (Action.PLACE_CARD 0 (-1))).players 0).mana = 0 ∧
    (∀ row col : Int, (row < 0 ∨ 4 < row) →
      gameReducer selectedGame (Action.PLACE_CARD row col) =
        { selectedGame with message := "Must place on spawn row!" }) := by
  refine ⟨by decide, by decide, by decide, by decide, by decide, by decide, by decide,
    by decide, by decide, by decide, by decide, ?_⟩
  intro row col hrow
  show placeCard selectedGame row col = _
  unfold placeCard
  have hs : selectedGame.selectedCard = some (sampleCard "p14" 1 1 1 false) := by decide
  have hg : selectedGame.gameOver = false := by decide
  have hc : selectedGame.currentPlayer = 0 := by decide
  have hne : row ≠ 0 := by omega
  simp only [hs, hg, hc, Bool.false_eq_true, if_false, if_true, ne_eq, hne, not_false_eq_true]

/-- C15. `SELECT_CARD` returns the input state with message `Not enough mana!` and no
selection when the card's cost exceeds the current player's mana, and the input state
with the card selected (and the prompt message) otherwise, also when cost equals mana;
board, players, log, turn and current player are the input's in both cases. -/
theorem selectCard_spec (state : GameState) (card : Card) :
    (card.cost > (state.players state.currentPlayer).mana →
      gameReducer state (Action.SELECT_CARD card) =
        { state with message := "Not enough mana!", selectedCard := none }) ∧
    (card.cost ≤ (state.players state.currentPlayer).mana →
      gameReducer state (Action.SELECT_CARD card) =
        { state with selectedCard := some card, message := "Select a spawn position" }) ∧
    (gameReducer state (Action.SELECT_CARD card)).board = state.board ∧
    (gameReducer state (Action.SELECT_CARD card)).players = state.players ∧
    (gameReducer state (Action.SELECT_CARD card)).log = state.log ∧
    (gameReducer state (Action.SELECT_CARD card)).turn = state.turn ∧
    (gameReducer state (Action.SELECT_CARD card)).currentPlayer = state.currentPlayer := by
  have hred : gameReducer state (Action.SELECT_CARD card) = selectCard state card := rfl
  rw [hred]
  unfold selectCard
  simp only []
  by_cases h : card.cost > (state.players state.currentPlayer).mana
  · rw [if_pos h]
    exact ⟨fun _ => rfl, fun hle => absurd h (by omega), rfl, rfl, rfl, rfl, rfl⟩
  · rw [if_neg h]
    exact ⟨fun hgt => absurd hgt h, fun _ => rfl, rfl, rfl, rfl, rfl, rfl⟩

theorem selectCard_spec_witness :
    (sampleCard "p14" 1 1 1 false).cost ≤ (sampleGame.players sampleGame.currentPlayer).mana ∧
      (gameReducer sampleGame (Action.SELECT_CARD (sampleCard "p14" 1 1 1 false))).selectedCard =
        some (sampleCard "p14" 1 1 1 false) ∧
      (gameReducer sampleGame (Action.SELECT_CARD (sampleCard "big" 5 1 1 false))).selectedCard =
        none := by
  have h1 := (selectCard_spec sampleGame (sampleCard "p14" 1 1 1 false)).2.1 (by decide)
  have h2 := (selectCard_spec sampleGame (sampleCard "big" 5 1 1 false)).1 (by decide)
  rw [h1, h2]
  exact ⟨by decide, rfl, rfl⟩

/-! ## END_TURN: wins in the advance phase and after a single loss -/

/-- C16, at the failing input.  Player 0 ends the turn while player 1 has a unit on
row 0: the advance phase sets `gameOver` and the winner, and the remaining steps still
run, so player 1's mana capacity and mana go from 1 to 2 and the message is the
turn-start prompt, not the win message that `advanceUnits` had set. -/
theorem endTurn_advance_win_not_short_circuited :
    winCheckTriggers edgeGame = false ∧
    (edgeGame.players 1).manaCapacity = 1 ∧ (edgeGame.players 1).mana = 1 ∧
    (gameReducer edgeGame Action.END_TURN).gameOver = true ∧
    (gameReducer edgeGame Action.END_TURN).winner = some 1 ∧
    ((gameReducer edgeGame Action.END_TURN).players 1).manaCapacity = 2 ∧
    ((gameReducer edgeGame Action.END_TURN).players 1).mana = 2 ∧
    (gameReducer edgeGame Action.END_TURN).message =
      "Player 2 Turn: Play phase - Place your units!" ∧
    (advanceUnits { edgeGame with currentPlayer := 1 }).message = "Player 2 Wins!" := by
  decide

theorem applyOverflow_health_le (state newState : GameState) (unit : PlacedUnit)
    (target : Target) (i : Fin 2) :
    ((applyOverflow state newState unit target).players i).health ≤
      (newState.players i).health := by
  unfold applyOverflow
  simp only []
  split
  · split
    · rename_i hex
      simp only [setPlayer]
      split
      · rename_i hi
        subst hi
        simp only []
        omega
      · exact le_refl _
    · exact le_refl _
  · exact le_refl _

theorem attackStep_health_le (state newState : GameState) (u : UnitPos) (i : Fin 2) :
    ((attackStep state newState u).players i).health ≤ (newState.players i).health := by
  by_cases hlive : getCell newState.board u.row u.col = some u.unit
  · cases hsel : selectTarget newState.board state.currentPlayer u.row u.col with
    | none =>
      rw [attackStep_of_no_target state newState u hsel]
    | some t =>
      rw [attackStep_players state newState u t hlive hsel]
      exact applyOverflow_health_le state newState u.unit t i
  · rw [attackStep_of_not_live state newState u hlive]

theorem battleUnits_health_le (state : GameState) (i : Fin 2) :
    ((battleUnits state).players i).health ≤ (state.players i).health := by
  unfold battleUnits
  refine foldl_invariant (fun s : GameState => (s.players i).health ≤ (state.players i).health)
    _ _ _ (le_refl _) ?_
  intro s u _ hs
  exact le_trans (attackStep_health_le state s u i) hs

theorem gameReducer_endTurn_of_triggers (state : GameState)
    (h : winCheckTriggers state = true) :
    ∃ winResult, checkWinCondition (battleUnits state) = some winResult ∧
      (gameReducer state Action.END_TURN).gameOver = true ∧
      (gameReducer state Action.END_TURN).winner = some winResult.winner := by
  have hsome : (checkWinCondition (battleUnits state)).isSome = true := by
    unfold winCheckTriggers at h
    simp only [Bool.and_eq_true] at h
    exact h.2
  cases hw : checkWinCondition (battleUnits state) with
  | none => rw [hw] at hsome; cases hsome
  | some winResult =>
    refine ⟨winResult, rfl, ?_⟩
    have hres : gameReducer state Action.END_TURN =
        applyWin { battleUnits state with
          log := (battleUnits state).log ++ ["Turn " ++ toString state.turn ++
            ": Battle phase for Player " ++ toString (playerNo state.currentPlayer)] }
          winResult := by
      show endTurn state = _
      rw [endTurn_eq, h, hw]
      rfl
    rw [hres]
    exact ⟨checkWinCondition_gameOver hw, rfl⟩

/-- C17, as stated, fails: player 1 is the only player at health `≤ 0` and the game is
not over, yet `END_TURN` names player 1 the winner, because the battle phase's overflow
damage brings player 0 to `≤ 0` before the win check. -/
theorem endTurn_single_loss_other_not_winner :
    doubleKoGame.gameOver = false ∧ (doubleKoGame.players 1).health ≤ 0 ∧
    0 < (doubleKoGame.players 0).health ∧
    (gameReducer doubleKoGame Action.END_TURN).gameOver = true ∧
    (gameReducer doubleKoGame Action.END_TURN).winner = some 1 ∧
    (gameReducer doubleKoGame Action.END_TURN).winner ≠ some (1 - 1) := by
  decide

/-- C17, amended. On a state that is not over in which exactly one player `i` has
health `≤ 0`, `END_TURN` returns game over; the winner is player 1 when player 0's health
after the battle phase is `≤ 0` and player 0 otherwise.  This is the other player `1 - i`
whenever `i = 0`, or `i` is not the current player, or player 0's health is still positive
after the battle phase; when player 1 is the current player and the battle's overflow
damage brings player 0 to `≤ 0` as well, the winner is player 1. -/
theorem endTurn_after_single_loss (state : GameState) (i : Fin 2)
    (hgo : state.gameOver = false) (hi : (state.players i).health ≤ 0)
    (hother : 0 < (state.players (1 - i)).health) :
    (gameReducer state Action.END_TURN).gameOver = true ∧
    (gameReducer state Action.END_TURN).winner =
      (if ((battleUnits state).players 0).health ≤ 0 then some 1 else some 0) ∧
    (i = 0 ∨ i ≠ state.currentPlayer ∨ 0 < ((battleUnits state).players 0).health →
      (gameReducer state Action.END_TURN).winner = some (1 - i)) ∧
    (i = 1 → state.currentPlayer = 1 → ((battleUnits state).players 0).health ≤ 0 →
      (gameReducer state Action.END_TURN).winner = some 1) := by
  obtain ⟨_, hover, _, _, _, hsame⟩ := battleUnits_frame state
  have hle := battleUnits_health_le state i
  have hdead : ∃ j, ((battleUnits state).players j).health ≤ 0 := ⟨i, by omega⟩
  have htrig : winCheckTriggers state = true := by
    unfold winCheckTriggers
    rw [hover, hgo, (checkWinCondition_isSome_iff (battleUnits state)).mpr hdead]
    rfl
  obtain ⟨w, hw, hres1, hres2⟩ := gameReducer_endTurn_of_triggers state htrig
  have hwinner : (gameReducer state Action.END_TURN).winner =
      (if ((battleUnits state).players 0).health ≤ 0 then some 1 else some 0) := by
    rw [hres2]
    unfold checkWinCondition at hw
    split at hw
    · cases hw
      rename_i h0
      rw [if_pos h0]
    · rename_i h0
      rw [if_neg h0]
      split at hw
      · cases hw; rfl
      · cases hw
  have hcases : i = 0 ∨ i = 1 := by
    clear hi hother hle hdead
    revert i; decide
  refine ⟨hres1, hwinner, ?_, ?_⟩
  · intro hcond
    rw [hwinner]
    rcases hcases with rfl | rfl
    · rw [if_pos (le_trans hle hi)]
      rfl
    · have hpos : 0 < ((battleUnits state).players 0).health := by
        rcases hcond with h | h | h
        · exact absurd h (by decide)
        · have hcp : state.currentPlayer = 0 := by
            generalize state.currentPlayer = c at h
            revert c; decide
          have hne : (0 : Fin 2) ≠ opponentIndex state.currentPlayer := by
            rw [hcp]; decide
          rw [hsame 0 hne]
          exact hother
        · exact h
      rw [if_neg (by omega)]
      rfl
  · intro _ _ h0
    rw [hwinner, if_pos h0]

theorem endTurn_after_single_loss_witness :
    doubleKoGame.gameOver = false ∧ (doubleKoGame.players 1).health ≤ 0 ∧
      0 < (doubleKoGame.players (1 - 1)).health ∧
      (gameReducer doubleKoGame Action.END_TURN).gameOver = true :=
  ⟨by decide, by decide, by decide,
    (endTurn_after_single_loss doubleKoGame 1 (by decide) (by decide) (by decide)).1⟩

/-! ## The log only grows -/

theorem log_grows_trans {a b c : List String} (h1 : ∃ x, b = a ++ x) (h2 : ∃ y, c = b ++ y) :
    ∃ z, c = a ++ z := by
  obtain ⟨x, rfl⟩ := h1
  obtain ⟨y, rfl⟩ := h2
  exact ⟨x ++ y, by rw [List.append_assoc]⟩

theorem applyOverflow_log (state newState : GameState) (unit : PlacedUnit) (target : Target) :
    ∃ added, (applyOverflow state newState unit target).log = newState.log ++ added := by
  unfold applyOverflow
  simp only []
  split
  · split
    · exact ⟨_, rfl⟩
    · exact ⟨[], by simp⟩
  · exact ⟨[], by simp⟩

theorem attackStep_log (state newState : GameState) (u : UnitPos) :
    ∃ added, (attackStep state newState u).log = newState.log ++ added := by
  unfold attackStep
  split
  · exact ⟨[], by simp⟩
  · split
    · exact ⟨[], by simp⟩
    · rename_i target _
      obtain ⟨x, hx⟩ := applyOverflow_log state newState u.unit target
      simp only []
      split
      · exact log_grows_trans (log_grows_trans ⟨x, hx⟩ ⟨_, rfl⟩) ⟨_, rfl⟩
      · exact log_grows_trans ⟨x, hx⟩ ⟨_, rfl⟩

theorem battleUnits_log (state : GameState) :
    ∃ added, (battleUnits state).log = state.log ++ added := by
  unfold battleUnits
  refine foldl_invariant (fun s : GameState => ∃ added, s.log = state.log ++ added) _ _ _
    ⟨[], by simp⟩ ?_
  intro s u _ hs
  exact log_grows_trans hs (attackStep_log state s u)

theorem advanceStep_log (state newState : GameState) (u : UnitPos) :
    ∃ added, (advanceStep state newState u).log = newState.log ++ added := by
  unfold advanceStep
  split
  · exact ⟨[], by simp⟩
  · simp only []
    split
    · exact ⟨_, rfl⟩
    · split
      · split
        · exact ⟨_, rfl⟩
        · exact ⟨_, rfl⟩
      · exact ⟨[], by simp⟩

theorem advanceUnits_log (state : GameState) :
    ∃ added, (advanceUnits state).log = state.log ++ added := by
  unfold advanceUnits
  refine foldl_invariant (fun s : GameState => ∃ added, s.log = state.log ++ added) _ _ _
    ⟨[], by simp⟩ ?_
  intro s u _ hs
  exact log_grows_trans hs (advanceStep_log state s u)

theorem drawCardOrFatigue_log (state : GameState) (playerIndex : Fin 2) :
    ∃ added, (drawCardOrFatigue state playerIndex).log = state.log ++ added := by
  unfold drawCardOrFatigue
  simp only []
  split
  · split
    · exact ⟨_, rfl⟩
    · exact ⟨_, rfl⟩
  · split
    · exact ⟨_, rfl⟩
    · exact ⟨[], by simp⟩

/-! ## Hands and decks in the draw phase -/

theorem drawCardOrFatigue_cards (state : GameState) (playerIndex : Fin 2) :
    (∀ c ∈ ((drawCardOrFatigue state playerIndex).players playerIndex).hand,
      c ∈ (state.players playerIndex).hand ∨ c ∈ (state.players playerIndex).deck) ∧
    (∀ c ∈ ((drawCardOrFatigue state playerIndex).players playerIndex).deck,
      c ∈ (state.players playerIndex).deck) ∧
    ((state.players playerIndex).hand.length ≤ 7 →
      ((drawCardOrFatigue state playerIndex).players playerIndex).hand.length ≤ 7) := by
  unfold drawCardOrFatigue
  simp only []
  by_cases hlen : (state.players playerIndex).hand.length < HAND_SIZE_LIMIT
  · rw [if_pos hlen]
    cases hd : (state.players playerIndex).deck.getLast? with
    | some card =>
      simp only [setPlayer, if_true]
      refine ⟨?_, ?_, ?_⟩
      · intro c hc
        rcases List.mem_append.mp hc with h | h
        · exact Or.inl h
        · right
          rw [List.mem_singleton] at h
          rw [h]
          exact List.mem_of_getLast?_eq_some hd
      · intro c hc
        exact List.dropLast_subset _ hc
      · intro _
        unfold HAND_SIZE_LIMIT at hlen
        rw [List.length_append, List.length_singleton]
        omega
    | none =>
      simp only [setPlayer, if_true]
      exact ⟨fun c hc => Or.inl hc, fun c hc => hc, fun h => h⟩
  · rw [if_neg hlen]
    cases hd : (state.players playerIndex).deck.getLast? with
    | some card =>
      simp only [setPlayer, if_true]
      exact ⟨fun c hc => Or.inl hc, fun c hc => List.dropLast_subset _ hc, fun h => h⟩
    | none =>
      simp only [setPlayer, if_true]
      exact ⟨fun c hc => Or.inl hc, fun c hc => hc, fun h => h⟩

/-! ## END_TURN as a whole -/

theorem endTurnSwitch_cards (state newState : GameState) :
    (endTurnSwitch state newState).selectedCard = newState.selectedCard ∧
    (∃ added, (endTurnSwitch state newState).log = newState.log ++ added) ∧
    (∀ c ∈ ((endTurnSwitch state newState).players
        (if state.currentPlayer = 0 then 1 else 0)).hand,
      c ∈ (newState.players (if state.currentPlayer = 0 then 1 else 0)).hand ∨
        c ∈ (newState.players (if state.currentPlayer = 0 then 1 else 0)).deck) ∧
    (∀ c ∈ ((endTurnSwitch state newState).players
        (if state.currentPlayer = 0 then 1 else 0)).deck,
      c ∈ (newState.players (if state.currentPlayer = 0 then 1 else 0)).deck) ∧
    ((newState.players (if state.currentPlayer = 0 then 1 else 0)).hand.length ≤ 7 →
      ((endTurnSwitch state newState).players
        (if state.currentPlayer = 0 then 1 else 0)).hand.length ≤ 7) := by
  generalize hnext : (if state.currentPlayer = 0 then (1 : Fin 2) else 0) = nextPlayer
  unfold endTurnSwitch
  simp only [hnext]
  generalize hs1 : ({ newState with
    currentPlayer := nextPlayer
    turn := if nextPlayer = 0 then state.turn + 1 else state.turn
    isFirstTurn := if nextPlayer = 1 then false else state.isFirstTurn } : GameState) = s1
  generalize hs3 : ({ drawCardOrFatigue s1 nextPlayer with
    log := (drawCardOrFatigue s1 nextPlayer).log ++
      ["Turn " ++ toString (drawCardOrFatigue s1 nextPlayer).turn ++ ": Draw phase for Player " ++
        toString (playerNo nextPlayer)] } : GameState) = s3
  obtain ⟨hd1, _⟩ := drawCardOrFatigue_frame s1 nextPlayer
  obtain ⟨ha1, ha2⟩ := advanceUnits_frame s3
  obtain ⟨hc1, hc2, hc3⟩ := drawCardOrFatigue_cards s1 nextPlayer
  have h31 : s3.turnInfo = s1.turnInfo := by rw [← hs3]; exact hd1
  obtain ⟨_, _, c3, _, _⟩ := turnInfo_fields (ha1.trans h31)
  have hp3 : s3.players = (drawCardOrFatigue s1 nextPlayer).players := by rw [← hs3]
  have hp1 : s1.players = newState.players := by rw [← hs1]
  have hl1 : s1.log = newState.log := by rw [← hs1]
  have hl3 : ∃ x, s3.log = s1.log ++ x := by
    rw [← hs3]
    exact log_grows_trans (drawCardOrFatigue_log s1 nextPlayer) ⟨_, rfl⟩
  rw [hp1] at hc1 hc2 hc3
  refine ⟨?_, ?_, ?_, ?_, ?_⟩
  · rw [c3, ← hs1]
  · rw [← hl1]
    exact log_grows_trans (log_grows_trans hl3 (advanceUnits_log s3)) ⟨_, rfl⟩
  · simp only [if_true, ha2, hp3]
    exact hc1
  · simp only [if_true, ha2, hp3]
    exact hc2
  · simp only [if_true, ha2, hp3]
    exact hc3

theorem endTurn_of_triggers (state : GameState) (h : winCheckTriggers state = true) :
    ∃ winResult, checkWinCondition (battleUnits state) = some winResult ∧
      gameReducer state Action.END_TURN =
        applyWin { battleUnits state with
          log := (battleUnits state).log ++ ["Turn " ++ toString state.turn ++
            ": Battle phase for Player " ++ toString (playerNo state.currentPlayer)] }
          winResult := by
  have hsome : (checkWinCondition (battleUnits state)).isSome = true := by
    unfold winCheckTriggers at h
    simp only [Bool.and_eq_true] at h
    exact h.2
  cases hw : checkWinCondition (battleUnits state) with
  | none => rw [hw] at hsome; cases hsome
  | some winResult =>
    refine ⟨winResult, rfl, ?_⟩
    show endTurn state = _
    rw [endTurn_eq, h, hw]
    rfl

/-- What `END_TURN` does to the turn order, the selection, the log and the players'
cards and mana, in both of its branches. -/
theorem endTurn_summary (state : GameState) :
    (gameReducer state Action.END_TURN).selectedCard = state.selectedCard ∧
    (∃ added, (gameReducer state Action.END_TURN).log = state.log ++ added) ∧
    (∀ i, (∀ c ∈ ((gameReducer state Action.END_TURN).players i).hand,
        c ∈ (state.players i).hand ∨ c ∈ (state.players i).deck) ∧
      (∀ c ∈ ((gameReducer state Action.END_TURN).players i).deck, c ∈ (state.players i).deck) ∧
      ((state.players i).hand.length ≤ 7 →
        ((gameReducer state Action.END_TURN).players i).hand.length ≤ 7)) ∧
    ((winCheckTriggers state = true ∧
        (gameReducer state Action.END_TURN).currentPlayer = state.currentPlayer ∧
        ∀ i, ((gameReducer state Action.END_TURN).players i).mana = (state.players i).mana ∧
          ((gameReducer state Action.END_TURN).players i).manaCapacity =
            (state.players i).manaCapacity) ∨
      (winCheckTriggers state = false ∧
        (gameReducer state Action.END_TURN).currentPlayer = 1 - state.currentPlayer ∧
        ((gameReducer state Action.END_TURN).players (1 - state.currentPlayer)).manaCapacity =
          (if (state.players (1 - state.currentPlayer)).manaCapacity < 10
            then (state.players (1 - state.currentPlayer)).manaCapacity + 1
            else (state.players (1 - state.currentPlayer)).manaCapacity) ∧
        ((gameReducer state Action.END_TURN).players (1 - state.currentPlayer)).mana =
          ((gameReducer state Action.END_TURN).players
            (1 - state.currentPlayer)).manaCapacity ∧
        ((gameReducer state Action.END_TURN).players state.currentPlayer).mana =
          (state.players state.currentPlayer).mana ∧
        ((gameReducer state Action.END_TURN).players state.currentPlayer).manaCapacity =
          (state.players state.currentPlayer).manaCapacity)) := by
  obtain ⟨hinfo, _, _, _, hecon, _⟩ := battleUnits_frame state
  obtain ⟨_, _, hselB, _, _⟩ := turnInfo_fields hinfo
  have hlogB : ∃ x, ((battleUnits state).log ++ ["Turn " ++ toString state.turn ++
      ": Battle phase for Player " ++ toString (playerNo state.currentPlayer)]) =
      state.log ++ x := log_grows_trans (battleUnits_log state) ⟨_, rfl⟩
  have hne : state.currentPlayer ≠ 1 - state.currentPlayer := by
    generalize state.currentPlayer = c
    revert c; decide
  cases htrig : winCheckTriggers state with
  | true =>
    obtain ⟨w, _, hres⟩ := endTurn_of_triggers state htrig
    rw [hres]
    refine ⟨hselB, ?_, ?_, Or.inl ⟨rfl, (turnInfo_fields hinfo).1, ?_⟩⟩
    · exact log_grows_trans hlogB ⟨_, rfl⟩
    · intro i
      obtain ⟨e1, e2, _, _, _⟩ := economy_fields (hecon i)
      refine ⟨fun c hc => Or.inl ?_, fun c hc => ?_, fun hlen => ?_⟩
      · exact e1 ▸ hc
      · exact e2 ▸ hc
      · show ((battleUnits state).players i).hand.length ≤ 7
        rw [e1]; exact hlen
    · intro i
      obtain ⟨_, _, e3, e4, _⟩ := economy_fields (hecon i)
      exact ⟨e3, e4⟩
  | false =>
    rw [gameReducer_endTurn_of_not_triggers state htrig]
    obtain ⟨f1, _, _, f4, f5, f6⟩ := endTurnSwitch_fields state { battleUnits state with
        log := (battleUnits state).log ++ ["Turn " ++ toString state.turn ++
          ": Battle phase for Player " ++ toString (playerNo state.currentPlayer)] }
    obtain ⟨g1, g2, g3, g4, g5⟩ := endTurnSwitch_cards state { battleUnits state with
        log := (battleUnits state).log ++ ["Turn " ++ toString state.turn ++
          ": Battle phase for Player " ++ toString (playerNo state.currentPlayer)] }
    rw [other_player] at f1 f4 f5 f6 g3 g4 g5
    refine ⟨g1.trans hselB, log_grows_trans hlogB g2, ?_, Or.inr ⟨rfl, f1, ?_, f5, ?_, ?_⟩⟩
    · intro i
      obtain ⟨e1, e2, _, _, _⟩ := economy_fields (hecon i)
      by_cases hi : i = 1 - state.currentPlayer
      · subst hi
        refine ⟨fun c hc => ?_, fun c hc => ?_, fun hlen => ?_⟩
        · have := g3 c hc
          simp only [] at this
          rw [e1, e2] at this
          exact this
        · have := g4 c hc
          simp only [] at this
          rw [e2] at this
          exact this
        · apply g5
          simp only []
          rw [e1]
          exact hlen
      · rw [f6 i hi]
        refine ⟨fun c hc => Or.inl ?_, fun c hc => ?_, fun hlen => ?_⟩
        · exact e1 ▸ hc
        · exact e2 ▸ hc
        · show ((battleUnits state).players i).hand.length ≤ 7
          rw [e1]; exact hlen
    · rw [f4]
      obtain ⟨_, _, _, e4, _⟩ := economy_fields (hecon (1 - state.currentPlayer))
      show (if ((battleUnits state).players (1 - state.currentPlayer)).manaCapacity < MAX_MANA
        then _ else _) = _
      rw [e4]
      rfl
    · rw [f6 _ hne]
      exact (economy_fields (hecon state.currentPlayer)).2.2.1
    · rw [f6 _ hne]
      exact (economy_fields (hecon state.currentPlayer)).2.2.2.1

/-! ## PLACE_CARD, BATTLE_PHASE and the initial deal, case by case -/

theorem placeCard_cases (state : GameState) (row col : Int) :
    ((placeCard state row col).players = state.players ∧
      (placeCard state row col).selectedCard = state.selectedCard ∧
      (placeCard state row col).log = state.log ∧
      (placeCard state row col).currentPlayer = state.currentPlayer ∧
      (placeCard state row col).board = state.board ∧
      (placeCard state row col).gameOver = state.gameOver ∧
      (placeCard state row col).winner = state.winner) ∨
    (∃ selectedCard line, state.selectedCard = some selectedCard ∧ state.gameOver = false ∧
      (placeCard state row col).players = setPlayer state.players state.currentPlayer
        { state.players state.currentPlayer with
          hand := (state.players state.currentPlayer).hand.filter
            (fun c => decide (c.id ≠ selectedCard.id))
          mana := (state.players state.currentPlayer).mana - selectedCard.cost } ∧
      (placeCard state row col).selectedCard = none ∧
      (placeCard state row col).log = state.log ++ [line] ∧
      (placeCard state row col).currentPlayer = state.currentPlayer ∧
      (placeCard state row col).board = setCell state.board row col
        (some { toCard := selectedCard, playerIndex := state.currentPlayer }) ∧
      (placeCard state row col).gameOver = state.gameOver ∧
      (placeCard state row col).winner = state.winner) := by
  have hsel : state.selectedCard = none ∨ ∃ sel, state.selectedCard = some sel := by
    cases state.selectedCard with
    | none => exact Or.inl rfl
    | some sel => exact Or.inr ⟨sel, rfl⟩
  have hover : state.gameOver = true ∨ state.gameOver = false := by
    cases state.gameOver
    · exact Or.inr rfl
    · exact Or.inl rfl
  rcases hsel with hs | ⟨sel, hs⟩
  · have h : placeCard state row col = state := by
      unfold placeCard
      simp only [hs]
    rw [h]
    exact Or.inl ⟨rfl, rfl, rfl, rfl, rfl, rfl, rfl⟩
  · rcases hover with hg | hg
    · have h : placeCard state row col = state := by
        unfold placeCard
        simp only [hs, hg, if_true]
      rw [h]
      exact Or.inl ⟨rfl, rfl, rfl, rfl, rfl, rfl, rfl⟩
    · by_cases hrow : row ≠ (if state.currentPlayer = 0 then 0 else (ROWS : Int) - 1)
      · have h : placeCard state row col = { state with message := "Must place on spawn row!" } := by
          unfold placeCard
          simp only [hs, hg, Bool.false_eq_true, if_false, if_pos hrow]
        rw [h]
        exact Or.inl ⟨rfl, rfl, rfl, rfl, rfl, rfl, rfl⟩
      · by_cases hocc : (getCell state.board row col).isSome = true
        · have h : placeCard state row col = { state with message := "Cell occupied!" } := by
            unfold placeCard
            simp only [hs, hg, Bool.false_eq_true, if_false, if_neg hrow, if_pos hocc]
          rw [h]
          exact Or.inl ⟨rfl, rfl, rfl, rfl, rfl, rfl, rfl⟩
        · right
          refine ⟨sel, "Turn " ++ toString state.turn ++ ": Player " ++
            toString (playerNo state.currentPlayer) ++ " placed " ++ sel.name ++ " at " ++
            toString row ++ "," ++ toString col, hs, hg, ?_⟩
          unfold placeCard
          simp only [hs, hg, Bool.false_eq_true, if_false, if_neg hrow, if_neg hocc, and_self]

theorem battlePhase_summary (state : GameState) :
    (battlePhase state).turnInfo = state.turnInfo ∧
    (∀ i, ((battlePhase state).players i).economy = (state.players i).economy) ∧
    (∃ added, (battlePhase state).log = state.log ++ added) := by
  obtain ⟨h1, _, _, _, h5, _⟩ := battleUnits_frame state
  have hlog := battleUnits_log state
  unfold battlePhase
  simp only []
  split
  · split
    · exact ⟨h1, h5, log_grows_trans hlog ⟨_, rfl⟩⟩
    · exact ⟨h1, h5, hlog⟩
  · exact ⟨h1, h5, hlog⟩

theorem dealCards_cards (n : Nat) (player : Player) :
    (∀ c ∈ (dealCards n player).hand, c ∈ player.hand ∨ c ∈ player.deck) ∧
    (∀ c ∈ (dealCards n player).deck, c ∈ player.deck) ∧
    (dealCards n player).hand.length ≤ player.hand.length + n := by
  induction n generalizing player with
  | zero => exact ⟨fun c hc => Or.inl hc, fun c hc => hc, le_refl _⟩
  | succ n ih =>
    unfold dealCards
    cases hd : player.deck.getLast? with
    | none =>
      simp only []
      obtain ⟨i1, i2, i3⟩ := ih player
      exact ⟨i1, i2, by omega⟩
    | some card =>
      simp only []
      obtain ⟨i1, i2, i3⟩ := ih { player with
        hand := player.hand ++ [card], deck := player.deck.dropLast }
      simp only [List.length_append, List.length_singleton] at i3
      refine ⟨?_, ?_, by omega⟩
      · intro c hc
        rcases i1 c hc with h | h
        · rcases List.mem_append.mp h with h | h
          · exact Or.inl h
          · right
            rw [List.mem_singleton] at h
            rw [h]
            exact List.mem_of_getLast?_eq_some hd
        · exact Or.inr (List.dropLast_subset _ h)
      · intro c hc
        exact List.dropLast_subset _ (i2 c hc)

/-! ## Mana along a game -/

theorem fin2_cases (i : Fin 2) : i = 0 ∨ i = 1 := by
  revert i; decide

/-- The invariant behind the mana bounds: the bounds themselves, the two capacities
differing by at most one with the current player's the larger, a pending selection
affordable by the current player, and no card of negative cost in any hand or deck. -/
theorem reachable_mana_invariant (s : GameState)
    (h : ReachableFrom generatedGame playAction s) :
    (∀ i, 0 ≤ (s.players i).mana ∧ (s.players i).mana ≤ (s.players i).manaCapacity ∧
      1 ≤ (s.players i).manaCapacity ∧ (s.players i).manaCapacity ≤ 10) ∧
    ((s.players (1 - s.currentPlayer)).manaCapacity ≤
        (s.players s.currentPlayer).manaCapacity ∧
      (s.players s.currentPlayer).manaCapacity ≤
        (s.players (1 - s.currentPlayer)).manaCapacity + 1) ∧
    (∀ c, s.selectedCard = some c →
      0 ≤ c.cost ∧ c.cost ≤ (s.players s.currentPlayer).mana) ∧
    (∀ i, (∀ c ∈ (s.players i).hand, 0 ≤ c.cost) ∧ (∀ c ∈ (s.players i).deck, 0 ≤ c.cost)) := by
  induction h with
  | @start s hinit =>
    obtain ⟨d1, d2, a1, a2, mode, log, hc1, hc2, hs⟩ := hinit
    have hcur : s.currentPlayer = 0 := by rw [hs]; rfl
    have hnosel : s.selectedCard = none := by rw [hs]; rfl
    have hp : ∀ i : Fin 2, ∃ (p : Player) (d : List Card), costsGenerated d ∧ p.deck = d ∧
        p.hand = [] ∧ p.mana = 1 ∧ p.manaCapacity = 1 ∧
        s.players i = dealCards STARTING_HAND_SIZE p := by
      intro i
      rw [hs]
      rcases fin2_cases i with rfl | rfl
      · exact ⟨_, d1, hc1, rfl, rfl, rfl, rfl, rfl⟩
      · exact ⟨_, d2, hc2, rfl, rfl, rfl, rfl, rfl⟩
    have hcapOne : ∀ i, (s.players i).manaCapacity = 1 := by
      intro i
      obtain ⟨p, d, _, _, _, _, hcap, hpi⟩ := hp i
      rw [hpi, (dealCards_fields STARTING_HAND_SIZE p).2.2.1, hcap]
    have hmanaOne : ∀ i, (s.players i).mana = 1 := by
      intro i
      obtain ⟨p, d, _, _, _, hm, _, hpi⟩ := hp i
      rw [hpi, (dealCards_fields STARTING_HAND_SIZE p).2.1, hm]
    refine ⟨?_, ?_, ?_, ?_⟩
    · intro i
      rw [hmanaOne i, hcapOne i]
      decide
    · rw [hcapOne, hcapOne]
      decide
    · intro c hc
      rw [hnosel] at hc
      cases hc
    · intro i
      obtain ⟨p, d, hd, hdeck, hhand, _, _, hpi⟩ := hp i
      obtain ⟨g1, g2, _⟩ := dealCards_cards STARTING_HAND_SIZE p
      rw [hpi]
      have hcost : ∀ c ∈ p.deck, 0 ≤ c.cost := by
        intro c hc
        rw [hdeck] at hc
        have := (hd c hc).1
        omega
      refine ⟨fun c hc => ?_, fun c hc => hcost c (g2 c hc)⟩
      rcases g1 c hc with h | h
      · rw [hhand] at h; cases h
      · exact hcost c h
  | @step s a _ hallowed ih =>
    obtain ⟨ih1, ih2, ih3, ih4⟩ := ih
    rcases hallowed with ⟨card, hcard, rfl⟩ | ⟨row, col, rfl⟩ | rfl
    · have hred : gameReducer s (Action.SELECT_CARD card) = selectCard s card := rfl
      rw [hred]
      unfold selectCard
      simp only []
      split
      · exact ⟨ih1, ih2, fun c hc => (by cases hc), ih4⟩
      · rename_i hcost
        refine ⟨ih1, ih2, ?_, ih4⟩
        intro c hc
        have hcc : card = c := Option.some.inj hc
        subst hcc
        have hle : card.cost ≤ (s.players s.currentPlayer).mana := by omega
        exact ⟨(ih4 s.currentPlayer).1 card hcard, hle⟩
    · have hred : gameReducer s (Action.PLACE_CARD row col) = placeCard s row col := rfl
      rw [hred]
      rcases placeCard_cases s row col with ⟨p1, p2, _, p4, _⟩ | ⟨sel, line, hs, _, p1, p2, _, p4, _⟩
      · rw [p1, p2, p4]
        exact ⟨ih1, ih2, ih3, ih4⟩
      · obtain ⟨hsel0, hsel1⟩ := ih3 sel hs
        have hne : (1 - s.currentPlayer) ≠ s.currentPlayer := by
          generalize s.currentPlayer = c
          revert c; decide
        rw [p1, p2, p4]
        refine ⟨?_, ?_, fun c hc => (by cases hc), ?_⟩
        · intro i
          simp only [setPlayer]
          split
          · rename_i hi
            subst hi
            obtain ⟨m0, m1, m2, m3⟩ := ih1 s.currentPlayer
            simp only []
            exact ⟨by omega, by omega, m2, m3⟩
          · exact ih1 i
        · simp only [setPlayer, if_neg hne, if_true]
          exact ih2
        · intro i
          simp only [setPlayer]
          split
          · rename_i hi
            subst hi
            simp only []
            exact ⟨fun c hc => (ih4 s.currentPlayer).1 c (List.mem_filter.mp hc).1,
              (ih4 s.currentPlayer).2⟩
          · exact ih4 i
    · obtain ⟨e1, _, e3, e4⟩ := endTurn_summary s
      have hcards : ∀ i,
          (∀ c ∈ ((gameReducer s Action.END_TURN).players i).hand, 0 ≤ c.cost) ∧
          (∀ c ∈ ((gameReducer s Action.END_TURN).players i).deck, 0 ≤ c.cost) := by
        intro i
        obtain ⟨x1, x2, _⟩ := e3 i
        refine ⟨fun c hc => ?_, fun c hc => (ih4 i).2 c (x2 c hc)⟩
        rcases x1 c hc with h | h
        · exact (ih4 i).1 c h
        · exact (ih4 i).2 c h
      rcases e4 with ⟨_, hcp, hsame⟩ | ⟨_, hcp, hcap, hmana, hm0, hc0⟩
      · rw [e1, hcp]
        refine ⟨?_, ?_, ?_, hcards⟩
        · intro i
          rw [(hsame i).1, (hsame i).2]
          exact ih1 i
        · rw [(hsame _).2, (hsame _).2]
          exact ih2
        · intro c hc
          rw [(hsame _).1]
          exact ih3 c hc
      · have hne : s.currentPlayer ≠ 1 - s.currentPlayer := by
          generalize s.currentPlayer = c
          revert c; decide
        have hback : 1 - (1 - s.currentPlayer) = s.currentPlayer := by
          generalize s.currentPlayer = c
          revert c; decide
        obtain ⟨n0, n1, n2, n3⟩ := ih1 (1 - s.currentPlayer)
        obtain ⟨c0, c1, c2, c3⟩ := ih1 s.currentPlayer
        have hcapBounds :
            1 ≤ ((gameReducer s Action.END_TURN).players (1 - s.currentPlayer)).manaCapacity ∧
            ((gameReducer s Action.END_TURN).players (1 - s.currentPlayer)).manaCapacity ≤ 10 ∧
            (s.players s.currentPlayer).manaCapacity ≤
              ((gameReducer s Action.END_TURN).players (1 - s.currentPlayer)).manaCapacity ∧
            ((gameReducer s Action.END_TURN).players (1 - s.currentPlayer)).manaCapacity ≤
              (s.players s.currentPlayer).manaCapacity + 1 := by
          rw [hcap]
          split <;> omega
        obtain ⟨b1, b2, b3, b4⟩ := hcapBounds
        rw [e1, hcp, hback]
        refine ⟨?_, ?_, ?_, hcards⟩
        · intro i
          by_cases hi : i = 1 - s.currentPlayer
          · subst hi
            rw [hmana]
            exact ⟨by omega, le_refl _, b1, b2⟩
          · have hi' : i = s.currentPlayer := by
              rcases fin2_cases i with rfl | rfl <;>
                rcases fin2_cases s.currentPlayer with h | h <;> rw [h] at hi ⊢ <;>
                first | rfl | exact absurd rfl hi
            subst hi'
            rw [hm0, hc0]
            exact ih1 _
        · rw [hc0]
          exact ⟨b3, b4⟩
        · intro c hc
          obtain ⟨s0, s1⟩ := ih3 c hc
          rw [hmana]
          exact ⟨s0, by omega⟩

theorem sampleGame_generated : generatedGame sampleGame :=
  ⟨sampleDeck, sampleDeck, "orc", "undead", none, ["Game started! Player 1 begins."],
    by unfold costsGenerated; decide, by unfold costsGenerated; decide, rfl⟩

theorem sampleReached_reachable : ReachableFrom generatedGame playAction sampleReached := by
  have h0 : ReachableFrom generatedGame playAction sampleGame :=
    ReachableFrom.start sampleGame_generated
  have h1 : ReachableFrom generatedGame playAction selectedGame :=
    ReachableFrom.step (Action.SELECT_CARD (sampleCard "p14" 1 1 1 false)) h0
      (Or.inl ⟨_, by decide, rfl⟩)
  have h2 := ReachableFrom.step (Action.PLACE_CARD 0 2) h1 (Or.inr (Or.inl ⟨0, 2, rfl⟩))
  exact ReachableFrom.step Action.END_TURN h2 (Or.inr (Or.inr rfl))

/-- C18. In every state reached from an `initializeGame` state (decks of generated
cards) by `SELECT_CARD` with a card of the current player's hand, `PLACE_CARD` with any
payload and `END_TURN`, each player has `0 ≤ mana ≤ manaCapacity` and
`1 ≤ manaCapacity ≤ 10`. -/
theorem reachable_mana_bounds (s : GameState)
    (h : ReachableFrom generatedGame playAction s) (i : Fin 2) :
    0 ≤ (s.players i).mana ∧ (s.players i).mana ≤ (s.players i).manaCapacity ∧
      1 ≤ (s.players i).manaCapacity ∧ (s.players i).manaCapacity ≤ 10 :=
  (reachable_mana_invariant s h).1 i

theorem reachable_mana_bounds_witness :
    (sampleReached.players 0).mana = 0 ∧ (sampleReached.players 1).mana = 2 ∧
      0 ≤ (sampleReached.players 0).mana ∧
      (sampleReached.players 0).mana ≤ (sampleReached.players 0).manaCapacity ∧
      1 ≤ (sampleReached.players 0).manaCapacity ∧
      (sampleReached.players 0).manaCapacity ≤ 10 :=
  ⟨by decide, by decide, reachable_mana_bounds sampleReached sampleReached_reachable 0⟩

/-! ## Hand size and log along a game -/

/-- C19. When both hands hold at most 7 cards, they still do after any reducer action
other than `START_GAME`; hence no hand exceeds 7 cards in any state reached from an
`initializeGame` state by such actions. -/
theorem hands_stay_within_limit :
    (∀ (state : GameState) (action : Action), notStartGame state action →
      (∀ i, (state.players i).hand.length ≤ 7) →
      ∀ i, ((gameReducer state action).players i).hand.length ≤ 7) ∧
    (∀ s, ReachableFrom initialGame notStartGame s → ∀ i, (s.players i).hand.length ≤ 7) := by
  have hstep : ∀ (state : GameState) (action : Action), notStartGame state action →
      (∀ i, (state.players i).hand.length ≤ 7) →
      ∀ i, ((gameReducer state action).players i).hand.length ≤ 7 := by
    intro state action hnot hhands i
    cases action with
    | START_GAME payload => exact absurd rfl (hnot payload)
    | SELECT_CARD card =>
      have hred : gameReducer state (Action.SELECT_CARD card) = selectCard state card := rfl
      rw [hred]
      unfold selectCard
      simp only []
      split <;> exact hhands i
    | PLACE_CARD row col =>
      have hred : gameReducer state (Action.PLACE_CARD row col) = placeCard state row col := rfl
      rw [hred]
      rcases placeCard_cases state row col with ⟨p1, _⟩ | ⟨sel, line, _, _, p1, _⟩
      · rw [p1]
        exact hhands i
      · rw [p1]
        simp only [setPlayer]
        split
        · rename_i hi
          subst hi
          exact le_trans (List.length_filter_le _ _) (hhands _)
        · exact hhands i
    | BATTLE_PHASE =>
      have hred : gameReducer state Action.BATTLE_PHASE = battlePhase state := rfl
      rw [hred, (economy_fields ((battlePhase_summary state).2.1 i)).1]
      exact hhands i
    | END_TURN => exact ((endTurn_summary state).2.2.1 i).2.2 (hhands i)
    | ADD_LOG payload => exact hhands i
    | SET_AI_PROCESSING payload => exact hhands i
    | SET_ERROR payload => exact hhands i
    | CLEAR_ERROR => exact hhands i
    | UNKNOWN => exact hhands i
  refine ⟨hstep, ?_⟩
  intro s hs
  induction hs with
  | @start s hinit =>
    obtain ⟨d1, d2, a1, a2, mode, log, hs⟩ := hinit
    intro i
    have hp : ∃ p : Player, p.hand = [] ∧ s.players i = dealCards STARTING_HAND_SIZE p := by
      rw [hs]
      rcases fin2_cases i with rfl | rfl
      · exact ⟨_, rfl, rfl⟩
      · exact ⟨_, rfl, rfl⟩
    obtain ⟨p, hhand, hpi⟩ := hp
    have := (dealCards_cards STARTING_HAND_SIZE p).2.2
    rw [hpi]
    rw [hhand] at this
    unfold STARTING_HAND_SIZE at this ⊢
    simp only [List.length_nil] at this
    omega
  | @step s a _ hallowed ih => exact hstep s a hallowed ih

theorem hands_stay_within_limit_witness :
    (sampleGame.players 1).hand.length ≤ 7 ∧
      ((gameReducer sampleGame Action.END_TURN).players 1).hand.length ≤ 7 :=
  ⟨by decide,
    hands_stay_within_limit.1 sampleGame Action.END_TURN (fun _ h => by cases h)
      (by decide) 1⟩

/-- C20. The log is append-only: for every action other than `START_GAME` the returned
log is the input log followed by the entries added; `ADD_LOG` returns the input state
with its payload as the single new last log entry and no other field changed. -/
theorem log_append_only (state : GameState) (action : Action) :
    (notStartGame state action →
      ∃ added, (gameReducer state action).log = state.log ++ added) ∧
    (∀ payload, gameReducer state (Action.ADD_LOG payload) =
      { state with log := state.log ++ [payload] }) := by
  refine ⟨?_, fun _ => rfl⟩
  intro hnot
  cases action with
  | START_GAME payload => exact absurd rfl (hnot payload)
  | SELECT_CARD card =>
    have hred : gameReducer state (Action.SELECT_CARD card) = selectCard state card := rfl
    rw [hred]
    unfold selectCard
    simp only []
    split <;> exact ⟨[], by simp⟩
  | PLACE_CARD row col =>
    have hred : gameReducer state (Action.PLACE_CARD row col) = placeCard state row col := rfl
    rw [hred]
    rcases placeCard_cases state row col with ⟨_, _, p3, _⟩ | ⟨sel, line, _, _, _, _, p3, _⟩
    · exact ⟨[], by rw [p3]; simp⟩
    · exact ⟨[line], p3⟩
  | BATTLE_PHASE => exact (battlePhase_summary state).2.2
  | END_TURN => exact (endTurn_summary state).2.1
  | ADD_LOG payload => exact ⟨[payload], rfl⟩
  | SET_AI_PROCESSING payload => exact ⟨[], by simp [gameReducer]⟩
  | SET_ERROR payload => exact ⟨[], by simp [gameReducer]⟩
  | CLEAR_ERROR => exact ⟨[], by simp [gameReducer]⟩
  | UNKNOWN => exact ⟨[], by simp [gameReducer]⟩

theorem log_append_only_witness :
    (∃ added, (gameReducer overrunGame Action.END_TURN).log = overrunGame.log ++ added) ∧
      (gameReducer sampleGame (Action.ADD_LOG "note")).log = sampleGame.log ++ ["note"] :=
  ⟨(log_append_only overrunGame Action.END_TURN).1 (fun _ h => by cases h),
    congrArg GameState.log ((log_append_only sampleGame Action.END_TURN).2 "note")⟩

/-! ## Deck generation -/

theorem numTaunt_eq : numTaunt = 3 := by
  unfold numTaunt
  have : ⌊(15 : ℚ) * 0.2⌋ = 3 := by
    rw [Int.floor_eq_iff]
    norm_num
  rw [this]
  rfl

theorem floor_random_bounds {r : ℚ} (hr : 0 ≤ r ∧ r < 1) (n : Nat) (hn : 0 < n) :
    0 ≤ ⌊r * n⌋ ∧ ⌊r * n⌋ < n := by
  have hnq : (0 : ℚ) < n := by exact_mod_cast hn
  constructor
  · rw [Int.floor_nonneg]
    exact mul_nonneg hr.1 (le_of_lt hnq)
  · rw [Int.floor_lt]
    have : r * n < 1 * n := mul_lt_mul_of_pos_right hr.2 hnq
    simpa using this

theorem generateCard_spec (rnd : Nat → ℚ) (pos : Nat) (id : String) (archetype : Archetype)
    (hasTaunt : Bool) :
    (generateCard rnd pos id archetype hasTaunt).2 = pos + 3 ∧
    (generateCard rnd pos id archetype hasTaunt).1.id = id ∧
    (generateCard rnd pos id archetype hasTaunt).1.hasTaunt = hasTaunt ∧
    (generateCard rnd pos id archetype hasTaunt).1.cost = ⌊rnd pos * 10⌋ + 1 ∧
    1 ≤ (generateCard rnd pos id archetype hasTaunt).1.attack ∧
    1 ≤ (generateCard rnd pos id archetype hasTaunt).1.health ∧
    (generateCard rnd pos id archetype hasTaunt).1.maxHealth =
      (generateCard rnd pos id archetype hasTaunt).1.health := by
  unfold generateCard
  exact ⟨rfl, rfl, rfl, rfl, le_max_left _ _, le_max_left _ _, rfl⟩

theorem generateCard_wellFormed (rnd : Nat → ℚ) (hrnd : ∀ n, 0 ≤ rnd n ∧ rnd n < 1) (pos : Nat)
    (id : String) (archetype : Archetype) (hasTaunt : Bool) :
    cardWellFormed (generateCard rnd pos id archetype hasTaunt).1 := by
  obtain ⟨_, _, _, h4, h5, h6, h7⟩ := generateCard_spec rnd pos id archetype hasTaunt
  have hb := floor_random_bounds (hrnd pos) 10 (by decide)
  simp only [Nat.cast_ofNat] at hb
  refine ⟨?_, ?_, h5, h6, h7⟩
  · rw [h4]; omega
  · rw [h4]; omega

theorem sampleTauntIndices_spec (fuel : Nat) (rnd : Nat → ℚ) (hrnd : ∀ n, 0 ≤ rnd n ∧ rnd n < 1)
    (pos : Nat) (tauntIndices : List Int) (hnodup : tauntIndices.Nodup)
    (hrange : ∀ x ∈ tauntIndices, 0 ≤ x ∧ x < 15) (hlen : tauntIndices.length ≤ 3)
    (result : List Int) (pos1 : Nat)
    (h : sampleTauntIndices fuel rnd pos tauntIndices = some (result, pos1)) :
    result.Nodup ∧ (∀ x ∈ result, 0 ≤ x ∧ x < 15) ∧ result.length = 3 := by
  induction fuel generalizing pos tauntIndices with
  | zero =>
    unfold sampleTauntIndices at h
    rw [numTaunt_eq] at h
    split at h
    · cases h
    · cases h
      exact ⟨hnodup, hrange, by omega⟩
  | succ fuel ih =>
    unfold sampleTauntIndices at h
    rw [numTaunt_eq] at h
    split at h
    · rename_i hlt
      simp only [] at h
      have hb := floor_random_bounds (hrnd pos) 15 (by decide)
      simp only [Nat.cast_ofNat] at hb
      split at h
      · exact ih (pos + 1) tauntIndices hnodup hrange hlen h
      · rename_i hnot
        refine ih (pos + 1) _ ?_ ?_ ?_ h
        · rw [List.nodup_append]
          refine ⟨hnodup, List.nodup_singleton _, ?_⟩
          intro a ha hb'
          rw [List.mem_singleton] at hb'
          exact hnot (hb' ▸ ha)
        · intro x hx
          rcases List.mem_append.mp hx with hx | hx
          · exact hrange x hx
          · rw [List.mem_singleton] at hx
            rw [hx]
            exact hb
        · rw [List.length_append, List.length_singleton]
          omega
    · cases h
      exact ⟨hnodup, hrange, by omega⟩

theorem buildDeck_fold (rnd : Nat → ℚ) (archetype : Archetype) (tauntIndices : List Int)
    (indices : List Nat) (acc : List Card × Nat) :
    ∃ added : List Card,
      (indices.foldl
        (fun (acc : List Card × Nat) (i : Nat) =>
          let card := generateCard rnd acc.2 (cardId i) archetype
            (decide ((i : Int) ∈ tauntIndices))
          (acc.1 ++ [card.1], card.2)) acc).1 = acc.1 ++ added ∧
      List.Forall₂
        (fun (i : Nat) (c : Card) => c.id = cardId i ∧
          c.hasTaunt = decide ((i : Int) ∈ tauntIndices) ∧
          ((∀ n, 0 ≤ rnd n ∧ rnd n < 1) → cardWellFormed c))
        indices added := by
  induction indices generalizing acc with
  | nil => exact ⟨[], by simp, List.Forall₂.nil⟩
  | cons i rest ih =>
    rw [List.foldl_cons]
    obtain ⟨added, h1, h2⟩ := ih
      (acc.1 ++ [(generateCard rnd acc.2 (cardId i) archetype
        (decide ((i : Int) ∈ tauntIndices))).1],
       (generateCard rnd acc.2 (cardId i) archetype (decide ((i : Int) ∈ tauntIndices))).2)
    refine ⟨(generateCard rnd acc.2 (cardId i) archetype
        (decide ((i : Int) ∈ tauntIndices))).1 :: added, ?_, ?_⟩
    · rw [h1]
      simp
    · obtain ⟨_, g2, g3, _⟩ := generateCard_spec rnd acc.2 (cardId i) archetype
        (decide ((i : Int) ∈ tauntIndices))
      exact List.Forall₂.cons
        ⟨g2, g3, fun hrnd => generateCard_wellFormed rnd hrnd _ _ _ _⟩ h2

theorem buildDeck_spec (rnd : Nat → ℚ) (pos : Nat) (archetype : Archetype)
    (tauntIndices : List Int) :
    List.Forall₂
      (fun (i : Nat) (c : Card) => c.id = cardId i ∧
        c.hasTaunt = decide ((i : Int) ∈ tauntIndices) ∧
        ((∀ n, 0 ≤ rnd n ∧ rnd n < 1) → cardWellFormed c))
      (List.range 15) (buildDeck rnd pos archetype tauntIndices).1 := by
  obtain ⟨added, h1, h2⟩ := buildDeck_fold rnd archetype tauntIndices (List.range 15) ([], pos)
  unfold buildDeck
  rw [h1]
  simpa using h2

theorem swapCards_perm (deck : List Card) (i : Nat) (j : Int) :
    (swapCards deck i j).Perm deck := by
  unfold swapCards
  split
  · rename_i a b ha hb
    split at hb
    · rename_i hj
      obtain ⟨hi, hia⟩ := List.getElem?_eq_some_iff.mp ha
      obtain ⟨hjl, hjb⟩ := List.getElem?_eq_some_iff.mp hb
      rw [List.perm_iff_count]
      intro x
      have hjl2 : j.toNat < (deck.set i b).length := by rw [List.length_set]; exact hjl
      rw [List.count_set _ _ _ _ hjl2, List.count_set _ _ _ _ hi]
      have hget : (deck.set i b)[j.toNat] = b := by
        rw [List.getElem_set]
        split
        · rfl
        · exact hjb
      rw [hget, hia]
      have hmem : a ∈ deck := hia ▸ List.getElem_mem hi
      by_cases hax : a = x
      · subst hax
        have hpos : 0 < deck.count a := List.count_pos_iff.mpr hmem
        by_cases hba : b = a
        · simp [hba]; omega
        · simp [hba]; omega
      · by_cases hbx : b = x
        · simp [hax, hbx]
        · simp [hax, hbx]
    · cases hb
  · exact List.Perm.refl _

theorem shuffleDeck_perm (rnd : Nat → ℚ) (pos : Nat) (deck : List Card) :
    (shuffleDeck rnd pos deck).1.Perm deck := by
  unfold shuffleDeck
  exact foldl_invariant (fun (acc : List Card × Nat) => acc.1.Perm deck) _ _ _
    (List.Perm.refl _) (fun acc i _ h => (swapCards_perm _ _ _).trans h)

theorem forall₂_countP {α β : Type} (R : α → β → Prop) (p : α → Bool) (q : β → Bool)
    (hR : ∀ a b, R a b → p a = q b) (l1 : List α) (l2 : List β) (h : List.Forall₂ R l1 l2) :
    l1.countP p = l2.countP q := by
  induction h with
  | nil => rfl
  | cons hab _ ih =>
    rw [List.countP_cons, List.countP_cons, ih, hR _ _ hab]

theorem forall₂_map_eq {α β γ : Type} (R : α → β → Prop) (f : α → γ) (g : β → γ)
    (hR : ∀ a b, R a b → g b = f a) (l1 : List α) (l2 : List β) (h : List.Forall₂ R l1 l2) :
    l2.map g = l1.map f := by
  induction h with
  | nil => rfl
  | cons hab _ ih =>
    rw [List.map_cons, List.map_cons, ih, hR _ _ hab]

theorem countP_range_mem (n : Nat) (indices : List Int) (hnodup : indices.Nodup)
    (hrange : ∀ x ∈ indices, 0 ≤ x ∧ x < n) :
    (List.range n).countP (fun (i : Nat) => decide ((i : Int) ∈ indices)) = indices.length := by
  rw [List.countP_eq_length_filter]
  have hperm : ((List.range n).filter (fun (i : Nat) => decide ((i : Int) ∈ indices))).Perm
      (indices.map Int.toNat) := by
    rw [List.perm_ext_iff_of_nodup]
    · intro a
      simp only [List.mem_filter, List.mem_range, decide_eq_true_eq, List.mem_map]
      constructor
      · rintro ⟨_, h⟩
        exact ⟨(a : Int), h, by simp⟩
      · rintro ⟨x, hx, rfl⟩
        have := hrange x hx
        refine ⟨by omega, ?_⟩
        rw [Int.toNat_of_nonneg this.1]
        exact hx
    · exact (List.nodup_range n).filter _
    · rw [List.nodup_map_iff_inj_on hnodup]
      intro x hx y hy hxy
      have h1 := hrange x hx
      have h2 := hrange y hy
      omega
  rw [hperm.length_eq, List.length_map]

theorem cardIds_nodup : ((List.range 15).map cardId).Nodup := by
  decide

theorem sampleSource_bounds (n : Nat) : 0 ≤ sampleSource n ∧ sampleSource n < 1 := by
  unfold sampleSource
  constructor
  · positivity
  · rw [div_lt_one (by norm_num)]
    have : (7 * n + 3) % 16 < 16 := Nat.mod_lt _ (by decide)
    exact_mod_cast this

theorem sampleSource_taunts :
    sampleTauntIndices 3 sampleSource 0 [] = some ([2, 9, 0], 3) := by
  have h0 : ⌊sampleSource 0 * 15⌋ = 2 := by
    rw [Int.floor_eq_iff]; norm_num [sampleSource]
  have h1 : ⌊sampleSource 1 * 15⌋ = 9 := by
    rw [Int.floor_eq_iff]; norm_num [sampleSource]
  have h2 : ⌊sampleSource 2 * 15⌋ = 0 := by
    rw [Int.floor_eq_iff]; norm_num [sampleSource]
  simp [sampleTauntIndices, numTaunt_eq, h0, h1, h2]

theorem generateDeck_of_sample (fuel : Nat) (rnd : Nat → ℚ) (pos : Nat) (archetype : Archetype)
    (tauntIndices : List Int) (pos1 : Nat)
    (h : sampleTauntIndices fuel rnd pos [] = some (tauntIndices, pos1)) :
    generateDeck fuel rnd pos archetype =
      some (shuffleDeck rnd (buildDeck rnd pos1 archetype tauntIndices).2
        (buildDeck rnd pos1 archetype tauntIndices).1) := by
  unfold generateDeck
  rw [h]

theorem generateDeck_built (fuel : Nat) (rnd : Nat → ℚ) (pos : Nat) (archetype : Archetype)
    (deck : List Card) (pos2 : Nat) (h : generateDeck fuel rnd pos archetype = some (deck, pos2)) :
    ∃ tauntIndices pos1, sampleTauntIndices fuel rnd pos [] = some (tauntIndices, pos1) ∧
      deck.Perm (buildDeck rnd pos1 archetype tauntIndices).1 := by
  unfold generateDeck at h
  split at h
  · cases h
  · rename_i tauntIndices pos1 hs
    simp only [Option.some.injEq] at h
    refine ⟨tauntIndices, pos1, hs, ?_⟩
    have hfst : (shuffleDeck rnd (buildDeck rnd pos1 archetype tauntIndices).2
        (buildDeck rnd pos1 archetype tauntIndices).1).1 = deck := congrArg Prod.fst h
    rw [← hfst]
    exact shuffleDeck_perm _ _ _

theorem forall₂_right {α β : Type} (R : α → β → Prop) (P : β → Prop)
    (hR : ∀ a b, R a b → P b) (l1 : List α) (l2 : List β) (h : List.Forall₂ R l1 l2) :
    ∀ b ∈ l2, P b := by
  induction h with
  | nil => intro b hb; cases hb
  | cons hab _ ih =>
    intro b hb
    rcases List.mem_cons.mp hb with rfl | hb
    · exact hR _ _ hab
    · exact ih b hb

theorem generateDeck_length (fuel : Nat) (rnd : Nat → ℚ) (pos : Nat) (archetype : Archetype)
    (deck : List Card) (pos2 : Nat) (h : generateDeck fuel rnd pos archetype = some (deck, pos2)) :
    deck.length = 15 := by
  obtain ⟨tauntIndices, pos1, _, hperm⟩ := generateDeck_built fuel rnd pos archetype deck pos2 h
  rw [hperm.length_eq, ← (buildDeck_spec rnd pos1 archetype tauntIndices).length_eq]
  rfl

theorem generateDeck_costs (fuel : Nat) (rnd : Nat → ℚ) (hrnd : ∀ n, 0 ≤ rnd n ∧ rnd n < 1)
    (pos : Nat) (archetype : Archetype) (deck : List Card) (pos2 : Nat)
    (h : generateDeck fuel rnd pos archetype = some (deck, pos2)) :
    ∀ c ∈ deck, cardWellFormed c := by
  obtain ⟨tauntIndices, pos1, _, hperm⟩ := generateDeck_built fuel rnd pos archetype deck pos2 h
  intro c hc
  exact forall₂_right _ cardWellFormed (fun a b hab => hab.2.2 hrnd) _ _
    (buildDeck_spec rnd pos1 archetype tauntIndices) c (hperm.mem_iff.mp hc)

theorem generateDeck_costsGenerated (fuel : Nat) (rnd : Nat → ℚ)
    (hrnd : ∀ n, 0 ≤ rnd n ∧ rnd n < 1) (pos : Nat) (archetype : Archetype) (deck : List Card)
    (pos2 : Nat) (h : generateDeck fuel rnd pos archetype = some (deck, pos2)) :
    costsGenerated deck := by
  intro c hc
  have := generateDeck_costs fuel rnd hrnd pos archetype deck pos2 h c hc
  exact ⟨this.1, this.2.1⟩

/-- C21: for every archetype and every random source with values in `[0, 1)` on which
`generateDeck` returns, the deck has exactly 15 cards, exactly 3 of them with
`hasTaunt = true`, and every card has a cost in `1 .. 10`, attack at least 1, health at
least 1 and `maxHealth = health`. -/
theorem generateDeck_contract (fuel : Nat) (rnd : Nat → ℚ) (hrnd : ∀ n, 0 ≤ rnd n ∧ rnd n < 1)
    (pos : Nat) (archetype : Archetype) (deck : List Card) (pos2 : Nat)
    (h : generateDeck fuel rnd pos archetype = some (deck, pos2)) :
    deck.length = 15 ∧
    deck.countP (fun c => c.hasTaunt) = 3 ∧
    ∀ c ∈ deck, 1 ≤ c.cost ∧ c.cost ≤ 10 ∧ 1 ≤ c.attack ∧ 1 ≤ c.health ∧
      c.maxHealth = c.health := by
  refine ⟨generateDeck_length fuel rnd pos archetype deck pos2 h, ?_,
    generateDeck_costs fuel rnd hrnd pos archetype deck pos2 h⟩
  obtain ⟨tauntIndices, pos1, hs, hperm⟩ := generateDeck_built fuel rnd pos archetype deck pos2 h
  obtain ⟨hnodup, hrange, hlen⟩ := sampleTauntIndices_spec fuel rnd hrnd pos [] List.nodup_nil
    (fun x hx => by cases hx) (by simp) tauntIndices pos1 hs
  rw [hperm.countP_eq]
  rw [← forall₂_countP _ (fun (i : Nat) => decide ((i : Int) ∈ tauntIndices))
    (fun (c : Card) => c.hasTaunt) (fun a b hab => hab.2.1.symm) _ _
    (buildDeck_spec rnd pos1 archetype tauntIndices)]
  rw [countP_range_mem 15 tauntIndices hnodup (by simpa using hrange), hlen]

theorem generateDeck_contract_witness :
    ∃ deck pos2, generateDeck 3 sampleSource 0 Archetype.orc = some (deck, pos2) ∧
      deck.length = 15 ∧ deck.countP (fun c => c.hasTaunt) = 3 ∧
      ∀ c ∈ deck, 1 ≤ c.cost ∧ c.cost ≤ 10 ∧ 1 ≤ c.attack ∧ 1 ≤ c.health ∧
        c.maxHealth = c.health :=
  ⟨_, _, generateDeck_of_sample 3 sampleSource 0 Archetype.orc [2, 9, 0] 3 sampleSource_taunts,
    generateDeck_contract 3 sampleSource sampleSource_bounds 0 Archetype.orc _ _
      (generateDeck_of_sample 3 sampleSource 0 Archetype.orc [2, 9, 0] 3 sampleSource_taunts)⟩

/-- C22: for every sequence of random draws in `[0, 1)` each swap index of the shuffle
loop lies in `0 .. i`, and the loop returns a permutation of the deck it is given; a deck
that `generateDeck` returns holds each of the ids `p0_common_0 .. p14_common_14` exactly
once, so its ids are pairwise distinct. -/
theorem shuffle_is_permutation (rnd : Nat → ℚ) (hrnd : ∀ n, 0 ≤ rnd n ∧ rnd n < 1) (pos : Nat)
    (given : List Card) (fuel : Nat) (pos0 : Nat) (archetype : Archetype) (deck : List Card)
    (pos2 : Nat) (h : generateDeck fuel rnd pos0 archetype = some (deck, pos2)) :
    (∀ n i : Nat, 0 ≤ ⌊rnd n * ((i : ℚ) + 1)⌋ ∧ ⌊rnd n * ((i : ℚ) + 1)⌋ ≤ (i : Int)) ∧
    (shuffleDeck rnd pos given).1.Perm given ∧
    (∀ c, (shuffleDeck rnd pos given).1.count c = given.count c) ∧
    (deck.map (fun c => c.id)).Perm ((List.range 15).map cardId) ∧
    (∀ i, i < 15 → (deck.map (fun c => c.id)).count (cardId i) = 1) ∧
    (deck.map (fun c => c.id)).Nodup ∧
    cardId 0 = "p0_common_0" ∧ cardId 14 = "p14_common_14" := by
  obtain ⟨tauntIndices, pos1, _, hperm⟩ := generateDeck_built fuel rnd pos0 archetype deck pos2 h
  have hids : (deck.map (fun c => c.id)).Perm ((List.range 15).map cardId) := by
    refine (hperm.map _).trans ?_
    rw [forall₂_map_eq _ cardId (fun (c : Card) => c.id) (fun a b hab => hab.1) _ _
      (buildDeck_spec rnd pos1 archetype tauntIndices)]
  refine ⟨?_, shuffleDeck_perm rnd pos given,
    fun c => (shuffleDeck_perm rnd pos given).count_eq c, hids, ?_,
    hids.nodup_iff.mpr cardIds_nodup, by decide, by decide⟩
  · intro n i
    have hb := floor_random_bounds (hrnd n) (i + 1) (Nat.succ_pos i)
    push_cast at hb
    exact ⟨hb.1, by omega⟩
  intro i hi
  rw [hids.count_eq]
  exact List.count_eq_one_of_mem cardIds_nodup
    (List.mem_map.mpr ⟨i, List.mem_range.mpr hi, rfl⟩)

theorem shuffle_is_permutation_witness :
    ∃ deck pos2, generateDeck 3 sampleSource 0 Archetype.orc = some (deck, pos2) ∧
      ((∀ n i : Nat, 0 ≤ ⌊sampleSource n * ((i : ℚ) + 1)⌋ ∧
        ⌊sampleSource n * ((i : ℚ) + 1)⌋ ≤ (i : Int)) ∧
      (shuffleDeck sampleSource 0 sampleDeck).1.Perm sampleDeck ∧
      (∀ c, (shuffleDeck sampleSource 0 sampleDeck).1.count c = sampleDeck.count c) ∧
      (deck.map (fun c => c.id)).Perm ((List.range 15).map cardId) ∧
      (∀ i, i < 15 → (deck.map (fun c => c.id)).count (cardId i) = 1) ∧
      (deck.map (fun c => c.id)).Nodup ∧
      cardId 0 = "p0_common_0" ∧ cardId 14 = "p14_common_14") :=
  ⟨_, _, generateDeck_of_sample 3 sampleSource 0 Archetype.orc [2, 9, 0] 3 sampleSource_taunts,
    shuffle_is_permutation sampleSource sampleSource_bounds 0 sampleDeck 3 0 Archetype.orc _ _
      (generateDeck_of_sample 3 sampleSource 0 Archetype.orc [2, 9, 0] 3 sampleSource_taunts)⟩

/-! ## Initialization -/

theorem constantSource_never_samples (fuel : Nat) (pos : Nat) (tauntIndices : List Int)
    (h : tauntIndices = [] ∨ tauntIndices = [7]) :
    sampleTauntIndices fuel constantSource pos tauntIndices = none := by
  have hfloor : ∀ n, ⌊constantSource n * 15⌋ = 7 := by
    intro n
    rw [Int.floor_eq_iff]
    norm_num [constantSource]
  induction fuel generalizing pos tauntIndices with
  | zero =>
    unfold sampleTauntIndices
    rw [numTaunt_eq]
    rcases h with rfl | rfl
    · rfl
    · rfl
  | succ fuel ih =>
    unfold sampleTauntIndices
    rw [numTaunt_eq]
    rcases h with rfl | rfl
    · simp only [List.length_nil, Nat.ofNat_pos, ↓reduceIte, hfloor, List.not_mem_nil,
        List.nil_append]
      exact ih _ _ (Or.inr rfl)
    · simp only [List.length_singleton, Nat.one_lt_ofNat, ↓reduceIte, hfloor,
        List.mem_singleton]
      exact ih _ _ (Or.inr rfl)

theorem dealCards_pops (drawn : List Card) (player : Player) (rest : List Card)
    (h : player.deck = rest ++ drawn.reverse) :
    dealCards drawn.length player =
      { player with hand := player.hand ++ drawn, deck := rest } := by
  induction drawn generalizing player with
  | nil =>
    simp only [List.reverse_nil, List.append_nil] at h
    simp only [List.length_nil, dealCards, List.append_nil]
    rw [← h]
  | cons card drawn ih =>
    have hdeck : player.deck = (rest ++ drawn.reverse) ++ [card] := by
      rw [h, List.reverse_cons, List.append_assoc]
    rw [List.length_cons]
    unfold dealCards
    rw [hdeck, List.getLast?_concat, List.dropLast_concat]
    simp only []
    rw [ih _ rfl]
    simp

theorem dealCards_three (player : Player) (h : player.deck.length = 15) (hh : player.hand = []) :
    (dealCards STARTING_HAND_SIZE player).deck = player.deck.take 12 ∧
    (dealCards STARTING_HAND_SIZE player).hand = (player.deck.drop 12).reverse := by
  have hlen : (player.deck.drop 12).reverse.length = STARTING_HAND_SIZE := by
    rw [List.length_reverse, List.length_drop, h]
    rfl
  have := dealCards_pops (player.deck.drop 12).reverse player (player.deck.take 12)
    (by rw [List.reverse_reverse, List.take_append_drop])
  rw [hlen] at this
  rw [this, hh]
  exact ⟨rfl, rfl⟩

/-- C23 (as the claim words it, refuted): on the random source that always draws `1/2`
the taunt loop of `generateDeck` draws index 7 for ever, so `initializeGame` returns
nothing however much fuel it gets. -/
theorem initializeGame_may_not_return :
    (∀ n, 0 ≤ constantSource n ∧ constantSource n < 1) ∧
    ¬ ∃ fuel, (initializeGame fuel constantSource Archetype.orc Archetype.orc).isSome = true := by
  constructor
  · intro n
    norm_num [constantSource]
  · rintro ⟨fuel, h⟩
    unfold initializeGame generateDeck at h
    rw [constantSource_never_samples fuel 0 [] (Or.inl rfl)] at h
    simp at h

/-- C23 (amended): for all archetypes and every random source on which the two deck
generations return, `initializeGame` returns a state with an empty 5x7 board,
`currentPlayer` 0, turn 1, `gameOver` false, no selected card, and for each player health
30, mana 1, manaCapacity 1, fatigueDamage 0, a deck of the first twelve cards of the
shuffled deck in their order and a hand of its last three cards, the last one first. -/
theorem initializeGame_contract (fuel : Nat) (rnd : Nat → ℚ)
    (player1Archetype player2Archetype : Archetype) (deck1 deck2 : List Card) (pos1 pos2 : Nat)
    (h1 : generateDeck fuel rnd 0 player1Archetype = some (deck1, pos1))
    (h2 : generateDeck fuel rnd pos1 player2Archetype = some (deck2, pos2)) :
    ∃ state, initializeGame fuel rnd player1Archetype player2Archetype = some state ∧
      (∀ row : Fin ROWS, state.board row = List.replicate 7 none) ∧
      state.currentPlayer = 0 ∧ state.turn = 1 ∧ state.gameOver = false ∧
      state.winner = none ∧ state.selectedCard = none ∧
      (∀ i : Fin 2, (state.players i).health = 30 ∧ (state.players i).mana = 1 ∧
        (state.players i).manaCapacity = 1 ∧ (state.players i).fatigueDamage = 0 ∧
        (state.players i).hand.length = 3 ∧ (state.players i).deck.length = 12) ∧
      deck1.length = 15 ∧ deck2.length = 15 ∧
      (state.players 0).deck = deck1.take 12 ∧
      (state.players 0).hand = (deck1.drop 12).reverse ∧
      (state.players 1).deck = deck2.take 12 ∧
      (state.players 1).hand = (deck2.drop 12).reverse := by
  have hl1 := generateDeck_length fuel rnd 0 player1Archetype deck1 pos1 h1
  have hl2 := generateDeck_length fuel rnd pos1 player2Archetype deck2 pos2 h2
  refine ⟨initializeGameWith deck1 deck2 player1Archetype.key player2Archetype.key, ?_, ?_⟩
  · unfold initializeGame
    rw [h1]
    simp only []
    rw [h2]
  · have hp0 : ((initializeGameWith deck1 deck2 player1Archetype.key
        player2Archetype.key).players 0) = dealCards STARTING_HAND_SIZE
          { id := 0, health := STARTING_HEALTH, mana := 1, manaCapacity := 1, deck := deck1,
            hand := [], archetype := player1Archetype.key, fatigueDamage := 0 } := rfl
    have hp1 : ((initializeGameWith deck1 deck2 player1Archetype.key
        player2Archetype.key).players 1) = dealCards STARTING_HAND_SIZE
          { id := 1, health := STARTING_HEALTH, mana := 1, manaCapacity := 1, deck := deck2,
            hand := [], archetype := player2Archetype.key, fatigueDamage := 0 } := rfl
    have d0 := dealCards_three
      { id := 0, health := STARTING_HEALTH, mana := 1, manaCapacity := 1, deck := deck1,
        hand := [], archetype := player1Archetype.key, fatigueDamage := 0 } hl1 rfl
    have d1 := dealCards_three
      { id := 1, health := STARTING_HEALTH, mana := 1, manaCapacity := 1, deck := deck2,
        hand := [], archetype := player2Archetype.key, fatigueDamage := 0 } hl2 rfl
    have f0 := dealCards_fields STARTING_HAND_SIZE
      { id := 0, health := STARTING_HEALTH, mana := 1, manaCapacity := 1, deck := deck1,
        hand := [], archetype := player1Archetype.key, fatigueDamage := 0 }
    have f1 := dealCards_fields STARTING_HAND_SIZE
      { id := 1, health := STARTING_HEALTH, mana := 1, manaCapacity := 1, deck := deck2,
        hand := [], archetype := player2Archetype.key, fatigueDamage := 0 }
    simp only [] at d0 d1 f0 f1
    refine ⟨fun _ => rfl, rfl, rfl, rfl, rfl, rfl, ?_, hl1, hl2, ?_, ?_, ?_, ?_⟩
    · intro i
      rcases fin2_cases i with rfl | rfl
      · rw [hp0]
        refine ⟨f0.1, f0.2.1, f0.2.2.1, f0.2.2.2, ?_, ?_⟩
        · rw [d0.2, List.length_reverse, List.length_drop, hl1]
        · rw [d0.1, List.length_take, hl1]; rfl
      · rw [hp1]
        refine ⟨f1.1, f1.2.1, f1.2.2.1, f1.2.2.2, ?_, ?_⟩
        · rw [d1.2, List.length_reverse, List.length_drop, hl2]
        · rw [d1.1, List.length_take, hl2]; rfl
    · rw [hp0]; exact d0.1
    · rw [hp0]; exact d0.2
    · rw [hp1]; exact d1.1
    · rw [hp1]; exact d1.2

theorem buildDeck_position (rnd : Nat → ℚ) (pos : Nat) (archetype : Archetype)
    (tauntIndices : List Int) : (buildDeck rnd pos archetype tauntIndices).2 = pos + 45 := by
  unfold buildDeck
  have hfold : ∀ (indices : List Nat) (acc : List Card × Nat),
      (indices.foldl
        (fun (acc : List Card × Nat) (i : Nat) =>
          let card := generateCard rnd acc.2 (cardId i) archetype
            (decide ((i : Int) ∈ tauntIndices))
          (acc.1 ++ [card.1], card.2)) acc).2 = acc.2 + 3 * indices.length := by
    intro indices
    induction indices with
    | nil => intro acc; rfl
    | cons i rest ih =>
      intro acc
      rw [List.foldl_cons, ih, List.length_cons]
      simp only [(generateCard_spec rnd acc.2 (cardId i) archetype _).1]
      omega
  rw [hfold]
  rfl

theorem shuffleDeck_position (rnd : Nat → ℚ) (pos : Nat) (deck : List Card) :
    (shuffleDeck rnd pos deck).2 = pos + (deck.length - 1) := by
  unfold shuffleDeck
  have hfold : ∀ (indices : List Nat) (acc : List Card × Nat),
      (indices.foldl
        (fun (acc : List Card × Nat) (i : Nat) =>
          let j : Int := ⌊rnd acc.2 * ((i : ℚ) + 1)⌋
          (swapCards acc.1 i j, acc.2 + 1)) acc).2 = acc.2 + indices.length := by
    intro indices
    induction indices with
    | nil => intro acc; rfl
    | cons i rest ih =>
      intro acc
      rw [List.foldl_cons, ih, List.length_cons]
      simp only []
      omega
  rw [hfold, List.length_reverse, List.length_range']

theorem sampleSource_first_deck :
    ∃ deck1, generateDeck 3 sampleSource 0 Archetype.orc = some (deck1, 62) := by
  have h := generateDeck_of_sample 3 sampleSource 0 Archetype.orc [2, 9, 0] 3
    sampleSource_taunts
  have hlen := generateDeck_length 3 sampleSource 0 Archetype.orc _ _ h
  have hpos : (shuffleDeck sampleSource (buildDeck sampleSource 3 Archetype.orc [2, 9, 0]).2
      (buildDeck sampleSource 3 Archetype.orc [2, 9, 0]).1).2 = 62 := by
    rw [shuffleDeck_position, buildDeck_position,
      ← (buildDeck_spec sampleSource 3 Archetype.orc [2, 9, 0]).length_eq]
    rfl
  exact ⟨_, by rw [h, ← hpos]⟩

theorem sampleSource_second_deck :
    ∃ deck2 pos2, generateDeck 3 sampleSource 62 Archetype.human = some (deck2, pos2) := by
  have h0 : ⌊sampleSource 62 * 15⌋ = 4 := by
    rw [Int.floor_eq_iff]; norm_num [sampleSource]
  have h1 : ⌊sampleSource 63 * 15⌋ = 11 := by
    rw [Int.floor_eq_iff]; norm_num [sampleSource]
  have h2 : ⌊sampleSource 64 * 15⌋ = 2 := by
    rw [Int.floor_eq_iff]; norm_num [sampleSource]
  exact ⟨_, _, generateDeck_of_sample 3 sampleSource 62 Archetype.human [4, 11, 2] 65
    (by simp [sampleTauntIndices, numTaunt_eq, h0, h1, h2])⟩

theorem initializeGame_contract_witness :
    ∃ deck1 deck2 pos2, generateDeck 3 sampleSource 0 Archetype.orc = some (deck1, 62) ∧
      generateDeck 3 sampleSource 62 Archetype.human = some (deck2, pos2) ∧
      ∃ state, initializeGame 3 sampleSource Archetype.orc Archetype.human = some state ∧
        (∀ row : Fin ROWS, state.board row = List.replicate 7 none) ∧
        state.currentPlayer = 0 ∧ state.turn = 1 ∧ state.gameOver = false ∧
        state.winner = none ∧ state.selectedCard = none ∧
        (∀ i : Fin 2, (state.players i).health = 30 ∧ (state.players i).mana = 1 ∧
          (state.players i).manaCapacity = 1 ∧ (state.players i).fatigueDamage = 0 ∧
          (state.players i).hand.length = 3 ∧ (state.players i).deck.length = 12) ∧
        deck1.length = 15 ∧ deck2.length = 15 ∧
        (state.players 0).deck = deck1.take 12 ∧
        (state.players 0).hand = (deck1.drop 12).reverse ∧
        (state.players 1).deck = deck2.take 12 ∧
        (state.players 1).hand = (deck2.drop 12).reverse :=
  sampleSource_first_deck.elim fun deck1 h1 =>
    sampleSource_second_deck.elim fun deck2 hex =>
      hex.elim fun pos2 h2 =>
        ⟨deck1, deck2, pos2, h1, h2,
          initializeGame_contract 3 sampleSource Archetype.orc Archetype.human deck1 deck2 62
            pos2 h1 h2⟩

/-! ## The AI planner -/

/-- C24: for every card, board and random source, `findBestPosition` returns none exactly
when all 7 cells of the AI spawn row (row 4) are occupied; a position it returns has
row 4 and a column of `0 .. 6` whose spawn-row cell is empty on the given board. -/
theorem findBestPosition_spec (rnd : Nat → ℚ) (pos : Nat) (card : Card) (currentBoard : Board) :
    (findBestPosition rnd pos card currentBoard = none ↔
      ∀ col : Nat, col < 7 → (getCell currentBoard 4 (col : Int)).isSome = true) ∧
    (∀ best, findBestPosition rnd pos card currentBoard = some best →
      best.row = 4 ∧ best.col < 7 ∧ getCell currentBoard 4 (best.col : Int) = none) := by
  have hfull : ((List.range COLS).filter
      (fun (col : Nat) => (getCell currentBoard ((ROWS - 1 : Nat) : Int) (col : Int)).isNone)).length
        = 0 ↔ ∀ col : Nat, col < 7 → (getCell currentBoard 4 (col : Int)).isSome = true := by
    rw [List.length_eq_zero, List.filter_eq_nil_iff]
    constructor
    · intro h col hcol
      have := h col (List.mem_range.mpr hcol)
      cases hc : getCell currentBoard 4 (col : Int) with
      | none => exact absurd (by rw [show ((ROWS - 1 : Nat) : Int) = 4 from rfl, hc]; rfl) this
      | some u => rfl
    · intro h col hcol
      have := h col (List.mem_range.mp hcol)
      rw [show ((ROWS - 1 : Nat) : Int) = 4 from rfl]
      cases hc : getCell currentBoard 4 (col : Int) with
      | none => rw [hc] at this; cases this
      | some u => simp
  constructor
  · unfold findBestPosition
    simp only []
    split
    · rename_i h
      exact ⟨fun _ => hfull.mp h, fun _ => rfl⟩
    · rename_i h
      constructor
      · intro hnone
        exfalso
        rw [List.head?_eq_none_iff] at hnone
        have hlen := (List.perm_insertionSort scoreOrder _).length_eq.symm.trans
          (congrArg List.length hnone)
        rw [List.length_map, List.enum_length] at hlen
        exact h hlen
      · intro hall
        exact absurd (hfull.mpr hall) h
  · intro best hbest
    unfold findBestPosition at hbest
    simp only [] at hbest
    split at hbest
    · cases hbest
    · have hmem := (List.perm_insertionSort scoreOrder _).mem_iff.mp (List.mem_of_mem_head? hbest)
      obtain ⟨entry, hentry, rfl⟩ := List.mem_map.mp hmem
      have hcol : entry.2 ∈ (List.range COLS).filter
          (fun (col : Nat) =>
            (getCell currentBoard ((ROWS - 1 : Nat) : Int) (col : Int)).isNone) := by
        have := List.mem_map_of_mem Prod.snd hentry
        rwa [List.enum_map_snd] at this
      obtain ⟨hr, hn⟩ := List.mem_filter.mp hcol
      refine ⟨rfl, List.mem_range.mp hr, ?_⟩
      rw [show ((ROWS - 1 : Nat) : Int) = 4 from rfl] at hn
      exact Option.isNone_iff_eq_none.mp hn

theorem findBestPosition_spec_witness :
    findBestPosition sampleSource 0 (sampleCard "p14" 1 1 1 false) fullSpawnRowGame.board =
      none ∧
    (∃ best, findBestPosition sampleSource 0 (sampleCard "p14" 1 1 1 false)
        skirmishGame.board = some best ∧
      best.row = 4 ∧ best.col < 7 ∧ getCell skirmishGame.board 4 (best.col : Int) = none) := by
  constructor
  · exact (findBestPosition_spec sampleSource 0 (sampleCard "p14" 1 1 1 false)
      fullSpawnRowGame.board).1.mpr (by decide)
  · cases h : findBestPosition sampleSource 0 (sampleCard "p14" 1 1 1 false)
        skirmishGame.board with
    | none =>
      have hall := (findBestPosition_spec sampleSource 0 (sampleCard "p14" 1 1 1 false)
        skirmishGame.board).1.mp h
      exact absurd (hall 0 (by decide)) (by decide)
    | some best =>
      exact ⟨best, rfl, (findBestPosition_spec sampleSource 0 (sampleCard "p14" 1 1 1 false)
        skirmishGame.board).2 best h⟩

/-! ## The draw phase on a full hand and an empty deck -/

/-- C26: for every state and player index whose hand holds 7 or more cards and whose deck
is empty, `drawCardOrFatigue` returns the input state: hand, deck, health and
fatigueDamage of both players and the log are the input's. -/
theorem drawCardOrFatigue_silent_noop (state : GameState) (playerIndex : Fin 2)
    (hhand : 7 ≤ (state.players playerIndex).hand.length)
    (hdeck : (state.players playerIndex).deck = []) :
    drawCardOrFatigue state playerIndex = state ∧
    (drawCardOrFatigue state playerIndex).log = state.log ∧
    ∀ i : Fin 2,
      ((drawCardOrFatigue state playerIndex).players i).hand = (state.players i).hand ∧
      ((drawCardOrFatigue state playerIndex).players i).deck = (state.players i).deck ∧
      ((drawCardOrFatigue state playerIndex).players i).health = (state.players i).health ∧
      ((drawCardOrFatigue state playerIndex).players i).fatigueDamage =
        (state.players i).fatigueDamage := by
  have hplayers : setPlayer state.players playerIndex (state.players playerIndex) =
      state.players := by
    funext idx
    unfold setPlayer
    split
    · rename_i h; rw [h]
    · rfl
  have heq : drawCardOrFatigue state playerIndex = state := by
    unfold drawCardOrFatigue
    simp only []
    rw [if_neg (by rw [show HAND_SIZE_LIMIT = 7 from rfl]; omega), hdeck]
    simp only [List.getLast?_nil]
    rw [hplayers]
  rw [heq]
  exact ⟨rfl, rfl, fun _ => ⟨rfl, rfl, rfl, rfl⟩⟩

theorem drawCardOrFatigue_silent_noop_witness :
    (7 ≤ (fullHandGame.players 0).hand.length ∧ (fullHandGame.players 0).deck = []) ∧
    (drawCardOrFatigue fullHandGame 0 = fullHandGame ∧
    (drawCardOrFatigue fullHandGame 0).log = fullHandGame.log ∧
    ∀ i : Fin 2,
      ((drawCardOrFatigue fullHandGame 0).players i).hand = (fullHandGame.players i).hand ∧
      ((drawCardOrFatigue fullHandGame 0).players i).deck = (fullHandGame.players i).deck ∧
      ((drawCardOrFatigue fullHandGame 0).players i).health =
        (fullHandGame.players i).health ∧
      ((drawCardOrFatigue fullHandGame 0).players i).fatigueDamage =
        (fullHandGame.players i).fatigueDamage) :=
  ⟨⟨by decide, by decide⟩, drawCardOrFatigue_silent_noop fullHandGame 0 (by decide) (by decide)⟩

/-! ## Processing order -/

theorem collectUnits_eq_rows (board : Board) (currentPlayer : Fin 2) :
    collectUnits board currentPlayer =
      (List.finRange ROWS).flatMap (rowUnits board currentPlayer) := rfl

theorem rowUnits_row {board : Board} {currentPlayer : Fin 2} {rowIndex : Fin ROWS} {u : UnitPos}
    (h : u ∈ rowUnits board currentPlayer rowIndex) : u.row = rowIndex.val := by
  unfold rowUnits at h
  obtain ⟨cell, _, hcell⟩ := List.mem_filterMap.mp h
  split at hcell
  · split at hcell
    · cases hcell; rfl
    · cases hcell
  · cases hcell

theorem rowUnits_columns (board : Board) (currentPlayer : Fin 2) (rowIndex : Fin ROWS) :
    (rowUnits board currentPlayer rowIndex).Pairwise (fun a b => a.col < b.col) := by
  unfold rowUnits
  have henum : (board rowIndex).enum.Pairwise (fun a b => a.1 < b.1) := by
    have := List.pairwise_lt_range (board rowIndex).length
    rw [← List.enum_map_fst, List.pairwise_map] at this
    exact this
  refine List.Pairwise.filterMap _ ?_ henum
  intro a a' haa b hb b' hb'
  simp only [Option.mem_def] at hb hb'
  split at hb
  · split at hb
    · split at hb'
      · split at hb'
        · cases hb; cases hb'; exact haa
        · cases hb'
      · cases hb'
    · cases hb
  · cases hb

theorem orderedInsert_after {α : Type} (r : α → α → Prop) [DecidableRel r] (a : α)
    (before after : List α) (hbefore : ∀ b ∈ before, ¬ r a b) (hafter : ∀ b ∈ after, r a b) :
    List.orderedInsert r a (before ++ after) = before ++ a :: after := by
  induction before with
  | nil =>
    cases after with
    | nil => rfl
    | cons b rest =>
      simp only [List.nil_append, List.orderedInsert]
      rw [if_pos (hafter b (List.mem_cons_self _ _))]
  | cons b rest ih =>
    simp only [List.cons_append, List.orderedInsert]
    rw [if_neg (hbefore b (List.mem_cons_self _ _))]
    exact congrArg (List.cons b) (ih (fun x hx => hbefore x (List.mem_cons_of_mem _ hx)))

theorem insertionSort_block {α : Type} (r : α → α → Prop) [DecidableRel r]
    (block rest : List α) (hblock : ∀ a ∈ block, ∀ b ∈ block, r a b)
    (hrest : ∀ a ∈ block, ∀ b ∈ rest, ¬ r a b) :
    (block ++ rest).insertionSort r = rest.insertionSort r ++ block := by
  induction block with
  | nil => simp
  | cons a block ih =>
    show List.orderedInsert r a ((block ++ rest).insertionSort r) = _
    rw [ih (fun x hx y hy => hblock x (List.mem_cons_of_mem _ hx) y (List.mem_cons_of_mem _ hy))
      (fun x hx y hy => hrest x (List.mem_cons_of_mem _ hx) y hy)]
    refine orderedInsert_after r a _ _ ?_ ?_
    · intro b hb
      exact hrest a (List.mem_cons_self _ _) b
        ((List.perm_insertionSort r rest).mem_iff.mp hb)
    · intro b hb
      exact hblock a (List.mem_cons_self _ _) b (List.mem_cons_of_mem _ hb)

theorem sortUnits_descending (board : Board) (rows : List (Fin ROWS))
    (hrows : rows.Pairwise (fun a b => a < b)) :
    sortUnits 0 (rows.flatMap (rowUnits board 0)) = rows.reverse.flatMap (rowUnits board 0) := by
  induction rows with
  | nil => rfl
  | cons row rows ih =>
    rw [List.pairwise_cons] at hrows
    rw [List.flatMap_cons, List.reverse_cons, List.flatMap_append, List.flatMap_cons,
      List.flatMap_nil, List.append_nil, ← ih hrows.2]
    unfold sortUnits
    refine insertionSort_block _ _ _ ?_ ?_
    · intro a ha b hb
      unfold unitOrder
      rw [if_pos rfl, rowUnits_row ha, rowUnits_row hb]
    · intro a ha b hb
      obtain ⟨row2, hrow2, hb2⟩ := List.mem_flatMap.mp hb
      unfold unitOrder
      rw [if_pos rfl, rowUnits_row ha, rowUnits_row hb2]
      have : row < row2 := hrows.1 row2 hrow2
      have : row.val < row2.val := this
      omega

theorem sortUnits_ascending (board : Board) (rows : List (Fin ROWS))
    (hrows : rows.Pairwise (fun a b => a < b)) :
    sortUnits 1 (rows.flatMap (rowUnits board 1)) = rows.flatMap (rowUnits board 1) := by
  unfold sortUnits
  refine List.Sorted.insertionSort_eq ?_
  unfold List.Sorted
  rw [List.pairwise_flatMap]
  constructor
  · intro row _
    refine List.Pairwise.imp_of_mem ?_ (rowUnits_columns board 1 row)
    intro a b ha hb _
    unfold unitOrder
    rw [if_neg (by decide), rowUnits_row ha, rowUnits_row hb]
  · refine hrows.imp ?_
    intro row row2 hlt a ha b hb
    unfold unitOrder
    rw [if_neg (by decide), rowUnits_row ha, rowUnits_row hb]
    exact le_of_lt hlt

theorem sortUnits_eq_specUnitOrder (board : Board) (currentPlayer : Fin 2) :
    sortUnits currentPlayer (collectUnits board currentPlayer) =
      specUnitOrder board currentPlayer := by
  rw [collectUnits_eq_rows]
  rcases fin2_cases currentPlayer with rfl | rfl
  · rw [sortUnits_descending board _ (List.pairwise_lt_finRange ROWS)]
    rfl
  · rw [sortUnits_ascending board _ (List.pairwise_lt_finRange ROWS)]
    rfl

theorem specUnitOrder_pairwise (board : Board) (currentPlayer : Fin 2) :
    (specUnitOrder board currentPlayer).Pairwise (actsBefore currentPlayer) := by
  unfold specUnitOrder
  rw [List.pairwise_flatMap]
  constructor
  · intro row _
    refine List.Pairwise.imp_of_mem ?_ (rowUnits_columns board currentPlayer row)
    intro a b ha hb hlt
    exact Or.inr ⟨by rw [rowUnits_row ha, rowUnits_row hb], hlt⟩
  · have hrows : (specRowOrder currentPlayer).Pairwise
        (fun a b => if currentPlayer = 0 then b < a else a < b) := by
      rcases fin2_cases currentPlayer with rfl | rfl
      · decide
      · decide
    refine hrows.imp ?_
    intro row row2 hlt a ha b hb
    left
    rw [rowUnits_row ha, rowUnits_row hb]
    split
    · rename_i h; rw [if_pos h] at hlt; exact hlt
    · rename_i h; rw [if_neg h] at hlt; exact hlt

/-- C25: `battleUnits` is the attack step resolved sequentially on the live state over the
acting player's units in the specification's order: each unit of the acting player on the
board occurs in it, and a unit earlier in it is on a row nearer the front (higher for
player 0, lower for player 1) or on the same row in a lower column. -/
theorem battleUnits_refines_spec_order (state : GameState) :
    battleUnits state = battleUnitsSpec state ∧
    (specUnitOrder state.board state.currentPlayer).Pairwise (actsBefore state.currentPlayer) ∧
    (∀ u, u ∈ specUnitOrder state.board state.currentPlayer ↔
      u.row < ROWS ∧ getCell state.board u.row u.col = some u.unit ∧
        u.unit.playerIndex = state.currentPlayer) ∧
    (∀ (before after : List UnitPos) (u : UnitPos),
      specUnitOrder state.board state.currentPlayer = before ++ u :: after →
      battleUnits state =
        after.foldl (attackStep state)
          (attackStep state (before.foldl (attackStep state) state) u)) := by
  have heq := sortUnits_eq_specUnitOrder state.board state.currentPlayer
  refine ⟨?_, specUnitOrder_pairwise _ _, ?_, ?_⟩
  · unfold battleUnits battleUnitsSpec
    rw [heq]
  · intro u
    rw [← heq, mem_sortUnits, mem_collectUnits]
  · intro before after u hsplit
    unfold battleUnits
    rw [heq, hsplit, List.foldl_append, List.foldl_cons]

theorem battleUnits_refines_spec_order_witness :
    battleUnits sharedTargetGame = battleUnitsSpec sharedTargetGame ∧
    specUnitOrder sharedTargetGame.board sharedTargetGame.currentPlayer =
      [⟨sampleUnit "left" 3 4 false 0, 0, 1⟩, ⟨sampleUnit "right" 3 4 false 0, 0, 2⟩] ∧
    getCell (attackStep sharedTargetGame sharedTargetGame
      ⟨sampleUnit "left" 3 4 false 0, 0, 1⟩).board 1 1 =
        some { sampleUnit "prey" 1 5 false 1 with health := 2 } ∧
    getCell (battleUnits sharedTargetGame).board 1 1 = none :=
  ⟨(battleUnits_refines_spec_order sharedTargetGame).1, by decide, by decide, by decide⟩

/-! ## The battle phase leaves the attacking side alone -/

/-- What the attack steps of any list of units keep of the board the phase started on:
an empty cell stays empty, a unit of the current player stays as it is, an enemy unit is
removed or keeps every field but health. -/
theorem attackSteps_cells (state : GameState) (units : List UnitPos) (r c : Int) :
    (getCell state.board r c = none →
      getCell (units.foldl (attackStep state) state).board r c = none) ∧
    (∀ unit, getCell state.board r c = some unit →
      unit.playerIndex = state.currentPlayer →
      getCell (units.foldl (attackStep state) state).board r c = some unit) ∧
    (∀ unit, getCell state.board r c = some unit →
      unit.playerIndex ≠ state.currentPlayer →
      getCell (units.foldl (attackStep state) state).board r c = none ∨
        ∃ health, getCell (units.foldl (attackStep state) state).board r c =
          some { unit with health := health }) := by
  refine foldl_invariant (fun s : GameState => ∀ r c,
    (getCell state.board r c = none → getCell s.board r c = none) ∧
    (∀ unit, getCell state.board r c = some unit → unit.playerIndex = state.currentPlayer →
      getCell s.board r c = some unit) ∧
    (∀ unit, getCell state.board r c = some unit → unit.playerIndex ≠ state.currentPlayer →
      getCell s.board r c = none ∨
        ∃ health, getCell s.board r c = some { unit with health := health }))
    _ units state ?_ ?_ r c
  · intro r c
    exact ⟨fun h => h, fun unit h _ => h, fun unit h _ => Or.inr ⟨unit.health, h⟩⟩
  · intro s u _ hs r c
    by_cases hlive : getCell s.board u.row u.col = some u.unit
    · cases hsel : selectTarget s.board state.currentPlayer u.row u.col with
      | none =>
        rw [attackStep_of_no_target state s u hsel]
        exact hs r c
      | some t =>
        obtain ⟨hget, henemy, _⟩ := selectTarget_spec hsel
        rw [attackStep_cells state s u t hlive hsel]
        by_cases hrc : r = t.r ∧ c = t.c
        · rw [if_pos hrc]
          obtain ⟨rfl, rfl⟩ := hrc
          obtain ⟨h1, h2, h3⟩ := hs t.r t.c
          refine ⟨?_, ?_, ?_⟩
          · intro hnone
            rw [h1 hnone] at hget
            cases hget
          · intro unit hunit hown
            rw [h2 unit hunit hown] at hget
            cases hget
            exact absurd hown henemy
          · intro unit hunit hfoe
            rcases h3 unit hunit hfoe with hgone | ⟨health, hthere⟩
            · rw [hgone] at hget
              cases hget
            · rw [hthere] at hget
              have ht : t.unit = { unit with health := health } :=
                (Option.some.inj hget).symm
              rw [ht]
              split
              · exact Or.inl rfl
              · exact Or.inr ⟨_, rfl⟩
        · rw [if_neg hrc]
          exact hs r c
    · rw [attackStep_of_not_live state s u hlive]
      exact hs r c

/-- C28: `battleUnits` never affects the attacking side.  Every unit of the current
player is in the same cell with the same fields afterwards, and every acting unit is
still in its cell when its turn comes; the current player's health, both players' hand,
deck, mana, manaCapacity and fatigueDamage, `gameOver` and `winner` are unchanged.  Only
cells with enemy units change, to empty or to the same unit with another health, empty
cells stay empty, and the opponent's health never increases. -/
theorem battleUnits_attacker_frame (state : GameState) :
    (∀ r c unit, getCell state.board r c = some unit →
      unit.playerIndex = state.currentPlayer →
      getCell (battleUnits state).board r c = some unit) ∧
    (∀ (before after : List UnitPos) (u : UnitPos),
      sortUnits state.currentPlayer (collectUnits state.board state.currentPlayer) =
        before ++ u :: after →
      getCell (before.foldl (attackStep state) state).board u.row u.col = some u.unit) ∧
    (∀ r c, getCell state.board r c = none → getCell (battleUnits state).board r c = none) ∧
    (∀ r c unit, getCell state.board r c = some unit →
      unit.playerIndex ≠ state.currentPlayer →
      getCell (battleUnits state).board r c = none ∨
        ∃ health, getCell (battleUnits state).board r c =
          some { unit with health := health }) ∧
    ((battleUnits state).players state.currentPlayer).health =
      (state.players state.currentPlayer).health ∧
    (∀ i, ((battleUnits state).players i).hand = (state.players i).hand ∧
      ((battleUnits state).players i).deck = (state.players i).deck ∧
      ((battleUnits state).players i).mana = (state.players i).mana ∧
      ((battleUnits state).players i).manaCapacity = (state.players i).manaCapacity ∧
      ((battleUnits state).players i).fatigueDamage = (state.players i).fatigueDamage) ∧
    (battleUnits state).gameOver = state.gameOver ∧
    (battleUnits state).winner = state.winner ∧
    ((battleUnits state).players (opponentIndex state.currentPlayer)).health ≤
      (state.players (opponentIndex state.currentPlayer)).health := by
  obtain ⟨_, f2, f3, _, f5, f6⟩ := battleUnits_frame state
  have hself : state.currentPlayer ≠ opponentIndex state.currentPlayer := by
    unfold opponentIndex
    rcases fin2_cases state.currentPlayer with h | h <;> rw [h] <;> decide
  refine ⟨?_, ?_, ?_, ?_, ?_, ?_, f2, f3, battleUnits_health_le state _⟩
  · intro r c unit hunit hown
    exact (attackSteps_cells state _ r c).2.1 unit hunit hown
  · intro before after u hsplit
    have hmem : u ∈ collectUnits state.board state.currentPlayer := by
      rw [← mem_sortUnits, hsplit]
      exact List.mem_append_right _ (List.mem_cons_self _ _)
    obtain ⟨_, hcell, hown⟩ := mem_collectUnits.mp hmem
    exact (attackSteps_cells state before u.row u.col).2.1 u.unit hcell hown
  · intro r c hnone
    exact (attackSteps_cells state _ r c).1 hnone
  · intro r c unit hunit hfoe
    exact (attackSteps_cells state _ r c).2.2 unit hunit hfoe
  · rw [f6 state.currentPlayer hself]
  · intro i
    exact economy_fields (f5 i)

theorem battleUnits_attacker_frame_witness :
    getCell sharedTargetGame.board 0 1 = some (sampleUnit "left" 3 4 false 0) ∧
    getCell (battleUnits sharedTargetGame).board 0 1 = some (sampleUnit "left" 3 4 false 0) ∧
    getCell (battleUnits sharedTargetGame).board 0 2 = some (sampleUnit "right" 3 4 false 0) ∧
    getCell sharedTargetGame.board 1 1 = some (sampleUnit "prey" 1 5 false 1) ∧
    getCell (battleUnits sharedTargetGame).board 1 1 = none ∧
    ((battleUnits sharedTargetGame).players 0).health = (sharedTargetGame.players 0).health ∧
    (battleUnits sharedTargetGame).gameOver = sharedTargetGame.gameOver ∧
    (battleUnits sharedTargetGame).winner = sharedTargetGame.winner :=
  ⟨by decide,
    (battleUnits_attacker_frame sharedTargetGame).1 0 1 _ (by decide) (by decide),
    (battleUnits_attacker_frame sharedTargetGame).1 0 2 _ (by decide) (by decide),
    by decide, by decide,
    (battleUnits_attacker_frame sharedTargetGame).2.2.2.2.1,
    (battleUnits_attacker_frame sharedTargetGame).2.2.2.2.2.2.1,
    (battleUnits_attacker_frame sharedTargetGame).2.2.2.2.2.2.2.1⟩

/-! ## The advance phase conserves units -/

theorem advanceStep_board_cases (state newState : GameState) (u : UnitPos) :
    (advanceStep state newState u).board = newState.board ∨
    (getCell newState.board u.row u.col = some u.unit ∧
      0 ≤ (u.row : Int) + direction state.currentPlayer ∧
      (u.row : Int) + direction state.currentPlayer < ROWS ∧
      getCell newState.board ((u.row : Int) + direction state.currentPlayer) u.col = none ∧
      (advanceStep state newState u).board =
        setCell (setCell newState.board ((u.row : Int) + direction state.currentPlayer) u.col
          (some u.unit)) u.row u.col none) := by
  unfold advanceStep
  split
  · exact Or.inl rfl
  · rename_i hlive
    simp only []
    split
    · exact Or.inl rfl
    · split
      · rename_i hdest
        split
        · exact Or.inl rfl
        · exact Or.inr ⟨not_not.mp hlive, hdest.1, hdest.2.1,
            Option.isNone_iff_eq_none.mp hdest.2.2, rfl⟩
      · exact Or.inl rfl

theorem move_conserves (currentPlayer : Fin 2) (input board : Board) (unit : PlacedUnit)
    (row col : Int) (hinput : oneCellPerUnit input)
    (hcons : unitsConserved currentPlayer input board) (hone : oneCellPerUnit board)
    (hin : getCell input row col = some unit) (hown : unit.playerIndex = currentPlayer)
    (hlive : getCell board row col = some unit)
    (h0 : 0 ≤ row + direction currentPlayer) (h1 : row + direction currentPlayer < ROWS)
    (hfree : getCell board (row + direction currentPlayer) col = none) :
    unitsConserved currentPlayer input
      (setCell (setCell board (row + direction currentPlayer) col (some unit)) row col none) ∧
    oneCellPerUnit
      (setCell (setCell board (row + direction currentPlayer) col (some unit)) row col none) := by
  obtain ⟨b0, b1, b2⟩ := getCell_some_bounds hlive
  have hd : direction currentPlayer = 1 ∨ direction currentPlayer = -1 := by
    rcases direction_cases currentPlayer with h | h
    · exact Or.inl h.2
    · exact Or.inr h.2
  have hcell : ∀ r c : Int,
      getCell (setCell (setCell board (row + direction currentPlayer) col (some unit))
        row col none) r c =
      if r = row ∧ c = col then none
      else if r = row + direction currentPlayer ∧ c = col then some unit
      else getCell board r c := by
    intro r c
    rw [getCell_setCell _ _ _ _ _ _ b0 b1 b2, getCell_setCell _ _ _ _ _ _ h0 h1 b2]
  obtain ⟨hout, hkeep⟩ := hcons
  refine ⟨⟨?_, ?_⟩, ?_⟩
  · intro r c v hv
    rw [hcell] at hv
    split at hv
    · cases hv
    · split at hv
      · rename_i hrc
        cases hv
        refine ⟨fun hne => absurd hown hne, fun _ => Or.inr ?_⟩
        rw [hrc.1, hrc.2, add_sub_cancel_right]
        exact hin
      · exact hout r c v hv
  · intro r c v hv
    obtain ⟨hfoe, hmine⟩ := hkeep r c v hv
    constructor
    · intro hne
      have hs := hfoe hne
      rw [hcell]
      have n1 : ¬ (r = row ∧ c = col) := by
        rintro ⟨rfl, rfl⟩
        rw [hlive] at hs
        cases hs
        exact hne hown
      have n2 : ¬ (r = row + direction currentPlayer ∧ c = col) := by
        rintro ⟨rfl, rfl⟩
        rw [hfree] at hs
        cases hs
      rw [if_neg n1, if_neg n2]
      exact hs
    · intro hme
      rcases hmine hme with hs | hs
      · by_cases e1 : r = row ∧ c = col
        · obtain ⟨rfl, rfl⟩ := e1
          rw [hlive] at hs
          cases hs
          right
          rw [hcell, if_neg (by rintro ⟨h, _⟩; omega), if_pos ⟨rfl, rfl⟩]
        · have n2 : ¬ (r = row + direction currentPlayer ∧ c = col) := by
            rintro ⟨rfl, rfl⟩
            rw [hfree] at hs
            cases hs
          left
          rw [hcell, if_neg e1, if_neg n2]
          exact hs
      · by_cases e1 : r + direction currentPlayer = row ∧ c = col
        · exfalso
          obtain ⟨e, rfl⟩ := e1
          rw [e, hlive] at hs
          cases hs
          have := (hinput _ _ _ _ _ hv hin).1
          omega
        · have n2 : ¬ (r + direction currentPlayer = row + direction currentPlayer ∧ c = col) := by
            rintro ⟨e, rfl⟩
            rw [e, hfree] at hs
            cases hs
          right
          rw [hcell, if_neg e1, if_neg n2]
          exact hs
  · intro r c r' c' v hv hv'
    rw [hcell] at hv hv'
    split at hv
    · cases hv
    · split at hv'
      · cases hv'
      · rename_i n1 n1'
        split at hv
        · rename_i e
          cases hv
          split at hv'
          · rename_i e'
            exact ⟨e.1.trans e'.1.symm, e.2.trans e'.2.symm⟩
          · exact absurd (hone _ _ _ _ _ hv' hlive) n1'
        · split at hv'
          · cases hv'
            exact absurd (hone _ _ _ _ _ hv hlive) n1
          · exact hone _ _ _ _ _ hv hv'

theorem getCell_some_col {board : Board} {r c : Int} {unit : PlacedUnit}
    (hshape : ∀ row, (board row).length = COLS) (h : getCell board r c = some unit) :
    c < COLS := by
  unfold getCell at h
  split at h
  · rename_i i _
    unfold rowGet at h
    split at h
    · rw [List.getD_eq_getElem?_getD] at h
      by_contra hc
      rw [List.getElem?_eq_none (by rw [hshape i]; simp only [COLS] at hc ⊢; omega)] at h
      cases h
    · cases h
  · cases h

theorem setCell_shape (board : Board) (r c : Int) (v : Option PlacedUnit)
    (hshape : ∀ row, (board row).length = COLS) (hc : c < COLS) :
    ∀ row, (setCell board r c v row).length = COLS := by
  intro row
  unfold setCell
  cases rowIdx? r with
  | none => exact hshape row
  | some i =>
    simp only []
    split
    · by_cases e : row = i
      · subst e
        rw [Function.update_same]
        unfold rowSet
        rw [if_pos (by rw [hshape row]; simp only [COLS] at hc ⊢; omega), List.length_set]
        exact hshape row
      · rw [Function.update_noteq e]
        exact hshape row
    · exact hshape row

theorem advanceUnits_invariant (state : GameState)
    (hshape : ∀ row, (state.board row).length = COLS) (hone : oneCellPerUnit state.board) :
    (∀ row, ((advanceUnits state).board row).length = COLS) ∧
    unitsConserved state.currentPlayer state.board (advanceUnits state).board ∧
    oneCellPerUnit (advanceUnits state).board := by
  unfold advanceUnits
  refine foldl_invariant (fun s : GameState =>
    (∀ row, (s.board row).length = COLS) ∧
    unitsConserved state.currentPlayer state.board s.board ∧ oneCellPerUnit s.board)
    _ _ _ ?_ ?_
  · refine ⟨hshape, ⟨?_, ?_⟩, hone⟩
    · intro r c unit h
      exact ⟨fun _ => h, fun _ => Or.inl h⟩
    · intro r c unit h
      exact ⟨fun _ => h, fun _ => Or.inl h⟩
  · intro s u hu ⟨s1, s2, s3⟩
    obtain ⟨_, hin, hown⟩ := mem_collectUnits.mp (mem_sortUnits.mp hu)
    rcases advanceStep_board_cases state s u with hsame | ⟨hlive, h0, h1, hfree, hmoved⟩
    · rw [hsame]
      exact ⟨s1, s2, s3⟩
    · rw [hmoved]
      have hcol := getCell_some_col s1 hlive
      obtain ⟨m1, m2⟩ := move_conserves state.currentPlayer state.board s.board u.unit u.row
        u.col hone s2 s3 hin hown hlive h0 h1 hfree
      exact ⟨setCell_shape _ _ _ _ (setCell_shape _ _ _ _ s1 hcol) hcol, m1, m2⟩

theorem oneCellPerUnit_of_cells (board : Board) (hshape : ∀ row, (board row).length = COLS)
    (h : ∀ (r r' : Fin ROWS) (c c' : Fin COLS),
      (getCell board (r.val : Int) (c.val : Int)).isSome = true →
      getCell board (r.val : Int) (c.val : Int) = getCell board (r'.val : Int) (c'.val : Int) →
      r = r' ∧ c = c') :
    oneCellPerUnit board := by
  intro r c r' c' unit h1 h2
  obtain ⟨a0, a1, a2⟩ := getCell_some_bounds h1
  obtain ⟨b0, b1, b2⟩ := getCell_some_bounds h2
  have a3 := getCell_some_col hshape h1
  have b3 := getCell_some_col hshape h2
  simp only [ROWS, COLS, Nat.cast_ofNat] at a1 b1 a3 b3
  have := h ⟨r.toNat, by simp only [ROWS]; omega⟩ ⟨r'.toNat, by simp only [ROWS]; omega⟩
    ⟨c.toNat, by simp only [COLS]; omega⟩ ⟨c'.toNat, by simp only [COLS]; omega⟩
  simp only [Int.toNat_of_nonneg a0, Int.toNat_of_nonneg a2, Int.toNat_of_nonneg b0,
    Int.toNat_of_nonneg b2, h1, h2, Option.isSome_some, Fin.mk.injEq, true_implies] at this
  omega

/-- C27: on a 5x7 board on which no unit stands in two cells, the board `advanceUnits`
returns is 5x7, no unit stands in two of its cells, and its units are those of the input
board with all fields unchanged: a unit on it stood in the same cell or, when it is the
current player's, one row back in the same column; every enemy unit of the input is in
its cell, and every unit of the current player is in its cell or one row forward in the
same column. -/
theorem advanceUnits_conserves_units (state : GameState)
    (hshape : ∀ row, (state.board row).length = 7)
    (hone : ∀ (r r' : Fin ROWS) (c c' : Fin COLS),
      (getCell state.board (r.val : Int) (c.val : Int)).isSome = true →
      getCell state.board (r.val : Int) (c.val : Int) =
        getCell state.board (r'.val : Int) (c'.val : Int) →
      r = r' ∧ c = c') :
    (∀ row, ((advanceUnits state).board row).length = 7) ∧
    (∀ (r c r' c' : Int) (unit : PlacedUnit),
      getCell (advanceUnits state).board r c = some unit →
      getCell (advanceUnits state).board r' c' = some unit → r = r' ∧ c = c') ∧
    (∀ (r c : Int) (unit : PlacedUnit), getCell (advanceUnits state).board r c = some unit →
      (unit.playerIndex ≠ state.currentPlayer → getCell state.board r c = some unit) ∧
      (unit.playerIndex = state.currentPlayer →
        getCell state.board r c = some unit ∨
          getCell state.board (r - direction state.currentPlayer) c = some unit)) ∧
    (∀ (r c : Int) (unit : PlacedUnit), getCell state.board r c = some unit →
      (unit.playerIndex ≠ state.currentPlayer →
        getCell (advanceUnits state).board r c = some unit) ∧
      (unit.playerIndex = state.currentPlayer →
        getCell (advanceUnits state).board r c = some unit ∨
          getCell (advanceUnits state).board (r + direction state.currentPlayer) c =
            some unit)) := by
  obtain ⟨k1, k2, k3⟩ := advanceUnits_invariant state hshape
    (oneCellPerUnit_of_cells state.board hshape hone)
  exact ⟨k1, k3, k2.1, k2.2⟩

theorem advanceUnits_conserves_units_witness :
    (getCell marchGame.board 2 3 = some (sampleUnit "mid" 2 2 false 1) ∧
      getCell (advanceUnits marchGame).board 1 3 = some (sampleUnit "mid" 2 2 false 1) ∧
      getCell (advanceUnits marchGame).board 2 0 = some (sampleUnit "left" 2 2 false 1)) ∧
    ((∀ row, ((advanceUnits marchGame).board row).length = 7) ∧
    (∀ (r c r' c' : Int) (unit : PlacedUnit),
      getCell (advanceUnits marchGame).board r c = some unit →
      getCell (advanceUnits marchGame).board r' c' = some unit → r = r' ∧ c = c') ∧
    (∀ (r c : Int) (unit : PlacedUnit),
      getCell (advanceUnits marchGame).board r c = some unit →
      (unit.playerIndex ≠ marchGame.currentPlayer → getCell marchGame.board r c = some unit) ∧
      (unit.playerIndex = marchGame.currentPlayer →
        getCell marchGame.board r c = some unit ∨
          getCell marchGame.board (r - direction marchGame.currentPlayer) c = some unit)) ∧
    (∀ (r c : Int) (unit : PlacedUnit), getCell marchGame.board r c = some unit →
      (unit.playerIndex ≠ marchGame.currentPlayer →
        getCell (advanceUnits marchGame).board r c = some unit) ∧
      (unit.playerIndex = marchGame.currentPlayer →
        getCell (advanceUnits marchGame).board r c = some unit ∨
          getCell (advanceUnits marchGame).board (r + direction marchGame.currentPlayer) c =
            some unit))) :=
  ⟨by decide, advanceUnits_conserves_units marchGame (by decide) (by decide)⟩

/-! ## Game over and the winner -/

theorem advanceUnits_outcome (state : GameState) :
    (unitOnLastRow state.board state.currentPlayer →
      (advanceUnits state).gameOver = true ∧
        (advanceUnits state).winner = some state.currentPlayer) ∧
    (¬ unitOnLastRow state.board state.currentPlayer →
      (advanceUnits state).gameOver = state.gameOver ∧
        (advanceUnits state).winner = state.winner) := by
  constructor
  · rintro ⟨r, c, unit, hget, hp, hrow⟩
    obtain ⟨b1, b2, b3⟩ := getCell_some_bounds hget
    have b2' : r < 5 := b2
    have hmem : (⟨unit, r.toNat, c.toNat⟩ : UnitPos) ∈
        sortUnits state.currentPlayer (collectUnits state.board state.currentPlayer) := by
      rw [mem_sortUnits, mem_collectUnits]
      simp only [Int.toNat_of_nonneg b1, Int.toNat_of_nonneg b3]
      exact ⟨show r.toNat < 5 by omega, hget, hp⟩
    have hsorted := sortUnits_sorted state.currentPlayer
      (collectUnits state.board state.currentPlayer)
    have hall : ∀ u ∈ sortUnits state.currentPlayer
        (collectUnits state.board state.currentPlayer),
        u.row < 5 ∧ getCell state.board u.row u.col = some u.unit := by
      intro u hu
      obtain ⟨h1, h2, _⟩ := mem_collectUnits.mp (mem_sortUnits.mp hu)
      exact ⟨h1, h2⟩
    unfold advanceUnits
    generalize sortUnits state.currentPlayer (collectUnits state.board state.currentPlayer) =
      units at hmem hsorted hall
    cases units with
    | nil => cases hmem
    | cons first rest =>
      obtain ⟨f1, f2⟩ := hall first (List.mem_cons_self _ _)
      have hrel : unitOrder state.currentPlayer first ⟨unit, r.toNat, c.toNat⟩ ∨
          first = ⟨unit, r.toNat, c.toNat⟩ := by
        rcases List.mem_cons.mp hmem with h | h
        · exact Or.inr h.symm
        · exact Or.inl (List.rel_of_sorted_cons hsorted _ h)
      have hoff : (state.currentPlayer = 0 ∧ first.row = 4) ∨
          (state.currentPlayer = 1 ∧ first.row = 0) := by
        rcases hrow with ⟨hc, hr⟩ | ⟨hc, hr⟩
        · left
          refine ⟨hc, ?_⟩
          rcases hrel with h | h
          · unfold unitOrder at h
            rw [if_pos hc] at h
            simp only [hr] at h
            have : (4 : Int).toNat = 4 := rfl
            omega
          · rw [h, hr]; rfl
        · right
          refine ⟨hc, ?_⟩
          rcases hrel with h | h
          · unfold unitOrder at h
            rw [if_neg (by rw [hc]; decide)] at h
            simp only [hr] at h
            have : (0 : Int).toNat = 0 := rfl
            omega
          · rw [h, hr]; rfl
      rw [List.foldl_cons]
      refine foldl_invariant (fun s : GameState =>
        s.gameOver = true ∧ s.winner = some state.currentPlayer) _ _ _ ?_ ?_
      · exact advanceStep_wins state state first f2 hoff
      · intro s u _ hs
        exact advanceStep_keeps_win state s u hs
  · intro hnone
    unfold advanceUnits
    refine foldl_invariant (fun s : GameState =>
      s.gameOver = state.gameOver ∧ s.winner = state.winner) _ _ _ ⟨rfl, rfl⟩ ?_
    intro s u hu hs
    rw [mem_sortUnits, mem_collectUnits] at hu
    obtain ⟨u1, u2, u3⟩ := hu
    have hon : ¬ ((state.currentPlayer = 0 ∧ u.row = 4) ∨
        (state.currentPlayer = 1 ∧ u.row = 0)) := by
      intro h
      apply hnone
      refine ⟨u.row, u.col, u.unit, u2, u3, ?_⟩
      rcases h with ⟨hc, hr⟩ | ⟨hc, hr⟩
      · exact Or.inl ⟨hc, by rw [hr]; rfl⟩
      · exact Or.inr ⟨hc, by rw [hr]; rfl⟩
    obtain ⟨k1, k2⟩ := advanceStep_no_win state s u u1 hon
    exact ⟨k1.trans hs.1, k2.trans hs.2⟩

theorem advanceUnits_outcome_of (state : GameState) (board : Board) (currentPlayer : Fin 2)
    (gameOver : Bool) (winner : Option (Fin 2)) (hboard : state.board = board)
    (hplayer : state.currentPlayer = currentPlayer) (hover : state.gameOver = gameOver)
    (hwinner : state.winner = winner) :
    (unitOnLastRow board currentPlayer →
      (advanceUnits state).gameOver = true ∧ (advanceUnits state).winner = some currentPlayer) ∧
    (¬ unitOnLastRow board currentPlayer →
      (advanceUnits state).gameOver = gameOver ∧ (advanceUnits state).winner = winner) := by
  subst hboard hplayer hover hwinner
  exact advanceUnits_outcome state

theorem endTurnSwitch_outcome (state newState : GameState) :
    (unitOnLastRow newState.board (1 - state.currentPlayer) →
      (endTurnSwitch state newState).gameOver = true ∧
        (endTurnSwitch state newState).winner = some (1 - state.currentPlayer)) ∧
    (¬ unitOnLastRow newState.board (1 - state.currentPlayer) →
      (endTurnSwitch state newState).gameOver = newState.gameOver ∧
        (endTurnSwitch state newState).winner = newState.winner) := by
  rw [← other_player]
  obtain ⟨d1, d2, d3, _, d5, _⟩ := drawCardOrFatigue_frame
    { newState with
      currentPlayer := if state.currentPlayer = 0 then 1 else 0
      turn := if (if state.currentPlayer = 0 then (1 : Fin 2) else 0) = 0 then state.turn + 1
        else state.turn
      isFirstTurn := if (if state.currentPlayer = 0 then (1 : Fin 2) else 0) = 1 then false
        else state.isFirstTurn }
    (if state.currentPlayer = 0 then 1 else 0)
  have hcp := (turnInfo_fields d1).1
  unfold endTurnSwitch
  exact advanceUnits_outcome_of _ _ _ _ _ d5 hcp d2 d3

/-- The reducer has no guard of its own for `END_TURN` on a finished game: were it
received with player 0 the winner and a unit of player 1 on row 0, the advance phase of
player 1 would run and make player 1 the winner. -/
theorem endTurn_on_finished_game :
    finishedGame.gameOver = true ∧ finishedGame.winner = some 0 ∧
    (gameReducer finishedGame Action.END_TURN).gameOver = true ∧
    (gameReducer finishedGame Action.END_TURN).winner = some 1 := by
  decide

theorem gameReducer_finished (state : GameState) (action : Action)
    (hover : state.gameOver = true) (haction : ∀ payload, action ≠ Action.START_GAME payload) :
    (gameReducer state action).gameOver = true ∧
    (action ≠ Action.END_TURN → (gameReducer state action).winner = state.winner) ∧
    (action = Action.END_TURN →
      ¬ unitOnLastRow (battleUnits state).board (1 - state.currentPlayer) →
      (gameReducer state action).winner = state.winner) := by
  obtain ⟨_, f2, f3, _, _, _⟩ := battleUnits_frame state
  cases action with
  | START_GAME payload => exact absurd rfl (haction payload)
  | SELECT_CARD card =>
    refine ⟨?_, fun _ => ?_, fun h => by cases h⟩
    · show (selectCard state card).gameOver = true
      unfold selectCard
      simp only []
      split <;> exact hover
    · show (selectCard state card).winner = state.winner
      unfold selectCard
      simp only []
      split <;> rfl
  | PLACE_CARD row col =>
    have hsame : placeCard state row col = state := by
      unfold placeCard
      simp only []
      split
      · rfl
      · rw [if_pos hover]
    refine ⟨?_, fun _ => ?_, fun h => by cases h⟩
    · show (placeCard state row col).gameOver = true
      rw [hsame]; exact hover
    · show (placeCard state row col).winner = state.winner
      rw [hsame]
  | BATTLE_PHASE =>
    have hsame : battlePhase state = battleUnits state := by
      unfold battlePhase
      simp only []
      rw [f2, hover]
      rfl
    refine ⟨?_, fun _ => ?_, fun h => by cases h⟩
    · show (battlePhase state).gameOver = true
      rw [hsame, f2]; exact hover
    · show (battlePhase state).winner = state.winner
      rw [hsame, f3]
  | END_TURN =>
    have htrig : winCheckTriggers state = false := by
      unfold winCheckTriggers
      rw [f2, hover]
      rfl
    rw [gameReducer_endTurn_of_not_triggers state htrig]
    obtain ⟨o1, o2⟩ := endTurnSwitch_outcome state
      { battleUnits state with
        log := (battleUnits state).log ++ ["Turn " ++ toString state.turn ++
          ": Battle phase for Player " ++ toString (playerNo state.currentPlayer)] }
    refine ⟨?_, fun h => absurd rfl h, fun _ h => ?_⟩
    · by_cases h : unitOnLastRow (battleUnits state).board (1 - state.currentPlayer)
      · exact (o1 h).1
      · rw [(o2 h).1]
        exact f2.trans hover
    · rw [(o2 h).2]
      exact f3
  | ADD_LOG payload => exact ⟨hover, fun _ => rfl, fun h => by cases h⟩
  | SET_AI_PROCESSING payload => exact ⟨hover, fun _ => rfl, fun h => by cases h⟩
  | SET_ERROR payload => exact ⟨hover, fun _ => rfl, fun h => by cases h⟩
  | CLEAR_ERROR => exact ⟨hover, fun _ => rfl, fun h => by cases h⟩
  | UNKNOWN => exact ⟨hover, fun _ => rfl, fun h => by cases h⟩

/-- C29: game over is final.  For every state with `gameOver = true` and every action
other than `START_GAME` the returned state has `gameOver = true`, `END_TURN` included;
the winner is the input's for every action other than `END_TURN`, and for `END_TURN`,
whose advance phase still runs, whenever that phase takes no unit of the new current
player off the board (none stands on row 4 for player 0, row 0 for player 1, after the
battle phase).  Hence along every sequence of actions the app dispatches, which sends
`END_TURN` only while the game is not over, a finished game keeps `gameOver = true` and
its winner. -/
theorem game_over_stays (state : GameState) (action : Action) (hover : state.gameOver = true)
    (haction : ∀ payload, action ≠ Action.START_GAME payload) :
    (gameReducer state action).gameOver = true ∧
    (action ≠ Action.END_TURN → (gameReducer state action).winner = state.winner) ∧
    (action = Action.END_TURN →
      (¬ ∃ (r c : Int) (unit : PlacedUnit), getCell (battleUnits state).board r c = some unit ∧
          unit.playerIndex = 1 - state.currentPlayer ∧
          ((1 - state.currentPlayer = 0 ∧ r = 4) ∨ (1 - state.currentPlayer = 1 ∧ r = 0))) →
      (gameReducer state action).winner = state.winner) ∧
    (∀ later, ReachableFrom (fun s => s = state) appDispatch later →
      later.gameOver = true ∧ later.winner = state.winner) := by
  obtain ⟨g1, g2, g3⟩ := gameReducer_finished state action hover haction
  refine ⟨g1, g2, g3, ?_⟩
  intro later hlater
  induction hlater with
  | @start s hinit =>
    rw [hinit]
    exact ⟨hover, rfl⟩
  | @step s a _ hallowed ih =>
    have hnot : a ≠ Action.END_TURN := by
      intro hend
      have := hallowed.2 hend
      rw [ih.1] at this
      cases this
    obtain ⟨k1, k2, _⟩ := gameReducer_finished s a ih.1 hallowed.1
    exact ⟨k1, (k2 hnot).trans ih.2⟩

theorem game_over_stays_witness :
    (finishedGame.gameOver = true ∧
      ∀ payload, Action.PLACE_CARD 0 0 ≠ Action.START_GAME payload) ∧
    (gameReducer finishedGame (Action.PLACE_CARD 0 0)).gameOver = true ∧
    (gameReducer finishedGame (Action.PLACE_CARD 0 0)).winner = finishedGame.winner ∧
    (gameReducer (gameReducer finishedGame (Action.SELECT_CARD (sampleCard "p14" 1 1 1 false)))
      (Action.PLACE_CARD 0 0)).winner = finishedGame.winner :=
  ⟨⟨by decide, fun payload h => by cases h⟩,
    (game_over_stays finishedGame (Action.PLACE_CARD 0 0) (by decide)
      (fun payload h => by cases h)).1,
    (game_over_stays finishedGame (Action.PLACE_CARD 0 0) (by decide)
      (fun payload h => by cases h)).2.1 (fun h => by cases h),
    ((game_over_stays finishedGame (Action.PLACE_CARD 0 0) (by decide)
      (fun payload h => by cases h)).2.2.2 _
        (ReachableFrom.step (Action.PLACE_CARD 0 0)
          (ReachableFrom.step (Action.SELECT_CARD (sampleCard "p14" 1 1 1 false))
            (ReachableFrom.start rfl)
            ⟨fun payload h => (by cases h), fun h => (by cases h)⟩)
          ⟨fun payload h => (by cases h), fun h => (by cases h)⟩)).2⟩

/-! ## The pending selection across END_TURN -/

theorem rivalGame_generated : generatedGame rivalGame :=
  ⟨sampleDeck, rivalDeck, "orc", "human", none, ["Game started! Player 1 begins."],
    by unfold costsGenerated; decide, by unfold costsGenerated; decide, rfl⟩

theorem initializeGame_generated (fuel : Nat) (rnd : Nat → ℚ)
    (hrnd : ∀ n, 0 ≤ rnd n ∧ rnd n < 1) (player1Archetype player2Archetype : Archetype)
    (state : GameState)
    (h : initializeGame fuel rnd player1Archetype player2Archetype = some state) :
    generatedGame state := by
  unfold initializeGame at h
  cases h1 : generateDeck fuel rnd 0 player1Archetype with
  | none => rw [h1] at h; cases h
  | some first =>
    obtain ⟨deck1, pos1⟩ := first
    rw [h1] at h
    simp only [] at h
    cases h2 : generateDeck fuel rnd pos1 player2Archetype with
    | none => rw [h2] at h; cases h
    | some second =>
      obtain ⟨deck2, pos2⟩ := second
      rw [h2] at h
      simp only [Option.some.injEq] at h
      exact ⟨deck1, deck2, player1Archetype.key, player2Archetype.key, none,
        ["Game started! Player 1 begins."],
        generateDeck_costsGenerated fuel rnd hrnd 0 player1Archetype deck1 pos1 h1,
        generateDeck_costsGenerated fuel rnd hrnd pos1 player2Archetype deck2 pos2 h2,
        h.symm⟩

/-- C30, at the failing input.  Player 0 selects the hand card `p14` and ends the turn:
the state is reachable by the actions of play, player 1 is to move, and the selection of
player 0 is still pending although player 1 does not hold that card.  `PLACE_CARD` on
player 1's spawn row then puts player 0's card on the board as a unit of player 1, takes
its cost from player 1's mana and removes from player 1's hand the other card with the
same id, while player 0 still holds the card that was placed. -/
theorem selection_survives_endTurn :
    ReachableFrom generatedGame playAction carriedSelectionGame ∧
    sampleCard "p14" 1 1 1 false ∈ (rivalGame.players rivalGame.currentPlayer).hand ∧
    carriedSelectionGame.currentPlayer = 1 ∧
    carriedSelectionGame.gameOver = false ∧
    carriedSelectionGame.selectedCard = some (sampleCard "p14" 1 1 1 false) ∧
    sampleCard "p14" 1 1 1 false ∉
      (carriedSelectionGame.players carriedSelectionGame.currentPlayer).hand ∧
    getCell (gameReducer carriedSelectionGame (Action.PLACE_CARD 4 0)).board 4 0 =
      some { toCard := sampleCard "p14" 1 1 1 false, playerIndex := 1 } ∧
    (carriedSelectionGame.players 1).mana = 2 ∧
    ((gameReducer carriedSelectionGame (Action.PLACE_CARD 4 0)).players 1).mana = 1 ∧
    sampleCard "p14" 1 2 2 false ∈ (carriedSelectionGame.players 1).hand ∧
    sampleCard "p14" 1 2 2 false ∉
      ((gameReducer carriedSelectionGame (Action.PLACE_CARD 4 0)).players 1).hand ∧
    sampleCard "p14" 1 1 1 false ∈
      ((gameReducer carriedSelectionGame (Action.PLACE_CARD 4 0)).players 0).hand := by
  refine ⟨?_, by decide, by decide, by decide, by decide, by decide, by decide, by decide,
    by decide, by decide, by decide, by decide⟩
  have h0 : ReachableFrom generatedGame playAction rivalGame :=
    ReachableFrom.start rivalGame_generated
  have h1 := ReachableFrom.step (Action.SELECT_CARD (sampleCard "p14" 1 1 1 false)) h0
    (Or.inl ⟨_, by decide, rfl⟩)
  exact ReachableFrom.step Action.END_TURN h1 (Or.inr (Or.inr rfl))

/-! ## The mana refill of END_TURN -/

/-- C3. `END_TURN` on a state where the post-battle win check does not trigger and the
new current player's mana capacity is in the range of the data model (at most 10): the
new current player ends with `manaCapacity = min (old + 1) 10` and mana equal to that new
capacity, whatever mana they had before, while the other player's mana and capacity are
unchanged.  Every state of play has its capacities in that range, so there the formula
holds with no condition on the capacity; and on a freshly initialised game, whatever the
two decks, player 1 ends with mana 2 and capacity 2. -/
theorem endTurn_refills_mana (state : GameState) (h : winCheckTriggers state = false)
    (hcap : (state.players (1 - state.currentPlayer)).manaCapacity ≤ 10) :
    ((gameReducer state Action.END_TURN).players (1 - state.currentPlayer)).manaCapacity =
      min ((state.players (1 - state.currentPlayer)).manaCapacity + 1) 10 ∧
    ((gameReducer state Action.END_TURN).players (1 - state.currentPlayer)).mana =
      min ((state.players (1 - state.currentPlayer)).manaCapacity + 1) 10 ∧
    ((gameReducer state Action.END_TURN).players state.currentPlayer).mana =
      (state.players state.currentPlayer).mana ∧
    ((gameReducer state Action.END_TURN).players state.currentPlayer).manaCapacity =
      (state.players state.currentPlayer).manaCapacity ∧
    (∀ s, ReachableFrom generatedGame playAction s → winCheckTriggers s = false →
      ((gameReducer s Action.END_TURN).players (1 - s.currentPlayer)).manaCapacity =
        min ((s.players (1 - s.currentPlayer)).manaCapacity + 1) 10 ∧
      ((gameReducer s Action.END_TURN).players (1 - s.currentPlayer)).mana =
        min ((s.players (1 - s.currentPlayer)).manaCapacity + 1) 10) ∧
    (∀ d1 d2 a1 a2,
      ((gameReducer (initializeGameWith d1 d2 a1 a2) Action.END_TURN).players 1).mana = 2 ∧
      ((gameReducer (initializeGameWith d1 d2 a1 a2) Action.END_TURN).players 1).manaCapacity
        = 2) := by
  obtain ⟨_, k2, k3, k4, k5, k6⟩ := endTurn_refill state h
  refine ⟨k2 hcap, ?_, k4, k5, ?_, k6⟩
  · rw [k3]
    exact k2 hcap
  · intro s hs htrig
    obtain ⟨_, j2, j3, _⟩ := endTurn_refill s htrig
    have hle := ((reachable_mana_invariant s hs).1 (1 - s.currentPlayer)).2.2.2
    refine ⟨j2 hle, ?_⟩
    rw [j3]
    exact j2 hle

theorem endTurn_refills_mana_witness :
    (winCheckTriggers sampleGame = false ∧
      (sampleGame.players (1 - sampleGame.currentPlayer)).manaCapacity ≤ 10) ∧
    ((gameReducer sampleGame Action.END_TURN).players 1).manaCapacity = min (1 + 1) 10 ∧
    ((gameReducer sampleGame Action.END_TURN).players 1).mana = 2 ∧
    ((gameReducer sampleGame Action.END_TURN).players 0).mana = 1 :=
  ⟨⟨by decide, by decide⟩,
    (endTurn_refills_mana sampleGame (by decide) (by decide)).1,
    (endTurn_refills_mana sampleGame (by decide) (by decide)).2.1,
    (endTurn_refills_mana sampleGame (by decide) (by decide)).2.2.1⟩

/-! ## PLACE_CARD payloads out of range -/

/-- C14 (amended): for every state with a selected card and `gameOver = false`, a
`PLACE_CARD` payload whose row is outside `0..4`, or whose column is outside `0..6` on a
row other than the current player's spawn row, is an invalid placement: the result is the
input state with only the message replaced, so board, hands, mana and selection are the
input's.  The reducer has no column check: on the current player's spawn row of a 5x7
board a payload with a column above 6 is placed like one into any other empty cell. -/
theorem placeCard_out_of_range (state : GameState) (card : Card) (row col : Int)
    (hsel : state.selectedCard = some card) (hover : state.gameOver = false) :
    ((row < 0 ∨ 4 < row) →
      gameReducer state (Action.PLACE_CARD row col) =
        { state with message := "Must place on spawn row!" }) ∧
    ((col < 0 ∨ 6 < col) → row ≠ (if state.currentPlayer = 0 then 0 else 4) →
      gameReducer state (Action.PLACE_CARD row col) =
        { state with message := "Must place on spawn row!" }) ∧
    ((∀ r, (state.board r).length = 7) → 6 < col →
      row = (if state.currentPlayer = 0 then 0 else 4) →
      gameReducer state (Action.PLACE_CARD row col) =
        { state with
          board := setCell state.board row col
            (some { toCard := card, playerIndex := state.currentPlayer })
          players := setPlayer state.players state.currentPlayer
            { state.players state.currentPlayer with
              hand := (state.players state.currentPlayer).hand.filter
                (fun c => c.id ≠ card.id)
              mana := (state.players state.currentPlayer).mana - card.cost }
          selectedCard := none
          message := "Unit placed!"
          log := state.log ++ ["Turn " ++ toString state.turn ++ ": Player " ++
            toString (playerNo state.currentPlayer) ++ " placed " ++ card.name ++ " at " ++
            toString row ++ "," ++ toString col] }) := by
  have hvalid : (if state.currentPlayer = 0 then (0 : Int) else (ROWS : Int) - 1) =
      (if state.currentPlayer = 0 then 0 else 4) := by
    split <;> rfl
  have hwrong : row ≠ (if state.currentPlayer = 0 then 0 else 4) →
      gameReducer state (Action.PLACE_CARD row col) =
        { state with message := "Must place on spawn row!" } := by
    intro hrow
    show placeCard state row col = _
    unfold placeCard
    simp only [hsel, hover, Bool.false_eq_true, if_false, hvalid, if_pos hrow]
  refine ⟨?_, fun _ hrow => hwrong hrow, ?_⟩
  · intro hout
    apply hwrong
    split <;> omega
  · intro hshape hcol hrow
    subst hrow
    have hfree : (getCell state.board (if state.currentPlayer = 0 then 0 else 4) col).isSome =
        false := by
      cases hc : getCell state.board (if state.currentPlayer = 0 then 0 else 4) col with
      | none => rfl
      | some unit =>
        have := getCell_some_col hshape hc
        simp only [COLS, Nat.cast_ofNat] at this
        omega
    show placeCard state _ col = _
    unfold placeCard
    simp only [hsel, hover, Bool.false_eq_true, if_false, hvalid, ne_eq,
      not_true_eq_false, hfree]

theorem placeCard_out_of_range_witness :
    (selectedGame.selectedCard = some (sampleCard "p14" 1 1 1 false) ∧
      selectedGame.gameOver = false) ∧
    gameReducer selectedGame (Action.PLACE_CARD 5 2) =
      { selectedGame with message := "Must place on spawn row!" } ∧
    gameReducer selectedGame (Action.PLACE_CARD 3 7) =
      { selectedGame with message := "Must place on spawn row!" } ∧
    (gameReducer selectedGame (Action.PLACE_CARD 0 7)).selectedCard = none ∧
    (gameReducer selectedGame (Action.PLACE_CARD 0 7)).message = "Unit placed!" :=
  ⟨⟨by decide, by decide⟩,
    (placeCard_out_of_range selectedGame (sampleCard "p14" 1 1 1 false) 5 2 (by decide)
      (by decide)).1 (by decide),
    (placeCard_out_of_range selectedGame (sampleCard "p14" 1 1 1 false) 3 7 (by decide)
      (by decide)).2.1 (by decide) (by decide),
    (by
      rw [(placeCard_out_of_range selectedGame (sampleCard "p14" 1 1 1 false) 0 7 (by decide)
        (by decide)).2.2 (by decide) (by decide) (by decide)]),
    (by
      rw [(placeCard_out_of_range selectedGame (sampleCard "p14" 1 1 1 false) 0 7 (by decide)
        (by decide)).2.2 (by decide) (by decide) (by decide)])⟩

end CurveGame
